import Mathlib

/-!
A shallow embedding of lib/ext2fs/extent.c (the extent-tree engine of the
e2fsprogs library) and proofs checking the natural-language specification of
that file against the code.

Modelling conventions, used throughout:
* C machine integers are Nat or Int with explicit reductions mod 2^16 / 2^32
  at the points where the C code stores into or reads from an on-disk field
  (the ext2fs_le16_to_cpu and ext2fs_cpu_to_le16 families are, on a
  little-endian host, truncations to the field width).
* A 12-byte on-disk record is a NodeRec; the C code reinterprets the same
  bytes as struct ext3_extent at leaves and struct ext3_extent_idx at
  interior nodes, and the accessor functions below reproduce that byte
  overlay exactly for either constructor.
* A node buffer (the inode i_block region or one filesystem block) is an
  ExtNode: its 12-byte header plus the list of its live records.  The list
  holds exactly the records counted by the runtime entries field of the
  frame; memmove-based shifts in insert and delete become list insertions
  and removals.
* The ext2_filsys collaborator is a Filsys record of the fields extent.c
  reads, passed to each operation explicitly (the C code reaches it through
  handle.fs; the handle itself never changes which filesystem it points at).
  Block and inode writes performed by update_path are modelled by the error
  code the I/O channel would return plus a log of attempted write events;
  reads are a function from block number to a result.
* In struct extent_path, the C curr field is a pointer into buf; here it is
  the record index (the record at byte offset 12 + 12*i has index i), with
  none standing for NULL.  The flags field of struct extent_path is never
  referenced in extent.c and is omitted.
* EXT2_CHECK_MAGIC on the filesystem and on the handle always succeeds for
  values built by this model and is not represented.
-/

/-- The 16-bit field reduction: ext2fs_le16_to_cpu / ext2fs_cpu_to_le16 on a
little-endian host, i.e. the value a 16-bit on-disk field can hold. -/
def le16 (x : Nat) : Nat := x % 65536

/-- The 32-bit field reduction, as le16. -/
def le32 (x : Nat) : Nat := x % 4294967296

/-- Storing a C int into a 16-bit on-disk field (conversion to u16). -/
def toLe16I (x : Int) : Nat := (x % 65536).toNat

/-- The EXT3_EXT_MAGIC constant of the extent header. -/
def EXT3_EXT_MAGIC : Nat := 0xF30A

def EXT_INIT_MAX_LEN : Nat := 32768

/- Cursor operation codes (ext2fs.h). -/

def EXT2_EXTENT_CURRENT : Nat := 0x0000
def EXT2_EXTENT_NEXT : Nat := 0x0001
def EXT2_EXTENT_PREV : Nat := 0x0002
def EXT2_EXTENT_NEXT_LEAF : Nat := 0x0003
def EXT2_EXTENT_PREV_LEAF : Nat := 0x0004
def EXT2_EXTENT_NEXT_SIB : Nat := 0x0005
def EXT2_EXTENT_PREV_SIB : Nat := 0x0006
def EXT2_EXTENT_UP : Nat := 0x0007
def EXT2_EXTENT_DOWN : Nat := 0x0008
def EXT2_EXTENT_FIRST_SIB : Nat := 0x0009
def EXT2_EXTENT_LAST_SIB : Nat := 0x000A
def EXT2_EXTENT_LAST_LEAF : Nat := 0x000B
def EXT2_EXTENT_ROOT : Nat := 0x000C
def EXT2_EXTENT_DOWN_AND_LAST : Nat := 0x000D
def EXT2_EXTENT_MOVE_MASK : Nat := 0x000F
def EXT2_EXTENT_INSERT_AFTER : Nat := 0x0001

/- Flags of the decoded extent record handed to callers. -/

def EXT2_EXTENT_FLAGS_LEAF : Nat := 0x0001
def EXT2_EXTENT_FLAGS_UNINIT : Nat := 0x0002
def EXT2_EXTENT_FLAGS_SECOND_VISIT : Nat := 0x0004

/- Filesystem flags read by extent.c. -/

def EXT2_FLAG_RW : Nat := 0x01
def EXT2_FLAG_IMAGE_FILE : Nat := 0x2000

/-- The extents feature flag in the inode flag word. -/
def EXT4_EXTENTS_FL : Nat := 0x80000

/- Error codes.  The numeric values of the com_err codes do not matter to
extent.c; distinct small numbers are used here. -/

def EXT2_ET_BAD_INODE_NUM : Nat := 1
def EXT2_ET_INODE_NOT_EXTENT : Nat := 2
def EXT2_ET_EXTENT_HEADER_BAD : Nat := 3
def EXT2_ET_NO_CURRENT_NODE : Nat := 4
def EXT2_ET_EXTENT_NO_NEXT : Nat := 5
def EXT2_ET_EXTENT_NO_PREV : Nat := 6
def EXT2_ET_EXTENT_NO_UP : Nat := 7
def EXT2_ET_EXTENT_NO_DOWN : Nat := 8
def EXT2_ET_EXTENT_NOT_FOUND : Nat := 9
def EXT2_ET_CANT_INSERT_EXTENT : Nat := 10
def EXT2_ET_RO_FILSYS : Nat := 11
def EXT2_ET_OP_NOT_SUPPORTED : Nat := 12

/-- The 12-byte header struct ext3_extent_header, fields raw. -/
structure Ext3ExtentHeader where
  eh_magic : Nat
  eh_entries : Nat
  eh_max : Nat
  eh_depth : Nat
  eh_generation : Nat
deriving DecidableEq, Repr

/-- One 12-byte record slot.  The extRec constructor carries the record in
its struct ext3_extent reading (ee_block, ee_len, ee_start_hi, ee_start) and
the idxRec constructor in its struct ext3_extent_idx reading (ei_block,
ei_leaf, ei_leaf_hi, ei_unused).  Both readings of either constructor are
available through the accessors below, which reproduce the byte overlay of
the two C structs over the same 12 bytes. -/
inductive NodeRec where
  | extRec (b len shi s : Nat)
  | idxRec (b leaf lhi unused : Nat)
deriving DecidableEq, Repr

instance : Inhabited NodeRec := ⟨NodeRec.extRec 0 0 0 0⟩

/-- Bytes 0..3 of the record: ee_block in the extent reading. -/
def NodeRec.ee_block : NodeRec → Nat
  | .extRec b _ _ _ => b % 4294967296
  | .idxRec b _ _ _ => b % 4294967296

/-- Bytes 4..5: ee_len; in the idx reading these are the low half of ei_leaf. -/
def NodeRec.ee_len : NodeRec → Nat
  | .extRec _ len _ _ => len % 65536
  | .idxRec _ leaf _ _ => leaf % 65536

/-- Bytes 6..7: ee_start_hi; in the idx reading the high half of ei_leaf. -/
def NodeRec.ee_start_hi : NodeRec → Nat
  | .extRec _ _ shi _ => shi % 65536
  | .idxRec _ leaf _ _ => leaf / 65536 % 65536

/-- Bytes 8..11: ee_start; in the idx reading ei_leaf_hi plus ei_unused. -/
def NodeRec.ee_start : NodeRec → Nat
  | .extRec _ _ _ s => s % 4294967296
  | .idxRec _ _ lhi unused => lhi % 65536 + unused % 65536 * 65536

/-- Bytes 0..3: ei_block. -/
def NodeRec.ei_block : NodeRec → Nat
  | .extRec b _ _ _ => b % 4294967296
  | .idxRec b _ _ _ => b % 4294967296

/-- Bytes 4..7: ei_leaf; in the extent reading ee_len plus ee_start_hi. -/
def NodeRec.ei_leaf : NodeRec → Nat
  | .extRec _ len shi _ => len % 65536 + shi % 65536 * 65536
  | .idxRec _ leaf _ _ => leaf % 4294967296

/-- Bytes 8..9: ei_leaf_hi; in the extent reading the low half of ee_start. -/
def NodeRec.ei_leaf_hi : NodeRec → Nat
  | .extRec _ _ _ s => s % 65536
  | .idxRec _ _ lhi _ => lhi % 65536

/-- Bytes 10..11: ei_unused; in the extent reading the high half of ee_start. -/
def NodeRec.ei_unused : NodeRec → Nat
  | .extRec _ _ _ s => s / 65536 % 65536
  | .idxRec _ _ _ unused => unused % 65536

/-- A node buffer: header plus its live records. -/
structure ExtNode where
  hdr : Ext3ExtentHeader
  recs : List NodeRec
deriving DecidableEq, Repr

/-- A zero-filled or freshly allocated buffer. -/
def emptyNode : ExtNode :=
  { hdr := { eh_magic := 0, eh_entries := 0, eh_max := 0, eh_depth := 0, eh_generation := 0 },
    recs := [] }

/-- Record slot at index i (curr pointer arithmetic); out of range reads give
the junk record. -/
def ExtNode.recAt (n : ExtNode) (i : Int) : NodeRec :=
  if 0 ≤ i then n.recs.getD i.toNat default else default

/-- struct extent_path.  entries, max_entries and left are C ints; curr is
the index form of the record pointer, none for NULL. -/
structure ExtentPath where
  buf : Option ExtNode
  entries : Int
  max_entries : Int
  left : Int
  visit_num : Nat
  end_blk : Nat
  curr : Option Int
deriving DecidableEq, Repr

def defaultPath : ExtentPath :=
  { buf := none, entries := 0, max_entries := 0, left := 0, visit_num := 0,
    end_blk := 0, curr := none }

/-- The fields of struct ext2_inode that extent.c reads: the flag word, the
two size halves, and the 60-byte i_block region holding the root node. -/
structure Ext2Inode where
  i_flags : Nat
  i_size : Nat
  i_size_high : Nat
  i_block : ExtNode
deriving DecidableEq, Repr

/-- struct ext2_extent_handle.  The fs pointer is passed to each operation
separately; frame 0 aliases the i_block region of the inode copy, so the
authoritative root node after open lives in the frame 0 buffer. -/
structure ExtentHandle where
  ino : Nat
  inode : Ext2Inode
  type : Nat
  level : Nat
  max_depth : Nat
  path : Option (List ExtentPath)
deriving DecidableEq, Repr

/-- The decoded extent record returned to callers (struct ext2fs_extent). -/
structure Ext2fsExtent where
  e_pblk : Nat
  e_lblk : Nat
  e_len : Nat
  e_flags : Nat
deriving DecidableEq, Repr

/-- struct ext2_extent_info. -/
structure Ext2ExtentInfo where
  curr_entry : Int
  curr_level : Nat
  num_entries : Int
  max_entries : Int
  max_depth : Nat
  bytes_avail : Int
  max_lblk : Nat
  max_pblk : Nat
  max_len : Nat
  max_uninit_len : Nat
deriving DecidableEq, Repr

/-- An attempted write issued by update_path. -/
inductive WriteEv where
  | inodeWrite (ino : Nat) (root : ExtNode)
  | blkWrite (blk : Nat) (n : ExtNode)
deriving DecidableEq, Repr

/-- The collaborator filesystem handle: exactly the fields extent.c reads.
readBlk models io_channel_read_blk on one block; writeBlkErr and
writeInodeErr give the error codes io_channel_write_blk and
ext2fs_write_inode_full would return (0 for success); allocHandleErr and
allocInodeErr let ext2fs_get_mem fail at the two checked allocation sites of
ext2fs_extent_open. -/
structure Filsys where
  flags : Nat
  blocksize : Nat
  blockSizeBits : Nat
  image_io_differs : Bool
  readBlk : Nat → Except Nat ExtNode
  writeBlkErr : Nat → Nat
  writeInodeErr : Nat
  inodes_count : Nat
  readInode : Nat → Except Nat Ext2Inode
  allocHandleErr : Nat
  allocInodeErr : Nat

/-- ext2fs_extent_header_verify (extent.c lines 125..148).  size is the C
int region size; the division is C truncating division. -/
def ext2fs_extent_header_verify (eh : Ext3ExtentHeader) (size : Int) : Nat :=
  if le16 eh.eh_magic ≠ EXT3_EXT_MAGIC then EXT2_ET_EXTENT_HEADER_BAD
  else if le16 eh.eh_entries > le16 eh.eh_max then EXT2_ET_EXTENT_HEADER_BAD
  else
    let entry_size : Int := if eh.eh_depth = 0 then 12 else 12
    let eh_max : Int := Int.tdiv (size - 12) entry_size
    if (le16 eh.eh_max : Int) > eh_max ∨ (le16 eh.eh_max : Int) < eh_max - 2 then
      EXT2_ET_EXTENT_HEADER_BAD
    else 0

/-- The frame at a level (handle.path + level). -/
def ExtentHandle.frame (h : ExtentHandle) (l : Nat) : ExtentPath :=
  (h.path.getD []).getD l defaultPath

/-- Store back a frame at a level. -/
def ExtentHandle.setFrame (h : ExtentHandle) (l : Nat) (p : ExtentPath) : ExtentHandle :=
  { h with path := some ((h.path.getD []).set l p) }

/-- The operation-selection phase of ext2fs_extent_get (lines 262..332): for
the compound NEXT/PREV families and LAST_LEAF the requested operation is
replaced by an atomic one, possibly updating visit_num of the current frame;
other codes pass through. -/
def extentGetSelect (origOp : Nat) (level max_depth : Nat) (path : ExtentPath) :
    Except Nat (Nat × ExtentPath) :=
  if origOp = EXT2_EXTENT_NEXT ∨ origOp = EXT2_EXTENT_NEXT_LEAF then
    if level < max_depth then
      if path.visit_num = 0 then
        Except.ok (EXT2_EXTENT_DOWN, { path with visit_num := path.visit_num + 1 })
      else if path.left > 0 then Except.ok (EXT2_EXTENT_NEXT_SIB, path)
      else if level > 0 then Except.ok (EXT2_EXTENT_UP, path)
      else Except.error EXT2_ET_EXTENT_NO_NEXT
    else
      if path.left > 0 then Except.ok (EXT2_EXTENT_NEXT_SIB, path)
      else if level > 0 then Except.ok (EXT2_EXTENT_UP, path)
      else Except.error EXT2_ET_EXTENT_NO_NEXT
  else if origOp = EXT2_EXTENT_PREV ∨ origOp = EXT2_EXTENT_PREV_LEAF then
    if level < max_depth then
      if path.visit_num > 0 then Except.ok (EXT2_EXTENT_DOWN_AND_LAST, path)
      else if path.left < path.entries - 1 then Except.ok (EXT2_EXTENT_PREV_SIB, path)
      else if level > 0 then Except.ok (EXT2_EXTENT_UP, path)
      else Except.error EXT2_ET_EXTENT_NO_PREV
    else
      if path.left < path.entries - 1 then Except.ok (EXT2_EXTENT_PREV_SIB, path)
      else if level > 0 then Except.ok (EXT2_EXTENT_UP, path)
      else Except.error EXT2_ET_EXTENT_NO_PREV
  else if origOp = EXT2_EXTENT_LAST_LEAF then
    if level < max_depth ∧ path.left = 0 then Except.ok (EXT2_EXTENT_DOWN, path)
    else Except.ok (EXT2_EXTENT_LAST_SIB, path)
  else Except.ok (origOp, path)

/-- The NEXT_SIB case of the switch (lines 344..357); ROOT and FIRST_SIB
fall through to it. -/
def extentNextSibCase (h : ExtentHandle) : (Except Nat (Option Int)) × ExtentHandle :=
  let path := h.frame h.level
  if path.left ≤ 0 then (Except.error EXT2_ET_EXTENT_NO_NEXT, h)
  else
    let ix : Int :=
      match path.curr with
      | some i => i + 1
      | none => 0
    (Except.ok (some ix),
     h.setFrame h.level { path with left := path.left - 1, curr := some ix, visit_num := 0 })

/-- The PREV_SIB case (lines 358..368). -/
def extentPrevSibCase (h : ExtentHandle) : (Except Nat (Option Int)) × ExtentHandle :=
  let path := h.frame h.level
  match path.curr with
  | none => (Except.error EXT2_ET_EXTENT_NO_PREV, h)
  | some i =>
    if path.left + 1 ≥ path.entries then (Except.error EXT2_ET_EXTENT_NO_PREV, h)
    else
      let v := if h.level < h.max_depth then 1 else path.visit_num
      (Except.ok (some (i - 1)),
       h.setFrame h.level { path with curr := some (i - 1), left := path.left + 1, visit_num := v })

/-- The LAST_SIB case (lines 369..375); EXT_LAST_EXTENT is the record at
index eh_entries - 1. -/
def extentLastSibCase (h : ExtentHandle) : (Except Nat (Option Int)) × ExtentHandle :=
  let path := h.frame h.level
  let eh := (path.buf.getD emptyNode).hdr
  let ix : Int := (le16 eh.eh_entries : Int) - 1
  (Except.ok (some ix),
   h.setFrame h.level { path with curr := some ix, left := 0, visit_num := 0 })

/-- The UP case (lines 376..385): ascend one level; a PREV-family original
operation resets visit_num of the parent. -/
def extentUpCase (origOp : Nat) (h : ExtentHandle) : (Except Nat (Option Int)) × ExtentHandle :=
  if h.level = 0 then (Except.error EXT2_ET_EXTENT_NO_UP, h)
  else
    let lvl := h.level - 1
    let parent := h.frame lvl
    let parent1 :=
      if origOp = EXT2_EXTENT_PREV ∨ origOp = EXT2_EXTENT_PREV_LEAF then
        { parent with visit_num := 0 }
      else parent
    (Except.ok parent1.curr, { h.setFrame lvl parent1 with level := lvl })

/-- The DOWN and DOWN_AND_LAST cases (lines 386..446).  The child frame
buffer is allocated lazily (an uninitialized allocation is modelled as
emptyNode); in image-file mode with a detached image channel the child is
zero-filled instead of read.  Note that handle.level is incremented before
the header of the fresh child is verified, exactly as in the C code.  The
48-bit child address of lines 399..400 is stored into the 32-bit blk_t
local of line 253, so it is truncated mod 2^32 before io_channel_read_blk
sees it. -/
def extentDownCase (fs : Filsys) (op : Nat) (h : ExtentHandle) :
    (Except Nat (Option Int)) × ExtentHandle :=
  let path := h.frame h.level
  match path.curr with
  | none => (Except.error EXT2_ET_EXTENT_NO_DOWN, h)
  | some i =>
    if h.level ≥ h.max_depth then (Except.error EXT2_ET_EXTENT_NO_DOWN, h)
    else
      let r := (path.buf.getD emptyNode).recAt i
      let blk := le32 (r.ei_leaf + r.ei_leaf_hi * 4294967296)
      let newpath := h.frame (h.level + 1)
      let readRes : Except Nat ExtNode :=
        if fs.flags &&& EXT2_FLAG_IMAGE_FILE ≠ 0 ∧ fs.image_io_differs then
          Except.ok emptyNode
        else fs.readBlk blk
      match readRes with
      | Except.error e =>
        (Except.error e,
         h.setFrame (h.level + 1) { newpath with buf := some (newpath.buf.getD emptyNode) })
      | Except.ok child =>
        let h1 := { h.setFrame (h.level + 1) { newpath with buf := some child } with
                    level := h.level + 1 }
        let v := ext2fs_extent_header_verify child.hdr (fs.blocksize : Int)
        if v ≠ 0 then (Except.error v, h1)
        else
          let ent : Int := (le16 child.hdr.eh_entries : Int)
          let endB : Nat :=
            if path.left > 0 then ((path.buf.getD emptyNode).recAt (i + 1)).ei_block
            else path.end_blk
          let np := { h1.frame h1.level with
                      entries := ent, max_entries := (le16 child.hdr.eh_max : Int),
                      end_blk := endB }
          if op = EXT2_EXTENT_DOWN then
            (Except.ok (some 0),
             h1.setFrame h1.level { np with curr := some 0, left := ent - 1, visit_num := 0 })
          else
            let ixl : Int := ent - 1
            let v1 := if h1.level < h.max_depth then 1 else np.visit_num
            (Except.ok (some ixl),
             h1.setFrame h1.level { np with curr := some ixl, left := 0, visit_num := v1 })

/-- The switch of ext2fs_extent_get (lines 334..449), with the C
fall-through of ROOT into FIRST_SIB into NEXT_SIB made explicit.  The result
carries the ix record pointer as an index (none for NULL, checked by the
caller at line 451). -/
def extentGetSwitch (fs : Filsys) (origOp op : Nat) (h : ExtentHandle) :
    (Except Nat (Option Int)) × ExtentHandle :=
  if op = EXT2_EXTENT_CURRENT then (Except.ok (h.frame h.level).curr, h)
  else if op = EXT2_EXTENT_ROOT ∨ op = EXT2_EXTENT_FIRST_SIB ∨ op = EXT2_EXTENT_NEXT_SIB then
    let h1 := if op = EXT2_EXTENT_ROOT then { h with level := 0 } else h
    let h2 :=
      if op = EXT2_EXTENT_ROOT ∨ op = EXT2_EXTENT_FIRST_SIB then
        let p := h1.frame h1.level
        h1.setFrame h1.level { p with left := p.entries, curr := none }
      else h1
    extentNextSibCase h2
  else if op = EXT2_EXTENT_PREV_SIB then extentPrevSibCase h
  else if op = EXT2_EXTENT_LAST_SIB then extentLastSibCase h
  else if op = EXT2_EXTENT_UP then extentUpCase origOp h
  else if op = EXT2_EXTENT_DOWN ∨ op = EXT2_EXTENT_DOWN_AND_LAST then extentDownCase fs op h
  else (Except.error EXT2_ET_OP_NOT_SUPPORTED, h)

/-- The record decoding at return time (lines 451..483): the record under
the cursor after the switch, read as a leaf extent at max depth and as an
index record above it, with the SECOND_VISIT flag from visit_num. -/
def decodeCurrentExtent (h : ExtentHandle) (ix : Int) : Ext2fsExtent :=
  let path := h.frame h.level
  let n := path.buf.getD emptyNode
  let r := n.recAt ix
  let base : Ext2fsExtent :=
    if h.level = h.max_depth then
      let len0 := r.ee_len
      { e_pblk := r.ee_start + r.ee_start_hi * 4294967296
        e_lblk := r.ee_block
        e_len := if len0 > EXT_INIT_MAX_LEN then len0 - EXT_INIT_MAX_LEN else len0
        e_flags := EXT2_EXTENT_FLAGS_LEAF |||
          (if len0 > EXT_INIT_MAX_LEN then EXT2_EXTENT_FLAGS_UNINIT else 0) }
    else
      let lblk := r.ei_block
      let endB : Nat := if path.left > 0 then (n.recAt (ix + 1)).ei_block else path.end_blk
      { e_pblk := r.ei_leaf + r.ei_leaf_hi * 4294967296
        e_lblk := lblk
        e_len := (((endB : Int) - (lblk : Int)) % (18446744073709551616 : Int)).toNat
        e_flags := 0 }
  if path.visit_num ≠ 0 then
    { base with e_flags := base.e_flags ||| EXT2_EXTENT_FLAGS_SECOND_VISIT }
  else base

/-- One pass of ext2fs_extent_get from the retry label to either an error
return or the decode at the bottom. -/
def extentGetOnce (fs : Filsys) (origOp : Nat) (h : ExtentHandle) :
    (Except Nat Ext2fsExtent) × ExtentHandle :=
  match extentGetSelect origOp h.level h.max_depth (h.frame h.level) with
  | Except.error e => (Except.error e, h)
  | Except.ok (op, path1) =>
    let h1 := h.setFrame h.level path1
    match extentGetSwitch fs origOp op h1 with
    | (Except.error e, h2) => (Except.error e, h2)
    | (Except.ok none, h2) => (Except.error EXT2_ET_NO_CURRENT_NODE, h2)
    | (Except.ok (some ix), h2) => (Except.ok (decodeCurrentExtent h2 ix), h2)

/-- The goto retry loop of ext2fs_extent_get (lines 484..492): NEXT_LEAF and
PREV_LEAF retry until the cursor is at max depth, LAST_LEAF additionally
until no sibling remains.  The fuel never runs out for the bound used by
ext2fs_extent_get below. -/
def extentGetLoop (fs : Filsys) (origOp : Nat) :
    Nat → ExtentHandle → (Except Nat Ext2fsExtent) × ExtentHandle
  | 0, h => (Except.error EXT2_ET_OP_NOT_SUPPORTED, h)
  | fuel + 1, h =>
    match extentGetOnce fs origOp h with
    | (Except.error e, h1) => (Except.error e, h1)
    | (Except.ok ext, h1) =>
      if (origOp = EXT2_EXTENT_NEXT_LEAF ∨ origOp = EXT2_EXTENT_PREV_LEAF) ∧
          h1.level ≠ h1.max_depth then
        extentGetLoop fs origOp fuel h1
      else if origOp = EXT2_EXTENT_LAST_LEAF ∧
          (h1.level ≠ h1.max_depth ∨ (h1.frame h1.level).left ≠ 0) then
        extentGetLoop fs origOp fuel h1
      else (Except.ok ext, h1)

/-- ext2fs_extent_get (lines 245..495). -/
def ext2fs_extent_get (fs : Filsys) (h : ExtentHandle) (flags : Nat) :
    (Except Nat Ext2fsExtent) × ExtentHandle :=
  match h.path with
  | none => (Except.error EXT2_ET_NO_CURRENT_NODE, h)
  | some _ => extentGetLoop fs (flags &&& EXT2_EXTENT_MOVE_MASK) (2 * h.max_depth + 4) h

/-- update_path (lines 497..515): at the root the inode is rewritten, below
it the block named by the parent frame record under its cursor. -/
def update_path (fs : Filsys) (h : ExtentHandle) : Nat × List WriteEv :=
  if h.level = 0 then
    (fs.writeInodeErr, [WriteEv.inodeWrite h.ino ((h.frame 0).buf.getD emptyNode)])
  else
    let ix := ((h.frame (h.level - 1)).buf.getD emptyNode).recAt
      ((h.frame (h.level - 1)).curr.getD 0)
    let blk := ix.ei_leaf + ix.ei_leaf_hi * 4294967296
    (fs.writeBlkErr blk, [WriteEv.blkWrite blk ((h.frame h.level).buf.getD emptyNode)])

/-- The record image ext2fs_extent_replace stores (lines 651..665): the
extent layout at a leaf (level = max depth), the index layout above it, with
each store truncated to its field width.  Note that the stored length is the
callers e_len unchanged: the UNINIT flag of the argument is not consulted. -/
def replaceRecEncode (atLeaf : Bool) (extent : Ext2fsExtent) : NodeRec :=
  if atLeaf then
    NodeRec.extRec (le32 extent.e_lblk) (le16 extent.e_len)
      (le16 (extent.e_pblk / 4294967296)) (le32 (extent.e_pblk % 4294967296))
  else
    NodeRec.idxRec (le32 extent.e_lblk) (le32 (extent.e_pblk % 4294967296))
      (le16 (extent.e_pblk / 4294967296)) 0

/-- ext2fs_extent_replace (lines 631..668).  Note that the return value of
update_path is discarded (line 666) and the function returns 0. -/
def ext2fs_extent_replace (fs : Filsys) (h : ExtentHandle) (flags : Nat)
    (extent : Ext2fsExtent) : Nat × ExtentHandle × List WriteEv :=
  if fs.flags &&& EXT2_FLAG_RW = 0 then (EXT2_ET_RO_FILSYS, h, [])
  else
    match h.path with
    | none => (EXT2_ET_NO_CURRENT_NODE, h, [])
    | some _ =>
      let path := h.frame h.level
      match path.curr with
      | none => (EXT2_ET_NO_CURRENT_NODE, h, [])
      | some i =>
        let n := path.buf.getD emptyNode
        let r : NodeRec := replaceRecEncode (h.level == h.max_depth) extent
        let n1 := { n with recs := if 0 ≤ i then n.recs.set i.toNat r else n.recs }
        let h1 := h.setFrame h.level { path with buf := some n1 }
        (0, h1, (update_path fs h1).2)

/-- ext2fs_extent_delete (lines 727..768).  With records to the right of the
cursor the memmove removes the record under the cursor; with none the
entries decrement drops the last live record and the cursor steps back. -/
def ext2fs_extent_delete (fs : Filsys) (h : ExtentHandle) (flags : Nat) :
    Nat × ExtentHandle × List WriteEv :=
  if fs.flags &&& EXT2_FLAG_RW = 0 then (EXT2_ET_RO_FILSYS, h, [])
  else
    match h.path with
    | none => (EXT2_ET_NO_CURRENT_NODE, h, [])
    | some _ =>
      let path := h.frame h.level
      match path.curr with
      | none => (EXT2_ET_NO_CURRENT_NODE, h, [])
      | some i =>
        let n := path.buf.getD emptyNode
        let shift := path.left ≠ 0
        let recs1 :=
          if shift then (if 0 ≤ i then n.recs.eraseIdx i.toNat else n.recs)
          else n.recs.dropLast
        let curr1 : Option Int := if shift then some i else some (i - 1)
        let left1 := if shift then path.left - 1 else path.left
        let entries1 := path.entries - 1
        let curr2 := if entries1 = 0 then none else curr1
        let n1 := { n with
                    recs := recs1,
                    hdr := { n.hdr with eh_entries := toLe16I entries1 } }
        let h1 := h.setFrame h.level
          { path with buf := some n1, curr := curr2, left := left1, entries := entries1 }
        let (r, evs) := update_path fs h1
        (r, h1, evs)

/-- ext2fs_extent_insert (lines 670..725).  The memmove shifts the left1+1
slots starting at the insertion point one slot right, the slot at the
insertion point keeping its old bytes until the replace overwrites it; with
left1 negative (INSERT_AFTER past the last record) nothing moves and the new
last slot holds junk until the replace.  Any error after the shift is rolled
back through ext2fs_extent_delete, whose own result is ignored. -/
def ext2fs_extent_insert (fs : Filsys) (h : ExtentHandle) (flags : Nat)
    (extent : Ext2fsExtent) : Nat × ExtentHandle × List WriteEv :=
  if fs.flags &&& EXT2_FLAG_RW = 0 then (EXT2_ET_RO_FILSYS, h, [])
  else
    match h.path with
    | none => (EXT2_ET_NO_CURRENT_NODE, h, [])
    | some _ =>
      let path := h.frame h.level
      if path.entries ≥ path.max_entries then (EXT2_ET_CANT_INSERT_EXTENT, h, [])
      else
        let n := path.buf.getD emptyNode
        let ins : Int × Int :=
          match path.curr with
          | some i0 =>
            if flags &&& EXT2_EXTENT_INSERT_AFTER ≠ 0 then (i0 + 1, path.left - 1)
            else (i0, path.left)
          | none => (0, path.left)
        let i := ins.1
        let left1 := ins.2
        let recs1 :=
          if 0 ≤ left1 ∧ 0 ≤ i then (n.recs.insertIdx i.toNat (n.recAt i))
          else n.recs ++ [default]
        let entries1 := path.entries + 1
        let n1 := { n with
                    recs := recs1,
                    hdr := { n.hdr with eh_entries := toLe16I entries1 } }
        let h1 := h.setFrame h.level
          { path with buf := some n1, curr := some i, left := left1 + 1, entries := entries1 }
        let rep := ext2fs_extent_replace fs h1 0 extent
        if rep.1 ≠ 0 then
          let del := ext2fs_extent_delete fs rep.2.1 0
          (rep.1, del.2.1, rep.2.2 ++ del.2.2)
        else
          let up := update_path fs rep.2.1
          if up.1 ≠ 0 then
            let del := ext2fs_extent_delete fs rep.2.1 0
            (up.1, del.2.1, rep.2.2 ++ up.2 ++ del.2.2)
          else (0, rep.2.1, rep.2.2 ++ up.2)

/-- ext2fs_extent_get_info (lines 770..800).  curr_entry divides the byte
offset of the cursor record (12 + 12*i, counting the header) by the record
size, with C truncating division. -/
def ext2fs_extent_get_info (h : ExtentHandle) : Ext2ExtentInfo :=
  let base : Ext2ExtentInfo :=
    { curr_entry := 0, curr_level := h.level, num_entries := 0, max_entries := 0,
      max_depth := h.max_depth, bytes_avail := 0,
      max_lblk := 4294967295, max_pblk := 281474976710655,
      max_len := 32768, max_uninit_len := 32767 }
  match h.path with
  | none => base
  | some _ =>
    let path := h.frame h.level
    { base with
      curr_entry :=
        (match path.curr with
         | some i => Int.tdiv (12 + 12 * i) 12
         | none => 0),
      num_entries := path.entries, max_entries := path.max_entries,
      bytes_avail := (path.max_entries - path.entries) * 12 }

/-- Heap allocations ext2fs_extent_open can make: the handle struct, the
inode copy, the path frame array. -/
inductive Alloc where
  | handleMem
  | inodeMem
  | pathMem
deriving DecidableEq, Repr

/-- ext2fs_extent_open (lines 173..239).  The third component lists the
allocations still live when the call returns: on success they are owned by
the returned handle; on a failure path they have leaked.  The two early
failures (inode copy allocation, inode read) go through the errout label and
free everything; the INODE_NOT_EXTENT and root header failures return
directly without freeing.  The allocation of the path array itself is not
checked by the C code at all and is modelled as succeeding. -/
def ext2fs_extent_open (fs : Filsys) (ino : Nat) : Nat × Option ExtentHandle × List Alloc :=
  if ino = 0 ∨ ino > fs.inodes_count then (EXT2_ET_BAD_INODE_NUM, none, [])
  else if fs.allocHandleErr ≠ 0 then (fs.allocHandleErr, none, [])
  else if fs.allocInodeErr ≠ 0 then (fs.allocInodeErr, none, [])
  else
    match fs.readInode ino with
    | Except.error e => (e, none, [])
    | Except.ok inode =>
      if inode.i_flags &&& EXT4_EXTENTS_FL = 0 then
        (EXT2_ET_INODE_NOT_EXTENT, none, [Alloc.handleMem, Alloc.inodeMem])
      else
        let eh := inode.i_block.hdr
        let v := ext2fs_extent_header_verify eh 60
        if v ≠ 0 then (v, none, [Alloc.handleMem, Alloc.inodeMem])
        else
          let maxd := le16 eh.eh_depth
          let path0 : ExtentPath :=
            { buf := some inode.i_block,
              entries := (le16 eh.eh_entries : Int),
              left := (le16 eh.eh_entries : Int),
              max_entries := (le16 eh.eh_max : Int),
              curr := none,
              end_blk := (inode.i_size_high * 4294967296 + inode.i_size +
                (fs.blocksize - 1)) >>> fs.blockSizeBits,
              visit_num := 1 }
          (0,
           some { ino := ino, inode := inode, type := le16 eh.eh_magic, level := 0,
                  max_depth := maxd,
                  path := some (path0 :: List.replicate maxd defaultPath) },
           [Alloc.handleMem, Alloc.inodeMem, Alloc.pathMem])

/-- The body of the while loop of extent_goto (lines 573..622).  The C goto
into the go_down label is modelled by the Bool mode argument: true means the
next step is the DOWN of go_down.  The extent argument carries the extent
variable of the C code across iterations.  The fuel never runs out for the
bound gotoFuel used below. -/
def extentGotoLoop (fs : Filsys) (leaf_level : Nat) (blk : Nat) :
    Nat → Bool → Ext2fsExtent → ExtentHandle → Nat × ExtentHandle
  | 0, _, _, h => (EXT2_ET_OP_NOT_SUPPORTED, h)
  | fuel + 1, true, _, h =>
    (match ext2fs_extent_get fs h EXT2_EXTENT_DOWN with
     | (Except.error e, h1) => (e, h1)
     | (Except.ok ext1, h1) => extentGotoLoop fs leaf_level blk fuel false ext1 h1)
  | fuel + 1, false, extent, h =>
    if (h.level : Int) - (leaf_level : Int) = (h.max_depth : Int) then
      if blk ≥ extent.e_lblk ∧ blk < extent.e_lblk + extent.e_len then (0, h)
      else if blk < extent.e_lblk then
        (EXT2_ET_EXTENT_NOT_FOUND, (ext2fs_extent_get fs h EXT2_EXTENT_PREV_SIB).2)
      else
        match ext2fs_extent_get fs h EXT2_EXTENT_NEXT_SIB with
        | (Except.error e, h1) =>
          if e = EXT2_ET_EXTENT_NO_NEXT then (EXT2_ET_EXTENT_NOT_FOUND, h1) else (e, h1)
        | (Except.ok ext1, h1) => extentGotoLoop fs leaf_level blk fuel false ext1 h1
    else
      match ext2fs_extent_get fs h EXT2_EXTENT_NEXT_SIB with
      | (Except.error e, h1) =>
        if e = EXT2_ET_EXTENT_NO_NEXT then extentGotoLoop fs leaf_level blk fuel true extent h1
        else (e, h1)
      | (Except.ok ext1, h1) =>
        if blk = ext1.e_lblk then extentGotoLoop fs leaf_level blk fuel true ext1 h1
        else if blk > ext1.e_lblk then extentGotoLoop fs leaf_level blk fuel false ext1 h1
        else
          match ext2fs_extent_get fs h1 EXT2_EXTENT_PREV_SIB with
          | (Except.error e, h2) => (e, h2)
          | (Except.ok ext2, h2) => extentGotoLoop fs leaf_level blk fuel true ext2 h2

/-- Fuel bound for extent_goto: per level the sibling walk takes at most
65535 successful NEXT_SIB steps (entry counts come from 16-bit header
fields), plus the back step and the descent, doubled because the go_down
mode consumes a step of its own. -/
def gotoFuel (h : ExtentHandle) : Nat := 2 * ((h.max_depth + 1) * 65538 + 4)

/-- extent_goto (lines 562..623). -/
def extent_goto (fs : Filsys) (h : ExtentHandle) (leaf_level : Nat) (blk : Nat) :
    Nat × ExtentHandle :=
  match ext2fs_extent_get fs h EXT2_EXTENT_ROOT with
  | (Except.error e, h1) => (e, h1)
  | (Except.ok extent, h1) => extentGotoLoop fs leaf_level blk (gotoFuel h1) false extent h1

/-- ext2fs_extent_goto (lines 625..629). -/
def ext2fs_extent_goto (fs : Filsys) (h : ExtentHandle) (blk : Nat) : Nat × ExtentHandle :=
  extent_goto fs h 0 blk

/-- Effective length of a leaf record: lengths above EXT_INIT_MAX_LEN encode
uninitialized extents of the excess length (lines 465..468). -/
def extLenOf (rawLen : Nat) : Nat :=
  if rawLen > EXT_INIT_MAX_LEN then rawLen - EXT_INIT_MAX_LEN else rawLen

/-- Logical start of a leaf record. -/
def leafLblk (r : NodeRec) : Nat := r.ee_block

/-- Effective length of a leaf record. -/
def leafLen (r : NodeRec) : Nat := extLenOf r.ee_len

/-- One past the last logical block of a leaf record. -/
def leafEnd (r : NodeRec) : Nat := leafLblk r + leafLen r

/-- The extent the engine returns for a leaf record read with visit_num = 0:
exactly the leaf branch of the decode at lines 457..468. -/
def decodeLeafExtent (r : NodeRec) : Ext2fsExtent :=
  { e_pblk := r.ee_start + r.ee_start_hi * 4294967296
    e_lblk := r.ee_block
    e_len := extLenOf r.ee_len
    e_flags := EXT2_EXTENT_FLAGS_LEAF |||
      (if r.ee_len > EXT_INIT_MAX_LEN then EXT2_EXTENT_FLAGS_UNINIT else 0) }

/-- Child block number of an index record (lines 399..400). -/
def idxChildBlk (r : NodeRec) : Nat := r.ei_leaf + r.ei_leaf_hi * 4294967296

def NodeRec.isExt : NodeRec → Bool
  | .extRec _ _ _ _ => true
  | .idxRec _ _ _ _ => false

def NodeRec.isIdx : NodeRec → Bool
  | .extRec _ _ _ _ => false
  | .idxRec _ _ _ _ => true

/-- The record list of a node is exactly its header entry count and is
nonempty. -/
def nodeShapeOk (n : ExtNode) : Bool :=
  decide (le16 n.hdr.eh_entries = n.recs.length) && decide (1 ≤ n.recs.length)

/-- Sorted, non-overlapping, nonempty leaf records: each starts at or after
the bound reached so far and ends by hi. -/
def wfLeafRecs (hi : Nat) : Nat → List NodeRec → Bool
  | _, [] => true
  | lo, r :: rs =>
    r.isExt && decide (lo ≤ leafLblk r) && decide (1 ≤ leafLen r) &&
      decide (leafEnd r ≤ hi) && wfLeafRecs hi (leafEnd r) rs

/-- Well-formed index records of an interior node: each starts exactly at
the running bound, its 48-bit child address fits the 32-bit blk_t through
which the traversal reads it, its child reads back, passes the header
verifier against the block size, and is a well-formed subtree over the
interval up to the next sibling (or hi for the last). -/
def wfIdxRecs (fs : Filsys) (wfChild : Nat → Nat → ExtNode → Bool) (hi : Nat) :
    Nat → List NodeRec → Bool
  | _, [] => true
  | lo, r :: rs =>
    let nb : Nat :=
      match rs with
      | [] => hi
      | r2 :: _ => r2.ei_block
    r.isIdx && decide (r.ei_block = lo) && decide (idxChildBlk r < 4294967296) &&
      (match fs.readBlk (idxChildBlk r) with
       | Except.ok child =>
         decide (ext2fs_extent_header_verify child.hdr (fs.blocksize : Int) = 0) &&
           wfChild lo nb child && wfIdxRecs fs wfChild hi nb rs
       | Except.error _ => false)

/-- Well-formed extent subtree of (remaining) depth d whose leaves cover
logical blocks inside the interval from lo (the first leaf starts exactly at
lo) up to hi. -/
def wfNode (fs : Filsys) : Nat → Nat → Nat → ExtNode → Bool
  | 0 => fun lo hi n =>
    nodeShapeOk n &&
      (match n.recs with
       | [] => false
       | r :: _ => decide (leafLblk r = lo)) &&
      wfLeafRecs hi lo n.recs
  | d + 1 =>
    let sub := wfNode fs d
    fun lo hi n => nodeShapeOk n && wfIdxRecs fs sub hi lo n.recs

/-- All leaf records of a subtree of depth d, left to right. -/
def nodeLeaves (fs : Filsys) : Nat → ExtNode → List NodeRec
  | 0 => fun n => n.recs
  | d + 1 =>
    let sub := nodeLeaves fs d
    fun n =>
      (n.recs.map (fun r =>
        match fs.readBlk (idxChildBlk r) with
        | Except.ok c => sub c
        | Except.error _ => [])).flatten

/-- The last record of the list whose logical start is at most b, if any. -/
def lastLE (b : Nat) : List NodeRec → Option NodeRec
  | [] => none
  | r :: rs =>
    match lastLE b rs with
    | some x => some x
    | none => if leafLblk r ≤ b then some r else none

/-- A handle state from which extent_goto is run: the frame array has
max_depth + 1 frames, frame 0 holds the root node with the entry count of
its header, and the filesystem is not in detached-image mode (descents
really read). -/
def wfGotoHandle (fs : Filsys) (h : ExtentHandle) (root : ExtNode) : Bool :=
  (match h.path with
   | none => false
   | some frames => decide (frames.length = h.max_depth + 1)) &&
  decide ((h.frame 0).buf = some root) &&
  decide ((h.frame 0).entries = (le16 root.hdr.eh_entries : Int)) &&
  (decide (fs.flags &&& EXT2_FLAG_IMAGE_FILE = 0) || !fs.image_io_differs)

/-- The frame invariant of the specification: the runtime entry count never
exceeds the capacity and always equals the entry count stored in the header
of the frame buffer (together with the capacity itself); a frame whose
buffer was never allocated is still in its zeroed state. -/
def frameInv (p : ExtentPath) : Bool :=
  match p.buf with
  | none => decide (p.entries = 0) && decide (p.max_entries = 0)
  | some n =>
    decide (p.entries ≤ p.max_entries) &&
      decide ((le16 n.hdr.eh_entries : Int) = p.entries) &&
      decide ((le16 n.hdr.eh_max : Int) = p.max_entries)

/-- frameInv on every frame of the handle. -/
def handleInv (h : ExtentHandle) : Bool :=
  match h.path with
  | none => true
  | some frames => frames.all frameInv

/- Concrete states used by the witnesses and counterexamples below. -/

/-- A one-record leaf root node (depth 0). -/
def nodeC2 : ExtNode :=
  { hdr := { eh_magic := 0xF30A, eh_entries := 1, eh_max := 4, eh_depth := 0, eh_generation := 0 },
    recs := [NodeRec.extRec 0 8 0 100] }

/-- An inode whose i_block region holds nodeC2. -/
def inodeLeafRoot : Ext2Inode :=
  { i_flags := EXT4_EXTENTS_FL, i_size := 8192, i_size_high := 0, i_block := nodeC2 }

/-- A writable filesystem whose reads fail, whose writes succeed, and whose
inode 12 is a valid one-extent file. -/
def okFsBase : Filsys :=
  { flags := EXT2_FLAG_RW, blocksize := 1024, blockSizeBits := 10,
    image_io_differs := false,
    readBlk := fun _ => Except.error 5,
    writeBlkErr := fun _ => 0, writeInodeErr := 0,
    inodes_count := 32,
    readInode := fun _ => Except.ok inodeLeafRoot,
    allocHandleErr := 0, allocInodeErr := 0 }

/-- Handle positioned on the single leaf record of nodeC2 at the root. -/
def hC2 : ExtentHandle :=
  { ino := 12, inode := inodeLeafRoot, type := 0xF30A, level := 0, max_depth := 0,
    path := some [{ buf := some nodeC2, entries := 1, max_entries := 4, left := 0,
                    visit_num := 0, end_blk := 8, curr := some 0 }] }

/-- The extent with the UNINIT flag used against claim C2. -/
def extC2 : Ext2fsExtent := { e_pblk := 100, e_lblk := 0, e_len := 5, e_flags := 3 }

/-- A filesystem whose inode write-back fails with error 777. -/
def fsC6 : Filsys := { okFsBase with writeInodeErr := 777 }

/-- A full leaf root node: four records, capacity four. -/
def nodeFull : ExtNode :=
  { hdr := { eh_magic := 0xF30A, eh_entries := 4, eh_max := 4, eh_depth := 0, eh_generation := 0 },
    recs := [NodeRec.extRec 0 4 0 100, NodeRec.extRec 4 4 0 101,
             NodeRec.extRec 8 4 0 102, NodeRec.extRec 12 4 0 103] }

/-- Handle whose current frame is full. -/
def hC5 : ExtentHandle :=
  { ino := 12, inode := inodeLeafRoot, type := 0xF30A, level := 0, max_depth := 0,
    path := some [{ buf := some nodeFull, entries := 4, max_entries := 4, left := 0,
                    visit_num := 0, end_blk := 16, curr := some 3 }] }

/-- A three-record leaf root node. -/
def nodeC9 : ExtNode :=
  { hdr := { eh_magic := 0xF30A, eh_entries := 3, eh_max := 4, eh_depth := 0, eh_generation := 0 },
    recs := [NodeRec.extRec 0 4 0 100, NodeRec.extRec 4 4 0 101, NodeRec.extRec 8 4 0 102] }

/-- Handle with the cursor on the third record of its frame. -/
def hC9 : ExtentHandle :=
  { ino := 12, inode := inodeLeafRoot, type := 0xF30A, level := 0, max_depth := 0,
    path := some [{ buf := some nodeC9, entries := 3, max_entries := 4, left := 0,
                    visit_num := 0, end_blk := 12, curr := some 2 }] }

/-- Handle with no current record (curr = none, left = entries), as open
leaves frame 0. -/
def hC10 : ExtentHandle :=
  { ino := 12, inode := inodeLeafRoot, type := 0xF30A, level := 0, max_depth := 0,
    path := some [{ buf := some nodeC2, entries := 1, max_entries := 4, left := 1,
                    visit_num := 1, end_blk := 8, curr := none }] }

/-- An inode without the extents feature flag (for claim C8). -/
def inodeNoExt : Ext2Inode :=
  { i_flags := 0, i_size := 0, i_size_high := 0, i_block := emptyNode }

/-- A filesystem on which opening inode 12 hits the INODE_NOT_EXTENT path. -/
def fsC8 : Filsys :=
  { okFsBase with readInode := fun i => if i = 12 then Except.ok inodeNoExt else Except.error 7 }

/-- The interior frame state used against claim C3: first visit still
pending (visit_num = 0) and a sibling available to the left. -/
def pathC3 : ExtentPath :=
  { buf := none, entries := 3, max_entries := 4, left := 1, visit_num := 0,
    end_blk := 0, curr := some 1 }

/-- A child node whose header fails verification: entries above max. -/
def badChild : ExtNode :=
  { hdr := { eh_magic := 0xF30A, eh_entries := 5, eh_max := 4, eh_depth := 0, eh_generation := 0 },
    recs := [] }

/-- Filesystem serving badChild as block 100. -/
def fsC7 : Filsys :=
  { okFsBase with readBlk := fun b => if b = 100 then Except.ok badChild else Except.error 5 }

/-- A depth-1 root whose single index record points at block 100. -/
def rootC7 : ExtNode :=
  { hdr := { eh_magic := 0xF30A, eh_entries := 1, eh_max := 4, eh_depth := 1, eh_generation := 0 },
    recs := [NodeRec.idxRec 0 100 0 0] }

/-- Handle over rootC7 about to descend into the corrupt child. -/
def hC7 : ExtentHandle :=
  { ino := 12, inode := { i_flags := EXT4_EXTENTS_FL, i_size := 8192, i_size_high := 0,
                          i_block := rootC7 },
    type := 0xF30A, level := 0, max_depth := 1,
    path := some [{ buf := some rootC7, entries := 1, max_entries := 4, left := 0,
                    visit_num := 1, end_blk := 32, curr := some 0 }, defaultPath] }

/- The two-level tree used for the seek witnesses (claim C1): children at
blocks 100 and 200, leaves 0..4 and 4..12 under the first, 16..24 and 24..32
under the second, with the hole 12..16 between the subtrees. -/

def leafA0 : NodeRec := NodeRec.extRec 0 4 0 500
def leafA1 : NodeRec := NodeRec.extRec 4 8 0 501
def leafB0 : NodeRec := NodeRec.extRec 16 8 0 502
def leafB1 : NodeRec := NodeRec.extRec 24 8 0 503

def nodeA : ExtNode :=
  { hdr := { eh_magic := 0xF30A, eh_entries := 2, eh_max := 84, eh_depth := 0, eh_generation := 0 },
    recs := [leafA0, leafA1] }

def nodeB : ExtNode :=
  { hdr := { eh_magic := 0xF30A, eh_entries := 2, eh_max := 84, eh_depth := 0, eh_generation := 0 },
    recs := [leafB0, leafB1] }

def rootC1 : ExtNode :=
  { hdr := { eh_magic := 0xF30A, eh_entries := 2, eh_max := 4, eh_depth := 1, eh_generation := 0 },
    recs := [NodeRec.idxRec 0 100 0 0, NodeRec.idxRec 16 200 0 0] }

def fsC1 : Filsys :=
  { okFsBase with
    readBlk := fun b =>
      if b = 100 then Except.ok nodeA
      else if b = 200 then Except.ok nodeB
      else Except.error 5 }

def hC1 : ExtentHandle :=
  { ino := 12, inode := { i_flags := EXT4_EXTENTS_FL, i_size := 32768, i_size_high := 0,
                          i_block := rootC1 },
    type := 0xF30A, level := 0, max_depth := 1,
    path := some [{ buf := some rootC1, entries := 2, max_entries := 4, left := 2,
                    visit_num := 1, end_blk := 32, curr := none }, defaultPath] }

/-- Decidable equality on Except results. -/
instance {e a : Type _} [DecidableEq e] [DecidableEq a] : DecidableEq (Except e a) := fun x y =>
  match x, y with
  | Except.error u, Except.error v =>
    if h : u = v then isTrue (by rw [h]) else isFalse (fun hh => h (by injection hh))
  | Except.ok u, Except.ok v =>
    if h : u = v then isTrue (by rw [h]) else isFalse (fun hh => h (by injection hh))
  | Except.error _, Except.ok _ => isFalse (fun hh => Except.noConfusion hh)
  | Except.ok _, Except.error _ => isFalse (fun hh => Except.noConfusion hh)

/-- A handle one level down (for the UP case of the PREV state machine). -/
def hC3up : ExtentHandle := { hC1 with level := 1 }

/-- A leaf covering logical blocks 0..8 at physical block 900. -/
def leafHiC1 : NodeRec := NodeRec.extRec 0 8 0 900

/-- A valid one-extent leaf node holding leafHiC1. -/
def childHiC1 : ExtNode :=
  { hdr := { eh_magic := 0xF30A, eh_entries := 1, eh_max := 84, eh_depth := 0,
             eh_generation := 0 },
    recs := [leafHiC1] }

/-- A depth-1 root whose single index record points at child block
2^32 + 5 (ei_leaf 5, ei_leaf_hi 1). -/
def rootHiC1 : ExtNode :=
  { hdr := { eh_magic := 0xF30A, eh_entries := 1, eh_max := 4, eh_depth := 1,
             eh_generation := 0 },
    recs := [NodeRec.idxRec 0 5 1 0] }

/-- A filesystem serving the child node at its full 48-bit address
4294967301 and failing every other read, in particular the read of block 5,
the truncation of that address to 32 bits. -/
def fsHiC1 : Filsys :=
  { okFsBase with
    readBlk := fun b =>
      if b = 4294967301 then Except.ok childHiC1 else Except.error 5 }

/-- A goto-ready handle over rootHiC1, analogous to hC1. -/
def hHiC1 : ExtentHandle :=
  { ino := 12, inode := { i_flags := EXT4_EXTENTS_FL, i_size := 8192, i_size_high := 0,
                          i_block := rootHiC1 },
    type := 0xF30A, level := 0, max_depth := 1,
    path := some [{ buf := some rootHiC1, entries := 1, max_entries := 4, left := 1,
                    visit_num := 1, end_blk := 8, curr := none }, defaultPath] }

/- Helper lemmas. -/

theorem list_set_getD_self {α : Type _} (l : List α) (i : Nat) (d : α) :
    l.set i (l.getD i d) = l := by
  induction l generalizing i with
  | nil => simp
  | cons a t ih =>
    cases i with
    | zero => simp [List.getD]
    | succ j => simpa [List.getD] using ih j

/-- Writing back the unchanged current frame is the identity. -/
theorem setFrame_frame_self (h : ExtentHandle) (l : Nat) (frames : List ExtentPath)
    (hp : h.path = some frames) : h.setFrame l (h.frame l) = h := by
  unfold ExtentHandle.setFrame ExtentHandle.frame
  rw [hp]
  show { h with path := some (frames.set l (frames.getD l defaultPath)) } = h
  rw [list_set_getD_self]
  cases h
  simp only at hp
  subst hp
  rfl

/-- C4: the header verifier fails with EXTENT_HEADER_BAD exactly when the
magic mismatches, the entry count exceeds max, or max lies outside the
interval from capacity - 2 to capacity where capacity is the C truncating
division (size - 12) / 12; otherwise it returns 0.  The record size behind
the capacity is 12 regardless of the depth field: the verifier gives the
same verdict for every depth. -/
theorem extent_header_verify_spec (eh : Ext3ExtentHeader) (size : Int) :
    (ext2fs_extent_header_verify eh size =
      if le16 eh.eh_magic ≠ EXT3_EXT_MAGIC ∨
          le16 eh.eh_entries > le16 eh.eh_max ∨
          (le16 eh.eh_max : Int) > Int.tdiv (size - 12) 12 ∨
          (le16 eh.eh_max : Int) < Int.tdiv (size - 12) 12 - 2
        then EXT2_ET_EXTENT_HEADER_BAD else 0) ∧
    (∀ d : Nat, ext2fs_extent_header_verify { eh with eh_depth := d } size =
      ext2fs_extent_header_verify eh size) ∧
    EXT2_ET_EXTENT_HEADER_BAD ≠ 0 := by
  refine ⟨?_, ?_, by decide⟩
  · unfold ext2fs_extent_header_verify
    by_cases h1 : le16 eh.eh_magic ≠ EXT3_EXT_MAGIC
    · simp [h1]
    · by_cases h2 : le16 eh.eh_entries > le16 eh.eh_max
      · simp [h1, h2]
      · by_cases h3 : (le16 eh.eh_max : Int) > Int.tdiv (size - 12) 12 ∨
            (le16 eh.eh_max : Int) < Int.tdiv (size - 12) 12 - 2
        · simp only [h1, h2, if_neg, ite_false, ite_true, if_pos]
          simp [h1, h2, h3]
        · simp [h1, h2, h3]
  · intro d
    unfold ext2fs_extent_header_verify
    simp

/-- C9: get_info reports the one-based entry index of the cursor within its
frame (0 when there is no current record: the first record sits at byte
offset 12, so the pointer-difference division yields i + 1 for index i), the
live and max entry counts of the frame, bytes_avail = (max_entries -
entries) * 12, the current level and the max depth, and the fixed limits
max_lblk = 2^32 - 1, max_pblk = 2^48 - 1, max_len = 2^15, max_uninit_len =
2^15 - 1. -/
theorem extent_get_info_spec (h : ExtentHandle) (frames : List ExtentPath)
    (hp : h.path = some frames) :
    ext2fs_extent_get_info h =
      { curr_entry :=
          (match (h.frame h.level).curr with
           | some i => i + 1
           | none => 0),
        curr_level := h.level,
        num_entries := (h.frame h.level).entries,
        max_entries := (h.frame h.level).max_entries,
        max_depth := h.max_depth,
        bytes_avail := ((h.frame h.level).max_entries - (h.frame h.level).entries) * 12,
        max_lblk := 2 ^ 32 - 1, max_pblk := 2 ^ 48 - 1,
        max_len := 2 ^ 15, max_uninit_len := 2 ^ 15 - 1 } := by
  unfold ext2fs_extent_get_info
  rw [hp]
  cases hc : (h.frame h.level).curr with
  | none => simp [hc]
  | some i =>
    have h12 : (12 : Int) + 12 * i = 12 * (i + 1) := by ring
    have : Int.tdiv (12 + 12 * i) 12 = i + 1 := by
      rw [h12]
      exact Int.mul_tdiv_cancel_left _ (by decide)
    simp [hc, this]

/-- C9 witness. -/
theorem extent_get_info_spec_witness :
    hC9.path = some ((hC9.path).getD []) ∧
    ext2fs_extent_get_info hC9 =
      { curr_entry := 3, curr_level := 0, num_entries := 3, max_entries := 4,
        max_depth := 0, bytes_avail := 12,
        max_lblk := 2 ^ 32 - 1, max_pblk := 2 ^ 48 - 1,
        max_len := 2 ^ 15, max_uninit_len := 2 ^ 15 - 1 } := by
  constructor
  · decide
  · have := extent_get_info_spec hC9 ((hC9.path).getD []) (by decide)
    rw [this]
    decide

/-- C5: inserting into a full frame (entries = max_entries) on a writable
filesystem fails with CANT_INSERT_EXTENT and returns the handle unchanged,
with no write issued. -/
theorem extent_insert_full_spec (fs : Filsys) (h : ExtentHandle) (flags : Nat)
    (extent : Ext2fsExtent) (frames : List ExtentPath)
    (hrw : fs.flags &&& EXT2_FLAG_RW ≠ 0) (hp : h.path = some frames)
    (hfull : (h.frame h.level).entries = (h.frame h.level).max_entries) :
    ext2fs_extent_insert fs h flags extent = (EXT2_ET_CANT_INSERT_EXTENT, h, []) := by
  unfold ext2fs_extent_insert
  rw [if_neg hrw, hp]
  simp only []
  rw [if_pos (le_of_eq hfull.symm)]

/-- C5 witness. -/
theorem extent_insert_full_spec_witness :
    okFsBase.flags &&& EXT2_FLAG_RW ≠ 0 ∧
    hC5.path = some ((hC5.path).getD []) ∧
    (hC5.frame hC5.level).entries = (hC5.frame hC5.level).max_entries ∧
    ext2fs_extent_insert okFsBase hC5 0 extC2 = (EXT2_ET_CANT_INSERT_EXTENT, hC5, []) :=
  ⟨by decide, by decide, by decide,
   extent_insert_full_spec okFsBase hC5 0 extC2 ((hC5.path).getD [])
     (by decide) (by decide) (by decide)⟩


theorem get_current_eq (fs : Filsys) (h : ExtentHandle) (frames : List ExtentPath)
    (hp : h.path = some frames) (i : Int) (hc : (h.frame h.level).curr = some i) :
    ext2fs_extent_get fs h EXT2_EXTENT_CURRENT = (Except.ok (decodeCurrentExtent h i), h) := by
  have hsel0 : extentGetSelect 0 h.level h.max_depth (h.frame h.level) =
      Except.ok (0, h.frame h.level) := by
    unfold extentGetSelect
    norm_num [EXT2_EXTENT_NEXT, EXT2_EXTENT_NEXT_LEAF, EXT2_EXTENT_PREV,
      EXT2_EXTENT_PREV_LEAF, EXT2_EXTENT_LAST_LEAF]
  have hone : extentGetOnce fs 0 h = (Except.ok (decodeCurrentExtent h i), h) := by
    unfold extentGetOnce
    simp only [hsel0, setFrame_frame_self h h.level frames hp]
    unfold extentGetSwitch
    norm_num [EXT2_EXTENT_CURRENT]
    simp [hc]
  unfold ext2fs_extent_get
  rw [hp]
  have hfuel : 2 * h.max_depth + 4 = (2 * h.max_depth + 3) + 1 := rfl
  have e0 : EXT2_EXTENT_CURRENT &&& EXT2_EXTENT_MOVE_MASK = 0 := by decide
  rw [hfuel, e0]
  unfold extentGetLoop
  rw [hone]
  norm_num [EXT2_EXTENT_NEXT_LEAF, EXT2_EXTENT_PREV_LEAF, EXT2_EXTENT_LAST_LEAF]

theorem list_getD_set_self {α : Type _} (l : List α) (i : Nat) (a d : α) (hl : i < l.length) :
    (l.set i a).getD i d = a := by
  induction l generalizing i with
  | nil => simp at hl
  | cons b t ih =>
    cases i with
    | zero => simp [List.getD]
    | succ j =>
      simp only [List.length_cons, Nat.succ_lt_succ_iff] at hl
      simpa [List.getD] using ih j hl

theorem list_getD_of_ge {α : Type _} (l : List α) (i : Nat) (d : α) (hl : l.length ≤ i) :
    l.getD i d = d := by
  induction l generalizing i with
  | nil => simp [List.getD]
  | cons b t ih =>
    cases i with
    | zero => simp at hl
    | succ j =>
      simp only [List.length_cons, Nat.succ_le_succ_iff] at hl
      simpa [List.getD] using ih j hl

/-- A frame whose buffer is allocated lies inside the frame array. -/
theorem lt_length_of_frame_buf (h : ExtentHandle) (frames : List ExtentPath)
    (hp : h.path = some frames) (l : Nat) (n : ExtNode)
    (hbuf : (h.frame l).buf = some n) : l < frames.length := by
  by_contra hge
  push_neg at hge
  unfold ExtentHandle.frame at hbuf
  rw [hp] at hbuf
  rw [show (some frames).getD [] = frames from rfl, list_getD_of_ge frames l defaultPath hge]
    at hbuf
  simp [defaultPath] at hbuf

theorem frame_setFrame_eq (h : ExtentHandle) (frames : List ExtentPath)
    (hp : h.path = some frames) (l : Nat) (hl : l < frames.length) (p : ExtentPath) :
    (h.setFrame l p).frame l = p := by
  unfold ExtentHandle.setFrame ExtentHandle.frame
  rw [hp]
  show (frames.set l p).getD l defaultPath = p
  exact list_getD_set_self frames l p defaultPath hl

/-- At max depth the decode phase returns the leaf reading of the record
under ix, plus SECOND_VISIT when the frame was already visited. -/
theorem decode_leaf_eq (h : ExtentHandle) (n : ExtNode) (i : Int)
    (hbuf : (h.frame h.level).buf = some n) (hlev : h.level = h.max_depth) :
    decodeCurrentExtent h i =
      (if (h.frame h.level).visit_num ≠ 0 then
        { decodeLeafExtent (n.recAt i) with
          e_flags := (decodeLeafExtent (n.recAt i)).e_flags ||| EXT2_EXTENT_FLAGS_SECOND_VISIT }
       else decodeLeafExtent (n.recAt i)) := by
  simp only [decodeCurrentExtent, decodeLeafExtent, extLenOf, hbuf,
    Option.getD_some, if_pos hlev]

/-- The record stored by replace at a leaf, read back as a leaf extent with
in-range fields, is the written extent with the LEAF flag alone. -/
theorem decodeLeafExtent_encode (extent : Ext2fsExtent)
    (hlb : extent.e_lblk < 2 ^ 32) (hpb : extent.e_pblk < 2 ^ 48)
    (hlen : extent.e_len ≤ 2 ^ 15) :
    decodeLeafExtent (replaceRecEncode true extent) =
      { e_pblk := extent.e_pblk, e_lblk := extent.e_lblk, e_len := extent.e_len,
        e_flags := EXT2_EXTENT_FLAGS_LEAF } := by
  unfold decodeLeafExtent replaceRecEncode extLenOf
  unfold NodeRec.ee_len NodeRec.ee_start NodeRec.ee_start_hi NodeRec.ee_block
  unfold le16 le32 EXT_INIT_MAX_LEN EXT2_EXTENT_FLAGS_LEAF EXT2_EXTENT_FLAGS_UNINIT
  simp only [ite_true, if_pos rfl]
  rw [Ext2fsExtent.mk.injEq]
  refine ⟨by omega, by omega, ?_, ?_⟩ <;> split_ifs <;>
    first
    | (exfalso; omega)
    | omega
    | decide

/-- C2 amended: after replace at a leaf cursor with in-range fields
(e_lblk below 2^32, e_pblk below 2^48, e_len at most 2^15), the next
get(CURRENT) returns the same e_lblk, e_pblk and e_len with the LEAF flag
set and the UNINIT flag clear: the UNINIT flag of the written extent is
discarded by replace, which stores e_len unchanged.  SECOND_VISIT still
reflects the visit state of the frame. -/
theorem replace_roundtrip_spec (fs : Filsys) (h : ExtentHandle) (frames : List ExtentPath)
    (n : ExtNode) (i : Int) (extent : Ext2fsExtent)
    (hrw : fs.flags &&& EXT2_FLAG_RW ≠ 0)
    (hp : h.path = some frames)
    (hleaf : h.level = h.max_depth)
    (hbuf : (h.frame h.level).buf = some n)
    (hc : (h.frame h.level).curr = some i)
    (hi0 : 0 ≤ i) (hilen : i.toNat < n.recs.length)
    (hlb : extent.e_lblk < 2 ^ 32) (hpb : extent.e_pblk < 2 ^ 48)
    (hlen : extent.e_len ≤ 2 ^ 15) :
    (ext2fs_extent_replace fs h 0 extent).1 = 0 ∧
    (ext2fs_extent_get fs (ext2fs_extent_replace fs h 0 extent).2.1
        EXT2_EXTENT_CURRENT).1 =
      Except.ok
        { e_pblk := extent.e_pblk, e_lblk := extent.e_lblk, e_len := extent.e_len,
          e_flags := EXT2_EXTENT_FLAGS_LEAF |||
            (if (h.frame h.level).visit_num ≠ 0 then EXT2_EXTENT_FLAGS_SECOND_VISIT
             else 0) } ∧
    (EXT2_EXTENT_FLAGS_LEAF |||
        (if (h.frame h.level).visit_num ≠ 0 then EXT2_EXTENT_FLAGS_SECOND_VISIT else 0)) &&&
      (EXT2_EXTENT_FLAGS_LEAF ||| EXT2_EXTENT_FLAGS_UNINIT) = EXT2_EXTENT_FLAGS_LEAF := by
  have hll : h.level < frames.length := lt_length_of_frame_buf h frames hp h.level n hbuf
  have hbeq : (h.level == h.max_depth) = true := by
    rw [Nat.beq_eq_true_eq]
    exact hleaf
  have hrep : ext2fs_extent_replace fs h 0 extent =
      (0,
       h.setFrame h.level
         { h.frame h.level with
           buf := some { (h.frame h.level).buf.getD emptyNode with
                         recs := ((h.frame h.level).buf.getD emptyNode).recs.set i.toNat
                           (replaceRecEncode (h.level == h.max_depth) extent) } },
       (update_path fs
         (h.setFrame h.level
           { h.frame h.level with
             buf := some { (h.frame h.level).buf.getD emptyNode with
                           recs := ((h.frame h.level).buf.getD emptyNode).recs.set i.toNat
                             (replaceRecEncode (h.level == h.max_depth) extent) } })).2) := by
    unfold ext2fs_extent_replace
    rw [if_neg hrw, hp]
    simp only [hc, if_pos hi0]
  set n1 : ExtNode :=
    { (h.frame h.level).buf.getD emptyNode with
      recs := ((h.frame h.level).buf.getD emptyNode).recs.set i.toNat
        (replaceRecEncode (h.level == h.max_depth) extent) } with hn1
  set newp : ExtentPath := { h.frame h.level with buf := some n1 } with hnewp
  set h1 := h.setFrame h.level newp with hh1
  have hp1 : h1.path = some (frames.set h.level newp) := by
    rw [hh1]
    unfold ExtentHandle.setFrame
    rw [hp]
    rfl
  have hfr1 : h1.frame h1.level = newp := by
    have : h1.level = h.level := rfl
    rw [this, hh1]
    exact frame_setFrame_eq h frames hp h.level hll newp
  have hc1 : (h1.frame h1.level).curr = some i := by
    rw [hfr1]
    exact hc
  have hget := get_current_eq fs h1 (frames.set h.level newp) hp1 i hc1
  have hbuf1 : (h1.frame h1.level).buf = some n1 := by
    rw [hfr1]
  have hlev1 : h1.level = h1.max_depth := hleaf
  have hrecAt : n1.recAt i = replaceRecEncode true extent := by
    rw [hn1]
    unfold ExtNode.recAt
    rw [if_pos hi0]
    simp only [hbuf, Option.getD_some]
    rw [hbeq]
    exact list_getD_set_self _ _ _ _ (by simpa using hilen)
  have hvis : (h1.frame h1.level).visit_num = (h.frame h.level).visit_num := by
    rw [hfr1]
  have hdec : decodeCurrentExtent h1 i =
      { e_pblk := extent.e_pblk, e_lblk := extent.e_lblk, e_len := extent.e_len,
        e_flags := EXT2_EXTENT_FLAGS_LEAF |||
          (if (h.frame h.level).visit_num ≠ 0 then EXT2_EXTENT_FLAGS_SECOND_VISIT
           else 0) } := by
    rw [decode_leaf_eq h1 n1 i hbuf1 hlev1, hrecAt,
      decodeLeafExtent_encode extent hlb hpb hlen, hvis]
    by_cases hv : (h.frame h.level).visit_num ≠ 0
    · rw [if_pos hv, if_pos hv]
    · rw [if_neg hv, if_neg hv]
      unfold EXT2_EXTENT_FLAGS_LEAF
      norm_num
  refine ⟨by rw [hrep], ?_, ?_⟩
  · rw [hrep]
    show (ext2fs_extent_get fs h1 EXT2_EXTENT_CURRENT).1 = _
    rw [hget, hdec]
  · by_cases hv : (h.frame h.level).visit_num ≠ 0
    · rw [if_pos hv]
      decide
    · rw [if_neg hv]
      decide

theorem replace_roundtrip_spec_witness :
    okFsBase.flags &&& EXT2_FLAG_RW ≠ 0 ∧
    ((ext2fs_extent_replace okFsBase hC2 0 extC2).1 = 0 ∧
     (ext2fs_extent_get okFsBase (ext2fs_extent_replace okFsBase hC2 0 extC2).2.1
         EXT2_EXTENT_CURRENT).1 =
       Except.ok
         { e_pblk := extC2.e_pblk, e_lblk := extC2.e_lblk, e_len := extC2.e_len,
           e_flags := EXT2_EXTENT_FLAGS_LEAF |||
             (if (hC2.frame hC2.level).visit_num ≠ 0 then EXT2_EXTENT_FLAGS_SECOND_VISIT
              else 0) } ∧
     (EXT2_EXTENT_FLAGS_LEAF |||
         (if (hC2.frame hC2.level).visit_num ≠ 0 then EXT2_EXTENT_FLAGS_SECOND_VISIT
          else 0)) &&&
       (EXT2_EXTENT_FLAGS_LEAF ||| EXT2_EXTENT_FLAGS_UNINIT) = EXT2_EXTENT_FLAGS_LEAF) :=
  ⟨by decide,
   replace_roundtrip_spec okFsBase hC2 ((hC2.path).getD []) nodeC2 0 extC2
     (by decide) (by decide) rfl (by decide) (by decide) (by decide) (by decide)
     (by decide) (by decide) (by decide)⟩

/-- C2 counterexample: writing an extent carrying the UNINIT flag through
replace and reading it back with get(CURRENT) yields an extent without the
UNINIT flag: the flag is not preserved. -/
theorem replace_uninit_lost :
    extC2.e_flags &&& EXT2_EXTENT_FLAGS_UNINIT ≠ 0 ∧
    (ext2fs_extent_replace okFsBase hC2 0 extC2).1 = 0 ∧
    (ext2fs_extent_get okFsBase (ext2fs_extent_replace okFsBase hC2 0 extC2).2.1
        EXT2_EXTENT_CURRENT).1 =
      Except.ok { e_pblk := 100, e_lblk := 0, e_len := 5, e_flags := 1 } ∧
    (1 : Nat) &&& EXT2_EXTENT_FLAGS_UNINIT = 0 := by decide

/-- C6: a replace whose inode write-back fails with error 777 still returns
0; the collaborator error is discarded at line 666. -/
theorem replace_discards_write_error :
    fsC6.writeInodeErr = 777 ∧
    (ext2fs_extent_replace fsC6 hC2 0 extC2).1 = 0 ∧
    (update_path fsC6 (ext2fs_extent_replace fsC6 hC2 0 extC2).2.1).1 = 777 := by decide

/-- C8: opening an inode without the extents flag returns INODE_NOT_EXTENT
while the handle allocation and the inode copy are still live (the C code
returns directly instead of going through the errout label). -/
theorem open_leaks_on_not_extent :
    ext2fs_extent_open fsC8 12 =
      (EXT2_ET_INODE_NOT_EXTENT, none, [Alloc.handleMem, Alloc.inodeMem]) ∧
    [Alloc.handleMem, Alloc.inodeMem] ≠ ([] : List Alloc) := by decide

/-- C3 amended: for get(PREV) and get(PREV_LEAF) at an interior node the
operation selector descends with DOWN_AND_LAST when visit_num is already
positive, leaving visit_num unchanged (the assignment in the C source is
commented out); with visit_num = 0 it retreats with PREV_SIB when a left
sibling remains (left < entries - 1), ascends with UP when not at the root
(the UP case then resets the parent visit_num to 0; only PREV_LEAF re-runs
the selector after it), and otherwise fails with EXTENT_NO_PREV. -/
theorem prev_interior_select_spec (origOp level max_depth : Nat) (path : ExtentPath)
    (h : ExtentHandle)
    (hop : origOp = EXT2_EXTENT_PREV ∨ origOp = EXT2_EXTENT_PREV_LEAF)
    (hlev : level < max_depth) (hup : 0 < h.level) :
    extentGetSelect origOp level max_depth path =
      (if path.visit_num > 0 then Except.ok (EXT2_EXTENT_DOWN_AND_LAST, path)
       else if path.left < path.entries - 1 then Except.ok (EXT2_EXTENT_PREV_SIB, path)
       else if 0 < level then Except.ok (EXT2_EXTENT_UP, path)
       else Except.error EXT2_ET_EXTENT_NO_PREV) ∧
    extentUpCase origOp h =
      (Except.ok (h.frame (h.level - 1)).curr,
       { h.setFrame (h.level - 1) { h.frame (h.level - 1) with visit_num := 0 } with
         level := h.level - 1 }) := by
  constructor
  · rcases hop with rfl | rfl <;>
      (unfold extentGetSelect
       rw [if_neg (by decide), if_pos (by decide), if_pos hlev])
  · unfold extentUpCase
    rw [if_neg (Nat.pos_iff_ne_zero.mp hup)]
    rcases hop with rfl | rfl <;> rfl

/-- C3 counterexample: at an interior node with visit_num = 0 and a left
sibling remaining, the claim predicts DOWN_AND_LAST with visit_num set to 1,
but the engine selects PREV_SIB and leaves the frame untouched. -/
theorem prev_select_counterexample :
    pathC3.visit_num = 0 ∧ pathC3.left < pathC3.entries - 1 ∧
    extentGetSelect EXT2_EXTENT_PREV 0 1 pathC3 =
      Except.ok (EXT2_EXTENT_PREV_SIB, pathC3) ∧
    (Except.ok (EXT2_EXTENT_PREV_SIB, pathC3) : Except Nat (Nat × ExtentPath)) ≠
      Except.ok (EXT2_EXTENT_DOWN_AND_LAST, { pathC3 with visit_num := 1 }) := by decide

/-- C3 witness. -/
theorem prev_interior_select_spec_witness :
    (EXT2_EXTENT_PREV = EXT2_EXTENT_PREV ∨ EXT2_EXTENT_PREV = EXT2_EXTENT_PREV_LEAF) ∧
    (0 : Nat) < 1 ∧ 0 < hC3up.level ∧
    (extentGetSelect EXT2_EXTENT_PREV 0 1 pathC3 =
      (if pathC3.visit_num > 0 then Except.ok (EXT2_EXTENT_DOWN_AND_LAST, pathC3)
       else if pathC3.left < pathC3.entries - 1 then
         Except.ok (EXT2_EXTENT_PREV_SIB, pathC3)
       else if 0 < (0 : Nat) then Except.ok (EXT2_EXTENT_UP, pathC3)
       else Except.error EXT2_ET_EXTENT_NO_PREV) ∧
     extentUpCase EXT2_EXTENT_PREV hC3up =
      (Except.ok (hC3up.frame (hC3up.level - 1)).curr,
       { hC3up.setFrame (hC3up.level - 1)
           { hC3up.frame (hC3up.level - 1) with visit_num := 0 } with
         level := hC3up.level - 1 })) :=
  ⟨Or.inl rfl, by decide, by decide,
   prev_interior_select_spec EXT2_EXTENT_PREV 0 1 pathC3 hC3up (Or.inl rfl)
     (by decide) (by decide)⟩

/-- C10: replace and delete require a positioned cursor and fail with
NO_CURRENT_NODE when curr is none, but insert does not: with room in the
frame it succeeds, placing the new record at the first record position of
the frame, and the INSERT_AFTER flag has no effect (the flag is only
consulted when a current record exists). -/
theorem insert_no_cursor_spec (fs : Filsys) (h : ExtentHandle) (frames : List ExtentPath)
    (n : ExtNode) (extent : Ext2fsExtent) (iflags : Nat)
    (hrw : fs.flags &&& EXT2_FLAG_RW ≠ 0) (hp : h.path = some frames)
    (hbuf : (h.frame h.level).buf = some n)
    (hcur : (h.frame h.level).curr = none)
    (hleft : 0 ≤ (h.frame h.level).left)
    (hroom : (h.frame h.level).entries < (h.frame h.level).max_entries)
    (hwi : fs.writeInodeErr = 0) (hwb : ∀ b, fs.writeBlkErr b = 0) :
    (ext2fs_extent_replace fs h 0 extent).1 = EXT2_ET_NO_CURRENT_NODE ∧
    (ext2fs_extent_delete fs h 0).1 = EXT2_ET_NO_CURRENT_NODE ∧
    ext2fs_extent_insert fs h iflags extent = ext2fs_extent_insert fs h 0 extent ∧
    (ext2fs_extent_insert fs h iflags extent).1 = 0 ∧
    ((ext2fs_extent_insert fs h iflags extent).2.1.frame h.level).curr = some 0 ∧
    ((ext2fs_extent_insert fs h iflags extent).2.1.frame h.level).buf =
      some { hdr := { n.hdr with eh_entries := toLe16I ((h.frame h.level).entries + 1) },
             recs := replaceRecEncode (h.level == h.max_depth) extent :: n.recs } := by
  have hll : h.level < frames.length := lt_length_of_frame_buf h frames hp h.level n hbuf
  have hupAll : ∀ hh : ExtentHandle, (update_path fs hh).1 = 0 := by
    intro hh
    unfold update_path
    split
    · simpa using hwi
    · simpa using hwb _
  have hnotfull : ¬ ((h.frame h.level).entries ≥ (h.frame h.level).max_entries) :=
    not_le.mpr hroom
  set n1 : ExtNode :=
    { n with
      recs := n.recs.insertIdx 0 (n.recAt 0),
      hdr := { n.hdr with eh_entries := toLe16I ((h.frame h.level).entries + 1) } } with hn1
  set p1 : ExtentPath :=
    { h.frame h.level with
      buf := some n1, curr := some 0, left := (h.frame h.level).left + 1,
      entries := (h.frame h.level).entries + 1 } with hp1d
  set h1 := h.setFrame h.level p1 with hh1
  have hpath1 : h1.path = some (frames.set h.level p1) := by
    rw [hh1]
    unfold ExtentHandle.setFrame
    rw [hp]
    rfl
  have hfr1 : h1.frame h1.level = p1 := by
    have he : h1.level = h.level := rfl
    rw [he, hh1]
    exact frame_setFrame_eq h frames hp h.level hll p1
  set n2 : ExtNode :=
    { n1 with recs := n1.recs.set 0 (replaceRecEncode (h.level == h.max_depth) extent) }
    with hn2
  set p2 : ExtentPath := { p1 with buf := some n2 } with hp2d
  set h2 := h1.setFrame h1.level p2 with hh2
  have hrep : ext2fs_extent_replace fs h1 0 extent = (0, h2, (update_path fs h2).2) := by
    unfold ext2fs_extent_replace
    rw [if_neg hrw, hpath1]
    simp only [hfr1]
    rfl
  have hins : ∀ f : Nat, ext2fs_extent_insert fs h f extent = (0, h2, ((update_path fs h2).2 ++ (update_path fs h2).2)) := by
    intro f
    unfold ext2fs_extent_insert
    rw [if_neg hrw, hp]
    simp only [hbuf, hcur, Option.getD_some, if_neg hnotfull]
    have hcond : (0 ≤ (h.frame h.level).left ∧ 0 ≤ (0 : Int)) := ⟨hleft, le_refl 0⟩
    simp only [if_pos hcond, Int.toNat_zero]
    rw [show (h.setFrame h.level
        { h.frame h.level with
          buf := some { n with
                        recs := n.recs.insertIdx 0 (n.recAt 0),
                        hdr := { n.hdr with
                                 eh_entries := toLe16I ((h.frame h.level).entries + 1) } },
          curr := some 0, left := (h.frame h.level).left + 1,
          entries := (h.frame h.level).entries + 1 }) = h1 from rfl]
    rw [hrep]
    simp only [ne_eq, not_true_eq_false, if_neg (by decide : ¬ (0 : Nat) ≠ 0)]
    rw [hupAll h2]
    simp
  have hfr2 : h2.frame h.level = p2 := by
    have he : h1.level = h.level := rfl
    rw [hh2, he]
    refine frame_setFrame_eq h1 (frames.set h.level p1) hpath1 h.level ?_ p2
    simpa using hll
  have hrecs2 : n2 = { hdr := { n.hdr with
                                eh_entries := toLe16I ((h.frame h.level).entries + 1) },
                       recs := replaceRecEncode (h.level == h.max_depth) extent :: n.recs } := by
    rw [hn2, hn1]
    rfl
  refine ⟨?_, ?_, ?_, ?_, ?_, ?_⟩
  · unfold ext2fs_extent_replace
    rw [if_neg hrw, hp]
    simp only [hcur]
  · unfold ext2fs_extent_delete
    rw [if_neg hrw, hp]
    simp only [hcur]
  · rw [hins iflags, hins 0]
  · rw [hins iflags]
  · rw [hins iflags]
    show (h2.frame h.level).curr = some 0
    rw [hfr2]
  · rw [hins iflags]
    show (h2.frame h.level).buf = _
    rw [hfr2]
    show some n2 = _
    rw [hrecs2]

/-- C10 witness. -/
theorem insert_no_cursor_spec_witness :
    okFsBase.flags &&& EXT2_FLAG_RW ≠ 0 ∧
    (hC10.frame hC10.level).curr = none ∧
    (hC10.frame hC10.level).entries < (hC10.frame hC10.level).max_entries ∧
    ((ext2fs_extent_replace okFsBase hC10 0 extC2).1 = EXT2_ET_NO_CURRENT_NODE ∧
     (ext2fs_extent_delete okFsBase hC10 0).1 = EXT2_ET_NO_CURRENT_NODE ∧
     ext2fs_extent_insert okFsBase hC10 EXT2_EXTENT_INSERT_AFTER extC2 =
       ext2fs_extent_insert okFsBase hC10 0 extC2 ∧
     (ext2fs_extent_insert okFsBase hC10 EXT2_EXTENT_INSERT_AFTER extC2).1 = 0 ∧
     ((ext2fs_extent_insert okFsBase hC10 EXT2_EXTENT_INSERT_AFTER extC2).2.1.frame
         hC10.level).curr = some 0 ∧
     ((ext2fs_extent_insert okFsBase hC10 EXT2_EXTENT_INSERT_AFTER extC2).2.1.frame
         hC10.level).buf =
       some { hdr := { nodeC2.hdr with
                       eh_entries := toLe16I ((hC10.frame hC10.level).entries + 1) },
              recs := replaceRecEncode (hC10.level == hC10.max_depth) extC2 ::
                nodeC2.recs }) :=
  ⟨by decide, by decide, by decide,
   insert_no_cursor_spec okFsBase hC10 ((hC10.path).getD []) nodeC2 extC2
     EXT2_EXTENT_INSERT_AFTER (by decide) (by decide) (by decide) (by decide)
     (by decide) (by decide) (by decide) (fun _ => rfl)⟩

/- Toolbox for the frame invariant (claim C7). -/

theorem le16_lt (x : Nat) : le16 x < 65536 := Nat.mod_lt _ (by decide)

theorem verify_cases (eh : Ext3ExtentHeader) (s : Int) :
    ext2fs_extent_header_verify eh s = 0 ∨
    ext2fs_extent_header_verify eh s = EXT2_ET_EXTENT_HEADER_BAD := by
  unfold ext2fs_extent_header_verify
  simp only [ite_self]
  by_cases h1 : le16 eh.eh_magic ≠ EXT3_EXT_MAGIC
  · rw [if_pos h1]
    right
    rfl
  · rw [if_neg h1]
    by_cases h2 : le16 eh.eh_entries > le16 eh.eh_max
    · rw [if_pos h2]
      right
      rfl
    · rw [if_neg h2]
      by_cases h3 : (le16 eh.eh_max : Int) > Int.tdiv (s - 12) 12 ∨
          (le16 eh.eh_max : Int) < Int.tdiv (s - 12) 12 - 2
      · rw [if_pos h3]
        right
        rfl
      · rw [if_neg h3]
        left
        rfl

theorem verify_zero_entries_le (eh : Ext3ExtentHeader) (s : Int)
    (hv : ext2fs_extent_header_verify eh s = 0) :
    le16 eh.eh_entries ≤ le16 eh.eh_max := by
  unfold ext2fs_extent_header_verify at hv
  simp only [ite_self] at hv
  by_cases h1 : le16 eh.eh_magic ≠ EXT3_EXT_MAGIC
  · rw [if_pos h1] at hv
    exact absurd hv (by decide)
  · rw [if_neg h1] at hv
    by_cases h2 : le16 eh.eh_entries > le16 eh.eh_max
    · rw [if_pos h2] at hv
      exact absurd hv (by decide)
    · exact Nat.le_of_not_lt h2

theorem list_set_of_length_le {α : Type _} (l : List α) (n : Nat) (a : α)
    (hl : l.length ≤ n) : l.set n a = l := by
  induction l generalizing n with
  | nil => rfl
  | cons b t ih =>
    cases n with
    | zero => simp at hl
    | succ m =>
      simp only [List.length_cons, Nat.succ_le_succ_iff] at hl
      simp [List.set, ih m hl]

theorem frameInv_keep (p q : ExtentPath) (hb : q.buf = p.buf) (he : q.entries = p.entries)
    (hm : q.max_entries = p.max_entries) (hi : frameInv p = true) : frameInv q = true := by
  unfold frameInv at *
  rw [hb, he, hm]
  exact hi

theorem handleInv_frames (h : ExtentHandle) (frames : List ExtentPath)
    (hp : h.path = some frames) (hinv : handleInv h = true) :
    ∀ p ∈ frames, frameInv p = true := by
  unfold handleInv at hinv
  rw [hp] at hinv
  exact fun p hm => List.all_eq_true.mp hinv p hm

theorem frameInv_frame (h : ExtentHandle) (frames : List ExtentPath)
    (hp : h.path = some frames) (hinv : handleInv h = true) (l : Nat) :
    frameInv (h.frame l) = true := by
  unfold ExtentHandle.frame
  rw [hp]
  show frameInv (frames.getD l defaultPath) = true
  by_cases hl : l < frames.length
  · refine handleInv_frames h frames hp hinv _ ?_
    rw [List.getD_eq_getElem frames defaultPath hl]
    exact List.getElem_mem hl
  · rw [list_getD_of_ge frames l defaultPath (Nat.le_of_not_lt hl)]
    decide

theorem path_setFrame (h : ExtentHandle) (frames : List ExtentPath)
    (hp : h.path = some frames) (l : Nat) (p : ExtentPath) :
    (h.setFrame l p).path = some (frames.set l p) := by
  unfold ExtentHandle.setFrame
  rw [hp]
  rfl

theorem handleInv_setFrame (h : ExtentHandle) (frames : List ExtentPath)
    (hp : h.path = some frames) (l : Nat) (p : ExtentPath) (hinv : handleInv h = true)
    (hfp : l < frames.length → frameInv p = true) :
    handleInv (h.setFrame l p) = true := by
  unfold handleInv
  rw [path_setFrame h frames hp l p]
  by_cases hl : l < frames.length
  · refine List.all_eq_true.mpr ?_
    intro q hq
    rcases List.mem_or_eq_of_mem_set hq with hmem | rfl
    · exact handleInv_frames h frames hp hinv q hmem
    · exact hfp hl
  · rw [list_set_of_length_le frames l p (Nat.le_of_not_lt hl)]
    refine List.all_eq_true.mpr ?_
    intro q hq
    exact handleInv_frames h frames hp hinv q hq

theorem frameInv_frame_any (h : ExtentHandle) (hinv : handleInv h = true) (l : Nat) :
    frameInv (h.frame l) = true := by
  cases hpath : h.path with
  | none =>
    unfold ExtentHandle.frame
    rw [hpath]
    show frameInv (([] : List ExtentPath).getD l defaultPath) = true
    rw [show ([] : List ExtentPath).getD l defaultPath = defaultPath from by cases l <;> rfl]
    decide
  | some f => exact frameInv_frame h f hpath hinv l

theorem handleInv_setFrame_any (h : ExtentHandle) (l : Nat) (p : ExtentPath)
    (hinv : handleInv h = true)
    (hfp : l < (h.path.getD []).length → frameInv p = true) :
    handleInv (h.setFrame l p) = true := by
  cases hpath : h.path with
  | none =>
    unfold handleInv ExtentHandle.setFrame
    rw [hpath]
    show (((none : Option (List ExtentPath)).getD []).set l p).all frameInv = true
    cases l <;> rfl
  | some f =>
    refine handleInv_setFrame h f hpath l p hinv ?_
    intro hl
    refine hfp ?_
    rw [hpath]
    exact hl

theorem handleInv_level_irrel (x : ExtentHandle) (lvl : Nat) :
    handleInv { x with level := lvl } = handleInv x := rfl

theorem nextSib_inv (h : ExtentHandle) (hinv : handleInv h = true) :
    handleInv (extentNextSibCase h).2 = true := by
  unfold extentNextSibCase
  by_cases hl : (h.frame h.level).left ≤ 0
  · rw [if_pos hl]
    exact hinv
  · rw [if_neg hl]
    refine handleInv_setFrame_any h h.level _ hinv (fun _ => ?_)
    exact frameInv_keep (h.frame h.level) _ rfl rfl rfl (frameInv_frame_any h hinv h.level)

theorem prevSib_inv (h : ExtentHandle) (hinv : handleInv h = true) :
    handleInv (extentPrevSibCase h).2 = true := by
  unfold extentPrevSibCase
  cases hc : (h.frame h.level).curr with
  | none =>
    simp only [hc]
    exact hinv
  | some i =>
    simp only [hc]
    by_cases hl : (h.frame h.level).left + 1 ≥ (h.frame h.level).entries
    · rw [if_pos hl]
      exact hinv
    · rw [if_neg hl]
      refine handleInv_setFrame_any h h.level _ hinv (fun _ => ?_)
      exact frameInv_keep (h.frame h.level) _ rfl rfl rfl (frameInv_frame_any h hinv h.level)

theorem lastSib_inv (h : ExtentHandle) (hinv : handleInv h = true) :
    handleInv (extentLastSibCase h).2 = true := by
  unfold extentLastSibCase
  refine handleInv_setFrame_any h h.level _ hinv (fun _ => ?_)
  exact frameInv_keep (h.frame h.level) _ rfl rfl rfl (frameInv_frame_any h hinv h.level)

theorem up_inv (origOp : Nat) (h : ExtentHandle) (hinv : handleInv h = true) :
    handleInv (extentUpCase origOp h).2 = true := by
  unfold extentUpCase
  by_cases h0 : h.level = 0
  · rw [if_pos h0]
    exact hinv
  · rw [if_neg h0]
    show handleInv { h.setFrame (h.level - 1) _ with level := h.level - 1 } = true
    rw [handleInv_level_irrel]
    by_cases hop : origOp = EXT2_EXTENT_PREV ∨ origOp = EXT2_EXTENT_PREV_LEAF
    · rw [if_pos hop]
      refine handleInv_setFrame_any h (h.level - 1) _ hinv (fun _ => ?_)
      exact frameInv_keep (h.frame (h.level - 1)) _ rfl rfl rfl
        (frameInv_frame_any h hinv (h.level - 1))
    · rw [if_neg hop]
      refine handleInv_setFrame_any h (h.level - 1) _ hinv (fun _ => ?_)
      exact frameInv_frame_any h hinv (h.level - 1)

theorem frameInv_fresh_alloc (p : ExtentPath) (hnb : p.buf = none)
    (hfp : frameInv p = true) :
    frameInv { p with buf := some emptyNode } = true := by
  unfold frameInv at hfp ⊢
  rw [hnb] at hfp
  simp only [Bool.and_eq_true, decide_eq_true_eq] at hfp ⊢
  rw [hfp.1, hfp.2]
  refine ⟨⟨le_refl 0, rfl⟩, rfl⟩

theorem down_inv (fs : Filsys) (op : Nat) (h : ExtentHandle) (hinv : handleInv h = true) :
    (extentDownCase fs op h).1 = Except.error EXT2_ET_EXTENT_HEADER_BAD ∨
    handleInv (extentDownCase fs op h).2 = true := by
  unfold extentDownCase
  cases hc : (h.frame h.level).curr with
  | none =>
    simp only [hc]
    right
    exact hinv
  | some i =>
    simp only [hc]
    by_cases hlev : h.level ≥ h.max_depth
    · rw [if_pos hlev]
      right
      exact hinv
    · rw [if_neg hlev]
      cases hrx : (if fs.flags &&& EXT2_FLAG_IMAGE_FILE ≠ 0 ∧ fs.image_io_differs then
          Except.ok emptyNode
        else fs.readBlk (le32 ((((h.frame h.level).buf.getD emptyNode).recAt i).ei_leaf +
          (((h.frame h.level).buf.getD emptyNode).recAt i).ei_leaf_hi * 4294967296))) with
      | error e =>
        simp only [hrx]
        right
        refine handleInv_setFrame_any h (h.level + 1) _ hinv (fun _ => ?_)
        have hnf := frameInv_frame_any h hinv (h.level + 1)
        cases hnb : (h.frame (h.level + 1)).buf with
        | some nb =>
          refine frameInv_keep (h.frame (h.level + 1)) _ ?_ rfl rfl hnf
          rw [hnb]
          rfl
        | none => exact frameInv_fresh_alloc _ hnb hnf
      | ok child =>
        simp only [hrx]
        by_cases hv : ext2fs_extent_header_verify child.hdr (fs.blocksize : Int) ≠ 0
        · rw [if_pos hv]
          left
          rcases verify_cases child.hdr (fs.blocksize : Int) with h0 | hbad
          · exact absurd h0 hv
          · rw [hbad]
        · rw [if_neg hv]
          right
          have hv0 : ext2fs_extent_header_verify child.hdr (fs.blocksize : Int) = 0 :=
            not_ne_iff.mp hv
          have hent : (le16 child.hdr.eh_entries : Int) ≤ (le16 child.hdr.eh_max : Int) :=
            Int.ofNat_le.mpr (verify_zero_entries_le _ _ hv0)
          have hall : ∀ p ∈ h.path.getD [], frameInv p = true := by
            intro p hm
            cases hpath : h.path with
            | none =>
              rw [hpath] at hm
              simp at hm
            | some f =>
              refine handleInv_frames h f hpath hinv p ?_
              rw [hpath] at hm
              exact hm
          have hfrIn : h.level + 1 < (h.path.getD []).length →
              ({ h.setFrame (h.level + 1)
                   { h.frame (h.level + 1) with buf := some child } with
                 level := h.level + 1 } : ExtentHandle).frame (h.level + 1) =
              { h.frame (h.level + 1) with buf := some child } := by
            intro hlen
            show (h.setFrame (h.level + 1)
              { h.frame (h.level + 1) with buf := some child }).frame (h.level + 1) = _
            cases hpath : h.path with
            | none =>
              exfalso
              rw [hpath] at hlen
              simp at hlen
            | some f =>
              refine frame_setFrame_eq h f hpath (h.level + 1) ?_ _
              rw [hpath] at hlen
              exact hlen
          have hmain : ∀ q : ExtentPath,
              (h.level + 1 < (h.path.getD []).length → q.buf = some child) →
              q.entries = (le16 child.hdr.eh_entries : Int) →
              q.max_entries = (le16 child.hdr.eh_max : Int) →
              ∀ hh : ExtentHandle,
              hh.path = some (((h.path.getD []).set (h.level + 1)
                { h.frame (h.level + 1) with buf := some child }).set (h.level + 1) q) →
              handleInv hh = true := by
            intro q hqb hqe hqm hh hhp
            unfold handleInv
            rw [hhp, List.set_set]
            by_cases hlen : h.level + 1 < (h.path.getD []).length
            · refine List.all_eq_true.mpr ?_
              intro x hx
              rcases List.mem_or_eq_of_mem_set hx with hmem | rfl
              · exact hall x hmem
              · unfold frameInv
                rw [hqb hlen]
                simp only [Bool.and_eq_true, decide_eq_true_eq]
                exact ⟨⟨by rw [hqe, hqm]; exact hent, by rw [hqe]⟩, by rw [hqm]⟩
            · rw [list_set_of_length_le _ _ _ (Nat.le_of_not_lt hlen)]
              refine List.all_eq_true.mpr ?_
              intro x hx
              exact hall x hx
          by_cases hop : op = EXT2_EXTENT_DOWN
          · rw [if_pos hop]
            refine hmain _ (fun hlen => ?_) rfl rfl _ rfl
            show (({ h.setFrame (h.level + 1)
                { h.frame (h.level + 1) with buf := some child } with
              level := h.level + 1 } : ExtentHandle).frame (h.level + 1)).buf = some child
            rw [hfrIn hlen]
          · rw [if_neg hop]
            refine hmain _ (fun hlen => ?_) rfl rfl _ rfl
            show (({ h.setFrame (h.level + 1)
                { h.frame (h.level + 1) with buf := some child } with
              level := h.level + 1 } : ExtentHandle).frame (h.level + 1)).buf = some child
            rw [hfrIn hlen]

theorem select_keep (origOp level maxd : Nat) (path : ExtentPath) (op : Nat)
    (path1 : ExtentPath)
    (hs : extentGetSelect origOp level maxd path = Except.ok (op, path1)) :
    path1.buf = path.buf ∧ path1.entries = path.entries ∧
      path1.max_entries = path.max_entries := by
  unfold extentGetSelect at hs
  split_ifs at hs <;> cases hs <;> exact ⟨rfl, rfl, rfl⟩

theorem switch_inv (fs : Filsys) (origOp op : Nat) (h : ExtentHandle)
    (hinv : handleInv h = true) :
    (extentGetSwitch fs origOp op h).1 = Except.error EXT2_ET_EXTENT_HEADER_BAD ∨
    handleInv (extentGetSwitch fs origOp op h).2 = true := by
  unfold extentGetSwitch
  by_cases hcur : op = EXT2_EXTENT_CURRENT
  · rw [if_pos hcur]
    right
    exact hinv
  · rw [if_neg hcur]
    by_cases hns : op = EXT2_EXTENT_ROOT ∨ op = EXT2_EXTENT_FIRST_SIB ∨
        op = EXT2_EXTENT_NEXT_SIB
    · rw [if_pos hns]
      right
      apply nextSib_inv
      have hha : handleInv (if op = EXT2_EXTENT_ROOT then { h with level := 0 } else h) =
          true := by
        by_cases hR : op = EXT2_EXTENT_ROOT
        · rw [if_pos hR]
          exact hinv
        · rw [if_neg hR]
          exact hinv
      by_cases hRF : op = EXT2_EXTENT_ROOT ∨ op = EXT2_EXTENT_FIRST_SIB
      · rw [if_pos hRF]
        refine handleInv_setFrame_any _ _ _ hha (fun _ => ?_)
        exact frameInv_keep _ _ rfl rfl rfl (frameInv_frame_any _ hha _)
      · rw [if_neg hRF]
        exact hha
    · rw [if_neg hns]
      by_cases hps : op = EXT2_EXTENT_PREV_SIB
      · rw [if_pos hps]
        right
        exact prevSib_inv h hinv
      · rw [if_neg hps]
        by_cases hls : op = EXT2_EXTENT_LAST_SIB
        · rw [if_pos hls]
          right
          exact lastSib_inv h hinv
        · rw [if_neg hls]
          by_cases hup : op = EXT2_EXTENT_UP
          · rw [if_pos hup]
            right
            exact up_inv origOp h hinv
          · rw [if_neg hup]
            by_cases hdn : op = EXT2_EXTENT_DOWN ∨ op = EXT2_EXTENT_DOWN_AND_LAST
            · rw [if_pos hdn]
              exact down_inv fs op h hinv
            · rw [if_neg hdn]
              right
              exact hinv

theorem once_inv (fs : Filsys) (origOp : Nat) (h : ExtentHandle)
    (hinv : handleInv h = true) :
    (extentGetOnce fs origOp h).1 = Except.error EXT2_ET_EXTENT_HEADER_BAD ∨
    handleInv (extentGetOnce fs origOp h).2 = true := by
  unfold extentGetOnce
  cases hsel : extentGetSelect origOp h.level h.max_depth (h.frame h.level) with
  | error e =>
    right
    exact hinv
  | ok pr =>
    obtain ⟨op, path1⟩ := pr
    dsimp only
    obtain ⟨hb, he, hm⟩ := select_keep origOp h.level h.max_depth (h.frame h.level) op
      path1 hsel
    have hinv1 : handleInv (h.setFrame h.level path1) = true := by
      refine handleInv_setFrame_any h h.level path1 hinv (fun _ => ?_)
      exact frameInv_keep (h.frame h.level) path1 hb he hm
        (frameInv_frame_any h hinv h.level)
    rcases hsw0 : extentGetSwitch fs origOp op (h.setFrame h.level path1) with ⟨res, h2⟩
    have := switch_inv fs origOp op (h.setFrame h.level path1) hinv1
    rw [hsw0] at this
    cases res with
    | error e =>
      rcases this with hl | hr
      · left
        simpa using hl
      · right
        simpa using hr
    | ok oix =>
      cases oix with
      | none =>
        rcases this with hl | hr
        · exact absurd hl (by simp)
        · right
          simpa using hr
      | some ix =>
        rcases this with hl | hr
        · exact absurd hl (by simp)
        · right
          simpa using hr

theorem loop_inv (fs : Filsys) (origOp : Nat) :
    ∀ (fuel : Nat) (h : ExtentHandle), handleInv h = true →
    (extentGetLoop fs origOp fuel h).1 = Except.error EXT2_ET_EXTENT_HEADER_BAD ∨
    handleInv (extentGetLoop fs origOp fuel h).2 = true := by
  intro fuel
  induction fuel with
  | zero =>
    intro h hinv
    right
    exact hinv
  | succ n ih =>
    intro h hinv
    show (match extentGetOnce fs origOp h with
      | (Except.error e, h1) => (Except.error e, h1)
      | (Except.ok ext, h1) => _).1 = _ ∨ handleInv (match extentGetOnce fs origOp h with
      | (Except.error e, h1) => (Except.error e, h1)
      | (Except.ok ext, h1) => _).2 = true
    rcases ho : extentGetOnce fs origOp h with ⟨res, h1⟩
    have hone := once_inv fs origOp h hinv
    rw [ho] at hone
    cases res with
    | error e =>
      simpa using hone
    | ok ext =>
      have hinv1 : handleInv h1 = true := by
        rcases hone with hl | hr
        · exact absurd hl (by simp)
        · exact hr
      dsimp only
      by_cases hc1 : (origOp = EXT2_EXTENT_NEXT_LEAF ∨ origOp = EXT2_EXTENT_PREV_LEAF) ∧
          h1.level ≠ h1.max_depth
      · simp only [if_pos hc1]
        exact ih h1 hinv1
      · rw [if_neg hc1]
        by_cases hc2 : origOp = EXT2_EXTENT_LAST_LEAF ∧
            (h1.level ≠ h1.max_depth ∨ (h1.frame h1.level).left ≠ 0)
        · rw [if_pos hc2]
          exact ih h1 hinv1
        · rw [if_neg hc2]
          right
          exact hinv1

theorem get_inv (fs : Filsys) (h : ExtentHandle) (flags : Nat)
    (hinv : handleInv h = true) :
    (ext2fs_extent_get fs h flags).1 = Except.error EXT2_ET_EXTENT_HEADER_BAD ∨
    handleInv (ext2fs_extent_get fs h flags).2 = true := by
  unfold ext2fs_extent_get
  cases hpath : h.path with
  | none =>
    right
    exact hinv
  | some f => exact loop_inv fs (flags &&& EXT2_EXTENT_MOVE_MASK) (2 * h.max_depth + 4) h hinv

theorem switch_nodown_inv (fs : Filsys) (origOp op : Nat) (h : ExtentHandle)
    (hinv : handleInv h = true)
    (hnd : ¬ (op = EXT2_EXTENT_DOWN ∨ op = EXT2_EXTENT_DOWN_AND_LAST)) :
    handleInv (extentGetSwitch fs origOp op h).2 = true := by
  unfold extentGetSwitch
  by_cases hcur : op = EXT2_EXTENT_CURRENT
  · rw [if_pos hcur]
    exact hinv
  · rw [if_neg hcur]
    by_cases hns : op = EXT2_EXTENT_ROOT ∨ op = EXT2_EXTENT_FIRST_SIB ∨
        op = EXT2_EXTENT_NEXT_SIB
    · rw [if_pos hns]
      apply nextSib_inv
      have hha : handleInv (if op = EXT2_EXTENT_ROOT then { h with level := 0 } else h) =
          true := by
        by_cases hR : op = EXT2_EXTENT_ROOT
        · rw [if_pos hR]
          exact hinv
        · rw [if_neg hR]
          exact hinv
      by_cases hRF : op = EXT2_EXTENT_ROOT ∨ op = EXT2_EXTENT_FIRST_SIB
      · rw [if_pos hRF]
        refine handleInv_setFrame_any _ _ _ hha (fun _ => ?_)
        exact frameInv_keep _ _ rfl rfl rfl (frameInv_frame_any _ hha _)
      · rw [if_neg hRF]
        exact hha
    · rw [if_neg hns]
      by_cases hps : op = EXT2_EXTENT_PREV_SIB
      · rw [if_pos hps]
        exact prevSib_inv h hinv
      · rw [if_neg hps]
        by_cases hls : op = EXT2_EXTENT_LAST_SIB
        · rw [if_pos hls]
          exact lastSib_inv h hinv
        · rw [if_neg hls]
          by_cases hup : op = EXT2_EXTENT_UP
          · rw [if_pos hup]
            exact up_inv origOp h hinv
          · rw [if_neg hup, if_neg hnd]
            exact hinv

theorem once_nodown_inv (fs : Filsys) (origOp : Nat) (h : ExtentHandle)
    (hinv : handleInv h = true)
    (hsel : extentGetSelect origOp h.level h.max_depth (h.frame h.level) =
      Except.ok (origOp, h.frame h.level))
    (hnd : ¬ (origOp = EXT2_EXTENT_DOWN ∨ origOp = EXT2_EXTENT_DOWN_AND_LAST)) :
    handleInv (extentGetOnce fs origOp h).2 = true := by
  unfold extentGetOnce
  rw [hsel]
  dsimp only
  have hset : handleInv (h.setFrame h.level (h.frame h.level)) = true := by
    refine handleInv_setFrame_any h h.level _ hinv (fun _ => ?_)
    exact frameInv_frame_any h hinv h.level
  rcases hsw0 : extentGetSwitch fs origOp origOp (h.setFrame h.level (h.frame h.level))
    with ⟨res, h2⟩
  have hsw := switch_nodown_inv fs origOp origOp (h.setFrame h.level (h.frame h.level))
    hset hnd
  rw [hsw0] at hsw
  cases res with
  | error e => simpa using hsw
  | ok oix =>
    cases oix with
    | none => simpa using hsw
    | some ix => simpa using hsw

theorem select_passthrough (v : Nat)
    (hv : v = EXT2_EXTENT_NEXT_SIB ∨ v = EXT2_EXTENT_PREV_SIB ∨ v = EXT2_EXTENT_ROOT)
    (l m : Nat) (p : ExtentPath) : extentGetSelect v l m p = Except.ok (v, p) := by
  rcases hv with rfl | rfl | rfl <;>
    (unfold extentGetSelect
     norm_num [EXT2_EXTENT_NEXT, EXT2_EXTENT_NEXT_LEAF, EXT2_EXTENT_PREV,
       EXT2_EXTENT_PREV_LEAF, EXT2_EXTENT_LAST_LEAF, EXT2_EXTENT_NEXT_SIB,
       EXT2_EXTENT_PREV_SIB, EXT2_EXTENT_ROOT])

theorem get_nodown_inv (fs : Filsys) (h : ExtentHandle) (v : Nat)
    (hinv : handleInv h = true)
    (hv : v = EXT2_EXTENT_NEXT_SIB ∨ v = EXT2_EXTENT_PREV_SIB ∨ v = EXT2_EXTENT_ROOT) :
    handleInv (ext2fs_extent_get fs h v).2 = true := by
  unfold ext2fs_extent_get
  cases hpath : h.path with
  | none => exact hinv
  | some f =>
    have hmask : v &&& EXT2_EXTENT_MOVE_MASK = v := by
      rcases hv with rfl | rfl | rfl <;> decide
    rw [hmask]
    have hnd : ¬ (v = EXT2_EXTENT_DOWN ∨ v = EXT2_EXTENT_DOWN_AND_LAST) := by
      rcases hv with rfl | rfl | rfl <;> decide
    have hfuel : 2 * h.max_depth + 4 = (2 * h.max_depth + 3) + 1 := rfl
    rw [hfuel]
    show handleInv (match extentGetOnce fs v h with
      | (Except.error e, h1) => (Except.error e, h1)
      | (Except.ok ext, h1) => _).2 = true
    rcases honce : extentGetOnce fs v h with ⟨res, h1⟩
    have hi1 : handleInv h1 = true := by
      have := once_nodown_inv fs v h hinv
        (select_passthrough v hv h.level h.max_depth (h.frame h.level)) hnd
      rw [honce] at this
      exact this
    cases res with
    | error e => exact hi1
    | ok ext =>
      dsimp only
      have hr1 : ¬ ((v = EXT2_EXTENT_NEXT_LEAF ∨ v = EXT2_EXTENT_PREV_LEAF) ∧
          h1.level ≠ h1.max_depth) := by
        rintro ⟨hc, -⟩
        rcases hv with rfl | rfl | rfl <;> rcases hc with hc | hc <;> exact absurd hc (by decide)
      have hr2 : ¬ (v = EXT2_EXTENT_LAST_LEAF ∧
          (h1.level ≠ h1.max_depth ∨ (h1.frame h1.level).left ≠ 0)) := by
        rintro ⟨hc, -⟩
        rcases hv with rfl | rfl | rfl <;> exact absurd hc (by decide)
      rw [if_neg hr1, if_neg hr2]
      exact hi1

theorem goto_loop_inv (fs : Filsys) (leaf_level blk : Nat) :
    ∀ (fuel : Nat) (mode : Bool) (ext : Ext2fsExtent) (h : ExtentHandle),
    handleInv h = true →
    (extentGotoLoop fs leaf_level blk fuel mode ext h).1 = EXT2_ET_EXTENT_HEADER_BAD ∨
    handleInv (extentGotoLoop fs leaf_level blk fuel mode ext h).2 = true := by
  intro fuel
  induction fuel with
  | zero =>
    intro mode ext h hinv
    right
    exact hinv
  | succ n ih =>
    intro mode ext h hinv
    cases mode with
    | true =>
      show (match ext2fs_extent_get fs h EXT2_EXTENT_DOWN with
        | (Except.error e, h1) => (e, h1)
        | (Except.ok ext1, h1) => _).1 = _ ∨ handleInv (match ext2fs_extent_get fs h
          EXT2_EXTENT_DOWN with
        | (Except.error e, h1) => (e, h1)
        | (Except.ok ext1, h1) => _).2 = true
      rcases hg : ext2fs_extent_get fs h EXT2_EXTENT_DOWN with ⟨res, h1⟩
      have hgi := get_inv fs h EXT2_EXTENT_DOWN hinv
      rw [hg] at hgi
      cases res with
      | error e =>
        rcases hgi with hl | hr
        · left
          simp only at hl
          exact congrArg (fun x => match x with
            | Except.error e => e
            | Except.ok _ => 0) hl
        · right
          exact hr
      | ok ext1 =>
        have hi1 : handleInv h1 = true := by
          rcases hgi with hl | hr
          · exact absurd hl (by simp)
          · exact hr
        exact ih false ext1 h1 hi1
    | false =>
      dsimp only [extentGotoLoop]
      by_cases hleaf : (h.level : Int) - (leaf_level : Int) = (h.max_depth : Int)
      · rw [if_pos hleaf]
        by_cases hin : blk ≥ ext.e_lblk ∧ blk < ext.e_lblk + ext.e_len
        · rw [if_pos hin]
          right
          exact hinv
        · rw [if_neg hin]
          by_cases hlt : blk < ext.e_lblk
          · rw [if_pos hlt]
            right
            exact get_nodown_inv fs h EXT2_EXTENT_PREV_SIB hinv (Or.inr (Or.inl rfl))
          · rw [if_neg hlt]
            rcases hg : ext2fs_extent_get fs h EXT2_EXTENT_NEXT_SIB with ⟨res, h1⟩
            have hi1 : handleInv h1 = true := by
              have := get_nodown_inv fs h EXT2_EXTENT_NEXT_SIB hinv (Or.inl rfl)
              rw [hg] at this
              exact this
            cases res with
            | error e =>
              dsimp only
              by_cases he : e = EXT2_ET_EXTENT_NO_NEXT
              · rw [if_pos he]
                right
                exact hi1
              · rw [if_neg he]
                right
                exact hi1
            | ok ext1 => exact ih false ext1 h1 hi1
      · rw [if_neg hleaf]
        rcases hg : ext2fs_extent_get fs h EXT2_EXTENT_NEXT_SIB with ⟨res, h1⟩
        have hi1 : handleInv h1 = true := by
          have := get_nodown_inv fs h EXT2_EXTENT_NEXT_SIB hinv (Or.inl rfl)
          rw [hg] at this
          exact this
        cases res with
        | error e =>
          dsimp only
          by_cases he : e = EXT2_ET_EXTENT_NO_NEXT
          · rw [if_pos he]
            exact ih true ext h1 hi1
          · rw [if_neg he]
            right
            exact hi1
        | ok ext1 =>
          dsimp only
          by_cases heq : blk = ext1.e_lblk
          · rw [if_pos heq]
            exact ih true ext1 h1 hi1
          · rw [if_neg heq]
            by_cases hgt : blk > ext1.e_lblk
            · rw [if_pos hgt]
              exact ih false ext1 h1 hi1
            · rw [if_neg hgt]
              rcases hg2 : ext2fs_extent_get fs h1 EXT2_EXTENT_PREV_SIB with ⟨res2, h2⟩
              have hi2 : handleInv h2 = true := by
                have := get_nodown_inv fs h1 EXT2_EXTENT_PREV_SIB hi1 (Or.inr (Or.inl rfl))
                rw [hg2] at this
                exact this
              cases res2 with
              | error e2 =>
                right
                exact hi2
              | ok ext2 => exact ih true ext2 h2 hi2

theorem goto_inv (fs : Filsys) (h : ExtentHandle) (blk : Nat)
    (hinv : handleInv h = true) :
    (ext2fs_extent_goto fs h blk).1 = EXT2_ET_EXTENT_HEADER_BAD ∨
    handleInv (ext2fs_extent_goto fs h blk).2 = true := by
  unfold ext2fs_extent_goto extent_goto
  rcases hg : ext2fs_extent_get fs h EXT2_EXTENT_ROOT with ⟨res, h1⟩
  have hi1 : handleInv h1 = true := by
    have := get_nodown_inv fs h EXT2_EXTENT_ROOT hinv (Or.inr (Or.inr rfl))
    rw [hg] at this
    exact this
  cases res with
  | error e =>
    right
    exact hi1
  | ok ext => exact goto_loop_inv fs 0 blk (gotoFuel h1) false ext h1 hi1

theorem toLe16I_round (x : Int) (h0 : 0 ≤ x) (h1 : x < 65536) :
    ((le16 (toLe16I x) : Nat) : Int) = x := by
  unfold le16 toLe16I
  omega

theorem frameInv_mk (p : ExtentPath) (n : ExtNode) (hb : p.buf = some n)
    (h1 : p.entries ≤ p.max_entries)
    (h2 : ((le16 n.hdr.eh_entries : Nat) : Int) = p.entries)
    (h3 : ((le16 n.hdr.eh_max : Nat) : Int) = p.max_entries) : frameInv p = true := by
  unfold frameInv
  rw [hb]
  simp [h1, h2, h3]

theorem frameInv_dest (p : ExtentPath) (n : ExtNode) (hb : p.buf = some n)
    (hfp : frameInv p = true) :
    p.entries ≤ p.max_entries ∧ ((le16 n.hdr.eh_entries : Nat) : Int) = p.entries ∧
      ((le16 n.hdr.eh_max : Nat) : Int) = p.max_entries := by
  unfold frameInv at hfp
  rw [hb] at hfp
  simp only [Bool.and_eq_true, decide_eq_true_eq] at hfp
  exact ⟨hfp.1.1, hfp.1.2, hfp.2⟩

theorem frameInv_dest_none (p : ExtentPath) (hb : p.buf = none)
    (hfp : frameInv p = true) : p.entries = 0 ∧ p.max_entries = 0 := by
  unfold frameInv at hfp
  rw [hb] at hfp
  simpa using hfp

theorem frameInv_recs_mod (p : ExtentPath) (R : List NodeRec) (hfp : frameInv p = true) :
    frameInv { p with buf := some { p.buf.getD emptyNode with recs := R } } = true := by
  cases hb : p.buf with
  | none =>
    rcases frameInv_dest_none p hb hfp with ⟨he, hm⟩
    refine frameInv_mk _ _ rfl ?_ ?_ ?_
    · show p.entries ≤ p.max_entries
      omega
    · show ((le16 emptyNode.hdr.eh_entries : Nat) : Int) = p.entries
      rw [he]
      decide
    · show ((le16 emptyNode.hdr.eh_max : Nat) : Int) = p.max_entries
      rw [hm]
      decide
  | some nb =>
    rcases frameInv_dest p nb hb hfp with ⟨h1, h2, h3⟩
    refine frameInv_mk _ _ rfl ?_ ?_ ?_
    · show p.entries ≤ p.max_entries
      exact h1
    · show ((le16 nb.hdr.eh_entries : Nat) : Int) = p.entries
      exact h2
    · show ((le16 nb.hdr.eh_max : Nat) : Int) = p.max_entries
      exact h3

theorem getD_set_cases {α : Type _} (l : List α) (k : Nat) (p d : α) :
    (l.set k p).getD k d = p ∨ (l.set k p).getD k d = l.getD k d := by
  by_cases hk : k < l.length
  · left
    exact list_getD_set_self l k p d hk
  · right
    rw [list_set_of_length_le l k p (Nat.le_of_not_lt hk)]

theorem setFrame_frame_fields (x : ExtentHandle) (l : Nat) (p : ExtentPath) :
    (x.setFrame l p).frame l = p ∨ (x.setFrame l p).frame l = x.frame l := by
  unfold ExtentHandle.setFrame ExtentHandle.frame
  show ((x.path.getD []).set l p).getD l defaultPath = p ∨
    ((x.path.getD []).set l p).getD l defaultPath = (x.path.getD []).getD l defaultPath
  exact getD_set_cases (x.path.getD []) l p defaultPath

theorem replace_inv (fs : Filsys) (h : ExtentHandle) (rflags : Nat) (extent : Ext2fsExtent)
    (hinv : handleInv h = true) :
    handleInv (ext2fs_extent_replace fs h rflags extent).2.1 = true := by
  unfold ext2fs_extent_replace
  by_cases hrw : fs.flags &&& EXT2_FLAG_RW = 0
  · rw [if_pos hrw]
    exact hinv
  · rw [if_neg hrw]
    cases hpath : h.path with
    | none => exact hinv
    | some f =>
      dsimp only
      cases hc : (h.frame h.level).curr with
      | none => exact hinv
      | some i =>
        dsimp only
        refine handleInv_setFrame_any h h.level _ hinv (fun _ => ?_)
        exact frameInv_recs_mod (h.frame h.level) _ (frameInv_frame_any h hinv h.level)

theorem setFrame_self_frame_curr (x : ExtentHandle) (p : ExtentPath) (c : Option Int)
    (hc : p.curr = c) (hc2 : (x.frame x.level).curr = c) :
    ((x.setFrame x.level p).frame x.level).curr = c := by
  rcases setFrame_frame_fields x x.level p with hq | hq
  · rw [hq]
    exact hc
  · rw [hq]
    exact hc2

theorem setFrame_self_frame_entries (x : ExtentHandle) (p : ExtentPath) (e : Int)
    (he : p.entries = e) (he2 : (x.frame x.level).entries = e) :
    ((x.setFrame x.level p).frame x.level).entries = e := by
  rcases setFrame_frame_fields x x.level p with hq | hq
  · rw [hq]
    exact he
  · rw [hq]
    exact he2

theorem replace_frame_pres (fs : Filsys) (x : ExtentHandle) (f : Nat) (e : Ext2fsExtent) :
    (ext2fs_extent_replace fs x f e).2.1.level = x.level ∧
    ((ext2fs_extent_replace fs x f e).2.1.frame x.level).curr = (x.frame x.level).curr ∧
    ((ext2fs_extent_replace fs x f e).2.1.frame x.level).entries =
      (x.frame x.level).entries := by
  unfold ext2fs_extent_replace
  by_cases hrw : fs.flags &&& EXT2_FLAG_RW = 0
  · rw [if_pos hrw]
    exact ⟨rfl, rfl, rfl⟩
  · rw [if_neg hrw]
    cases hpath : x.path with
    | none => exact ⟨rfl, rfl, rfl⟩
    | some f2 =>
      dsimp only
      cases hc : (x.frame x.level).curr with
      | none => exact ⟨rfl, hc, rfl⟩
      | some i =>
        dsimp only
        refine ⟨rfl, ?_, ?_⟩
        · exact setFrame_self_frame_curr x _ (some i) rfl hc
        · exact setFrame_self_frame_entries x _ ((x.frame x.level).entries) rfl rfl

theorem frameInv_delete_frame (p : ExtentPath) (nb : ExtNode) (R : List NodeRec)
    (c2 : Option Int) (l1 : Int) (hb : p.buf = some nb) (hfp : frameInv p = true)
    (hpos : 0 < p.entries) :
    frameInv { p with
      buf := some { nb with
        recs := R,
        hdr := { nb.hdr with eh_entries := toLe16I (p.entries - 1) } },
      curr := c2, left := l1, entries := p.entries - 1 } = true := by
  rcases frameInv_dest p nb hb hfp with ⟨h1, h2, h3⟩
  have he16 := le16_lt nb.hdr.eh_entries
  refine frameInv_mk _ _ rfl ?_ ?_ ?_
  · show p.entries - 1 ≤ p.max_entries
    omega
  · show ((le16 (toLe16I (p.entries - 1)) : Nat) : Int) = p.entries - 1
    exact toLe16I_round _ (by omega) (by omega)
  · show ((le16 nb.hdr.eh_max : Nat) : Int) = p.max_entries
    exact h3

theorem delete_inv (fs : Filsys) (h : ExtentHandle) (dflags : Nat)
    (hinv : handleInv h = true)
    (hcur : ∀ i, (h.frame h.level).curr = some i → 0 < (h.frame h.level).entries) :
    handleInv (ext2fs_extent_delete fs h dflags).2.1 = true := by
  unfold ext2fs_extent_delete
  by_cases hrw : fs.flags &&& EXT2_FLAG_RW = 0
  · rw [if_pos hrw]
    exact hinv
  · rw [if_neg hrw]
    cases hpath : h.path with
    | none => exact hinv
    | some f =>
      dsimp only
      cases hc : (h.frame h.level).curr with
      | none => exact hinv
      | some i =>
        dsimp only
        have hpos : 0 < (h.frame h.level).entries := hcur i hc
        refine handleInv_setFrame_any h h.level _ hinv (fun _ => ?_)
        cases hb : (h.frame h.level).buf with
        | none =>
          rcases frameInv_dest_none _ hb (frameInv_frame_any h hinv h.level) with ⟨he, hm⟩
          exfalso
          omega
        | some nb =>
          exact frameInv_delete_frame (h.frame h.level) nb _ _ _ hb
            (frameInv_frame_any h hinv h.level) hpos

theorem insert_rollback_inv (fs : Filsys) (x : ExtentHandle) (e : Ext2fsExtent)
    (hx : handleInv x = true)
    (hcur : ∀ j, (x.frame x.level).curr = some j → 0 < (x.frame x.level).entries) :
    handleInv (ext2fs_extent_delete fs (ext2fs_extent_replace fs x 0 e).2.1 0).2.1 = true := by
  rcases replace_frame_pres fs x 0 e with ⟨hlv, hcu, hen⟩
  refine delete_inv fs _ 0 (replace_inv fs x 0 e hx) ?_
  intro j hj
  rw [hlv] at hj ⊢
  rw [hen]
  rw [hcu] at hj
  exact hcur j hj

theorem frameInv_insert_frame (p : ExtentPath) (nb : ExtNode) (R : List NodeRec)
    (c2 : Option Int) (l1 : Int) (hb : p.buf = some nb) (hfp : frameInv p = true)
    (hfull : ¬ p.entries ≥ p.max_entries) :
    frameInv { p with
      buf := some { nb with
        recs := R,
        hdr := { nb.hdr with eh_entries := toLe16I (p.entries + 1) } },
      curr := c2, left := l1, entries := p.entries + 1 } = true := by
  rcases frameInv_dest p nb hb hfp with ⟨h1, h2, h3⟩
  have he16 := le16_lt nb.hdr.eh_entries
  have hm16 := le16_lt nb.hdr.eh_max
  refine frameInv_mk _ _ rfl ?_ ?_ ?_
  · show p.entries + 1 ≤ p.max_entries
    omega
  · show ((le16 (toLe16I (p.entries + 1)) : Nat) : Int) = p.entries + 1
    exact toLe16I_round _ (by omega) (by omega)
  · show ((le16 nb.hdr.eh_max : Nat) : Int) = p.max_entries
    exact h3

theorem setFrame_self_level (x : ExtentHandle) (p : ExtentPath) :
    (x.setFrame x.level p).level = x.level := rfl

theorem insert_h1_curr_pos (h : ExtentHandle) (f : List ExtentPath) (hpath : h.path = some f)
    (P : ExtentPath) (hl : h.level < f.length) (hPe : 0 < P.entries) :
    ∀ j, ((h.setFrame h.level P).frame (h.setFrame h.level P).level).curr = some j →
      0 < ((h.setFrame h.level P).frame (h.setFrame h.level P).level).entries := by
  intro j _
  rw [setFrame_self_level, frame_setFrame_eq h f hpath h.level hl P]
  exact hPe

theorem inv_insert_tail (fs : Filsys) (x : ExtentHandle) (e : Ext2fsExtent)
    (u : Nat) (ev1 ev2 ev3 : List WriteEv)
    (hx : handleInv x = true)
    (hcur : ∀ j, (x.frame x.level).curr = some j → 0 < (x.frame x.level).entries) :
    handleInv (if (ext2fs_extent_replace fs x 0 e).1 ≠ 0 then
        ((ext2fs_extent_replace fs x 0 e).1,
         (ext2fs_extent_delete fs (ext2fs_extent_replace fs x 0 e).2.1 0).2.1, ev1)
      else if u ≠ 0 then
        (u, (ext2fs_extent_delete fs (ext2fs_extent_replace fs x 0 e).2.1 0).2.1, ev2)
      else (0, (ext2fs_extent_replace fs x 0 e).2.1, ev3)).2.1 = true := by
  by_cases h1 : (ext2fs_extent_replace fs x 0 e).1 ≠ 0
  · rw [if_pos h1]
    exact insert_rollback_inv fs x e hx hcur
  · rw [if_neg h1]
    by_cases h2 : u ≠ 0
    · rw [if_pos h2]
      exact insert_rollback_inv fs x e hx hcur
    · rw [if_neg h2]
      exact replace_inv fs x 0 e hx

theorem insert_inv (fs : Filsys) (h : ExtentHandle) (iflags : Nat) (extent : Ext2fsExtent)
    (hinv : handleInv h = true) :
    handleInv (ext2fs_extent_insert fs h iflags extent).2.1 = true := by
  unfold ext2fs_extent_insert
  by_cases hrw : fs.flags &&& EXT2_FLAG_RW = 0
  · rw [if_pos hrw]
    exact hinv
  · rw [if_neg hrw]
    cases hpath : h.path with
    | none => exact hinv
    | some f =>
      dsimp only
      by_cases hfull : (h.frame h.level).entries ≥ (h.frame h.level).max_entries
      · rw [if_pos hfull]
        exact hinv
      · rw [if_neg hfull]
        cases hb : (h.frame h.level).buf with
        | none =>
          rcases frameInv_dest_none _ hb (frameInv_frame_any h hinv h.level) with ⟨he, hm⟩
          exact absurd (by omega : (h.frame h.level).entries ≥ (h.frame h.level).max_entries)
            hfull
        | some nb =>
          rcases frameInv_dest _ nb hb (frameInv_frame_any h hinv h.level) with ⟨h1le, h2e, h3m⟩
          have hent0 : 0 ≤ (h.frame h.level).entries := by
            omega
          have hflen : h.level < f.length := lt_length_of_frame_buf h f hpath h.level nb hb
          refine inv_insert_tail fs _ extent _ _ _ _ ?_ ?_
          · refine handleInv_setFrame_any h h.level _ hinv (fun _ => ?_)
            exact frameInv_insert_frame (h.frame h.level) nb _ _ _ hb
              (frameInv_frame_any h hinv h.level) hfull
          · refine insert_h1_curr_pos h f hpath _ hflen ?_
            show (0 : Int) < (h.frame h.level).entries + 1
            omega

theorem open_inv (fs : Filsys) (ino : Nat) (h1 : ExtentHandle)
    (hopen : (ext2fs_extent_open fs ino).2.1 = some h1) :
    handleInv h1 = true := by
  unfold ext2fs_extent_open at hopen
  by_cases h0 : ino = 0 ∨ ino > fs.inodes_count
  · rw [if_pos h0] at hopen
    exact absurd hopen (by simp)
  · rw [if_neg h0] at hopen
    by_cases hA : fs.allocHandleErr ≠ 0
    · rw [if_pos hA] at hopen
      exact absurd hopen (by simp)
    · rw [if_neg hA] at hopen
      by_cases hB : fs.allocInodeErr ≠ 0
      · rw [if_pos hB] at hopen
        exact absurd hopen (by simp)
      · rw [if_neg hB] at hopen
        cases hri : fs.readInode ino with
        | error e =>
          rw [hri] at hopen
          exact absurd hopen (by simp)
        | ok inode =>
          rw [hri] at hopen
          dsimp only at hopen
          by_cases hfl : inode.i_flags &&& EXT4_EXTENTS_FL = 0
          · rw [if_pos hfl] at hopen
            exact absurd hopen (by simp)
          · rw [if_neg hfl] at hopen
            by_cases hv : ext2fs_extent_header_verify inode.i_block.hdr 60 ≠ 0
            · rw [if_pos hv] at hopen
              exact absurd hopen (by simp)
            · rw [if_neg hv] at hopen
              dsimp only at hopen
              injection hopen with hh
              subst hh
              unfold handleInv
              dsimp only
              rw [List.all_cons, Bool.and_eq_true]
              refine ⟨?_, ?_⟩
              · push_neg at hv
                have hle := verify_zero_entries_le inode.i_block.hdr 60 hv
                refine frameInv_mk _ inode.i_block rfl ?_ rfl rfl
                show ((le16 inode.i_block.hdr.eh_entries : Nat) : Int) ≤
                  ((le16 inode.i_block.hdr.eh_max : Nat) : Int)
                exact Int.ofNat_le.mpr hle
              · rw [List.all_eq_true]
                intro q hq
                rw [List.eq_of_mem_replicate hq]
                decide

/-- C7 (amended): every operation of the engine preserves the frame
invariant (entries at most max_entries, the header entry count of the frame
buffer equal to the runtime entries field, never-allocated buffers zeroed),
except that a get may instead return EXTENT_HEADER_BAD after overwriting a
frame buffer with a child node that failed header verification (the DOWN
handler bumps the level and fills the buffer before verifying, and leaves
both in place on failure); goto inherits the same exception through its
internal gets.  delete additionally assumes a cursor only rests on a frame
with a positive entry count, which every real traversal guarantees. -/
theorem extent_ops_preserve_frame_inv (fs : Filsys) (ino : Nat) (h h1 : ExtentHandle)
    (blk op rflags iflags dflags : Nat) (extent : Ext2fsExtent)
    (hinv : handleInv h = true)
    (hcur : ∀ i, (h.frame h.level).curr = some i → 0 < (h.frame h.level).entries) :
    ((ext2fs_extent_open fs ino).2.1 = some h1 → handleInv h1 = true) ∧
    ((ext2fs_extent_get fs h op).1 = Except.error EXT2_ET_EXTENT_HEADER_BAD ∨
      handleInv (ext2fs_extent_get fs h op).2 = true) ∧
    ((ext2fs_extent_goto fs h blk).1 = EXT2_ET_EXTENT_HEADER_BAD ∨
      handleInv (ext2fs_extent_goto fs h blk).2 = true) ∧
    handleInv (ext2fs_extent_replace fs h rflags extent).2.1 = true ∧
    handleInv (ext2fs_extent_insert fs h iflags extent).2.1 = true ∧
    handleInv (ext2fs_extent_delete fs h dflags).2.1 = true :=
  ⟨fun hop => open_inv fs ino h1 hop,
   get_inv fs h op hinv,
   goto_inv fs h blk hinv,
   replace_inv fs h rflags extent hinv,
   insert_inv fs h iflags extent hinv,
   delete_inv fs h dflags hinv hcur⟩

/-- C7 counterexample: on a writable filesystem whose block 100 holds a
child node with a corrupt header (entry count above capacity), a handle
with the invariant intact that gets DOWN from the root index record ends
with EXTENT_HEADER_BAD and a frame array that violates the invariant: the
level-1 frame buffer holds the rejected child header while the runtime
fields still show the zeroed state. -/
theorem invariant_broken_on_bad_child :
    handleInv hC7 = true ∧
    (ext2fs_extent_get fsC7 hC7 EXT2_EXTENT_DOWN).1 =
      Except.error EXT2_ET_EXTENT_HEADER_BAD ∧
    handleInv (ext2fs_extent_get fsC7 hC7 EXT2_EXTENT_DOWN).2 = false := by
  refine ⟨by decide, ?_, by decide⟩
  decide

/-- Witness for C7 at a concrete state: the one-leaf root handle hC2 on the
writable filesystem okFsBase satisfies both hypotheses, and the theorem
instantiates there. -/
theorem extent_ops_preserve_frame_inv_witness :
    handleInv hC2 = true ∧
    handleInv (ext2fs_extent_replace okFsBase hC2 0 extC2).2.1 = true ∧
    handleInv (ext2fs_extent_insert okFsBase hC2 0 extC2).2.1 = true ∧
    handleInv (ext2fs_extent_delete okFsBase hC2 0).2.1 = true :=
  have hmain := extent_ops_preserve_frame_inv okFsBase 12 hC2 hC2 17 EXT2_EXTENT_ROOT
    0 0 0 extC2 (by decide) (fun i _ => by decide)
  ⟨by decide, hmain.2.2.2.1, hmain.2.2.2.2.1, hmain.2.2.2.2.2⟩

theorem list_getD_cons_succ {α : Type _} (a : α) (t : List α) (j : Nat) (d : α) :
    (a :: t).getD (j + 1) d = t.getD j d := by
  simp [List.getD]

theorem list_drop_eq_cons {α : Type _} (l : List α) (k : Nat) (d : α) (hk : k < l.length) :
    l.drop k = l.getD k d :: l.drop (k + 1) := by
  induction l generalizing k with
  | nil => simp at hk
  | cons a t ih =>
    cases k with
    | zero => simp [List.getD]
    | succ m =>
      simp only [List.length_cons, Nat.succ_lt_succ_iff] at hk
      show t.drop m = (a :: t).getD (m + 1) d :: t.drop (m + 1)
      rw [list_getD_cons_succ]
      exact ih m hk

theorem leafLblk_le_leafEnd (r : NodeRec) : leafLblk r ≤ leafEnd r := Nat.le_add_right _ _

theorem lastLE_mem (b : Nat) (rs : List NodeRec) (L : NodeRec) (h : lastLE b rs = some L) :
    L ∈ rs ∧ leafLblk L ≤ b := by
  induction rs with
  | nil => simp [lastLE] at h
  | cons r t ih =>
    unfold lastLE at h
    cases ht : lastLE b t with
    | some x =>
      rw [ht] at h
      injection h with h
      subst h
      exact ⟨List.mem_cons_of_mem r (ih ht).1, (ih ht).2⟩
    | none =>
      rw [ht] at h
      by_cases hlb : leafLblk r ≤ b
      · rw [if_pos hlb] at h
        injection h with h
        subst h
        exact ⟨List.mem_cons_self r t, hlb⟩
      · rw [if_neg hlb] at h
        exact absurd h (by simp)

theorem lastLE_none_of_gt (b : Nat) (rs : List NodeRec)
    (hall : ∀ r ∈ rs, b < leafLblk r) : lastLE b rs = none := by
  induction rs with
  | nil => rfl
  | cons r t ih =>
    unfold lastLE
    rw [ih (fun x hx => hall x (List.mem_cons_of_mem r hx))]
    rw [if_neg (Nat.not_le_of_lt (hall r (List.mem_cons_self r t)))]

theorem lastLE_append (b : Nat) (xs ys : List NodeRec) :
    lastLE b (xs ++ ys) =
      match lastLE b ys with
      | some y => some y
      | none => lastLE b xs := by
  induction xs with
  | nil =>
    show lastLE b ys = _
    cases hy : lastLE b ys <;> simp [lastLE]
  | cons x t ih =>
    show lastLE b (x :: (t ++ ys)) = _
    rw [show lastLE b (x :: (t ++ ys)) = (match lastLE b (t ++ ys) with
      | some z => some z
      | none => if leafLblk x ≤ b then some x else none) from rfl]
    rw [ih]
    cases hy : lastLE b ys with
    | some y => rfl
    | none => rfl

theorem wfLeafRecs_cons (hi lo : Nat) (r : NodeRec) (rs : List NodeRec)
    (h : wfLeafRecs hi lo (r :: rs) = true) :
    r.isExt = true ∧ lo ≤ leafLblk r ∧ 1 ≤ leafLen r ∧ leafEnd r ≤ hi ∧
      wfLeafRecs hi (leafEnd r) rs = true := by
  unfold wfLeafRecs at h
  simp only [Bool.and_eq_true, decide_eq_true_eq] at h
  exact ⟨h.1.1.1.1, h.1.1.1.2, h.1.1.2, h.1.2, h.2⟩

theorem wfLeafRecs_mk (hi lo : Nat) (r : NodeRec) (rs : List NodeRec)
    (h1 : r.isExt = true) (h2 : lo ≤ leafLblk r) (h3 : 1 ≤ leafLen r)
    (h4 : leafEnd r ≤ hi) (h5 : wfLeafRecs hi (leafEnd r) rs = true) :
    wfLeafRecs hi lo (r :: rs) = true := by
  unfold wfLeafRecs
  simp only [Bool.and_eq_true, decide_eq_true_eq]
  exact ⟨⟨⟨⟨h1, h2⟩, h3⟩, h4⟩, h5⟩

theorem wfLeafRecs_mono_lo (hi lo lo2 : Nat) (rs : List NodeRec)
    (h : wfLeafRecs hi lo rs = true) (hle : lo2 ≤ lo) : wfLeafRecs hi lo2 rs = true := by
  cases rs with
  | nil => rfl
  | cons r t =>
    rcases wfLeafRecs_cons hi lo r t h with ⟨h1, h2, h3, h4, h5⟩
    exact wfLeafRecs_mk hi lo2 r t h1 (by omega) h3 h4 h5

theorem wfLeafRecs_all_lo (hi : Nat) : ∀ (lo : Nat) (rs : List NodeRec),
    wfLeafRecs hi lo rs = true →
    ∀ r ∈ rs, lo ≤ leafLblk r ∧ 1 ≤ leafLen r ∧ leafEnd r ≤ hi := by
  intro lo rs
  induction rs generalizing lo with
  | nil =>
    intro _ r hr
    simp at hr
  | cons x t ih =>
    intro h r hr
    rcases wfLeafRecs_cons hi lo x t h with ⟨h1, h2, h3, h4, h5⟩
    rcases List.mem_cons.mp hr with rfl | hrt
    · exact ⟨h2, h3, h4⟩
    · have hx := ih (leafEnd x) h5 r hrt
      have hle := leafLblk_le_leafEnd x
      exact ⟨by omega, hx.2.1, hx.2.2⟩

theorem wfLeafRecs_append (hi m : Nat) : ∀ (lo : Nat) (xs : List NodeRec)
    (ys : List NodeRec), wfLeafRecs m lo xs = true → wfLeafRecs hi m ys = true →
    lo ≤ m → m ≤ hi → wfLeafRecs hi lo (xs ++ ys) = true := by
  intro lo xs
  induction xs generalizing lo with
  | nil =>
    intro ys _ hy hlom _
    exact wfLeafRecs_mono_lo hi m lo ys hy hlom
  | cons x t ih =>
    intro ys hx hy hlom hmh
    rcases wfLeafRecs_cons m lo x t hx with ⟨h1, h2, h3, h4, h5⟩
    show wfLeafRecs hi lo (x :: (t ++ ys)) = true
    exact wfLeafRecs_mk hi lo x (t ++ ys) h1 h2 h3 (by omega)
      (ih (leafEnd x) ys h5 hy (by omega) hmh)

theorem lastLE_covered (hi b : Nat) : ∀ (lo : Nat) (rs : List NodeRec) (L : NodeRec),
    wfLeafRecs hi lo rs = true → L ∈ rs → leafLblk L ≤ b → b < leafEnd L →
    lastLE b rs = some L := by
  intro lo rs
  induction rs generalizing lo with
  | nil =>
    intro L _ hmem
    simp at hmem
  | cons r t ih =>
    intro L hch hmem h1 h2
    rcases wfLeafRecs_cons hi lo r t hch with ⟨_, hlo, hlen, hhi, hrest⟩
    rcases List.mem_cons.mp hmem with rfl | hmt
    · unfold lastLE
      rw [lastLE_none_of_gt b t (fun x hx => by
        have hx2 := (wfLeafRecs_all_lo hi (leafEnd L) t hrest x hx).1
        omega)]
      rw [if_pos h1]
    · unfold lastLE
      rw [ih (leafEnd r) L hrest hmt h1 h2]

theorem lastLE_hole (hi b : Nat) : ∀ (k : Nat) (lo : Nat) (rs : List NodeRec)
    (Lp Ln : NodeRec), wfLeafRecs hi lo rs = true →
    rs[k]? = some Lp → rs[k + 1]? = some Ln →
    leafEnd Lp ≤ b → b < leafLblk Ln →
    lastLE b rs = some Lp := by
  intro k
  induction k with
  | zero =>
    intro lo rs Lp Ln hch hp hn h1 h2
    cases rs with
    | nil => simp at hp
    | cons r t =>
      simp only [List.getElem?_cons_zero, Option.some.injEq] at hp
      subst hp
      rcases wfLeafRecs_cons hi lo r t hch with ⟨_, hlo, hlen, hhi, hrest⟩
      cases t with
      | nil => simp at hn
      | cons y t2 =>
        simp only [List.getElem?_cons_succ, List.getElem?_cons_zero,
          Option.some.injEq] at hn
        subst hn
        rcases wfLeafRecs_cons hi (leafEnd r) y t2 hrest with ⟨_, _, _, _, hrest2⟩
        unfold lastLE
        rw [lastLE_none_of_gt b (y :: t2) (fun x hx => by
          rcases List.mem_cons.mp hx with rfl | hxt
          · omega
          · have hx2 := (wfLeafRecs_all_lo hi (leafEnd y) t2 hrest2 x hxt).1
            have hx3 := leafLblk_le_leafEnd y
            omega)]
        have he : leafEnd r = leafLblk r + leafLen r := rfl
        rw [if_pos (by omega)]
  | succ m ih =>
    intro lo rs Lp Ln hch hp hn h1 h2
    cases rs with
    | nil => simp at hp
    | cons r t =>
      simp only [List.getElem?_cons_succ] at hp hn
      rcases wfLeafRecs_cons hi lo r t hch with ⟨_, _, _, _, hrest⟩
      unfold lastLE
      rw [ih (leafEnd r) t Lp Ln hrest hp hn h1 h2]

theorem nodeShapeOk_dest (n : ExtNode) (h : nodeShapeOk n = true) :
    le16 n.hdr.eh_entries = n.recs.length ∧ 1 ≤ n.recs.length := by
  unfold nodeShapeOk at h
  simp only [Bool.and_eq_true, decide_eq_true_eq] at h
  exact h

theorem wfNode_zero_dest (fs : Filsys) (lo hi : Nat) (n : ExtNode)
    (h : wfNode fs 0 lo hi n = true) :
    nodeShapeOk n = true ∧ (∃ r rs, n.recs = r :: rs ∧ leafLblk r = lo) ∧
      wfLeafRecs hi lo n.recs = true := by
  simp only [wfNode, Bool.and_eq_true] at h
  refine ⟨h.1.1, ?_, h.2⟩
  rcases h.1 with ⟨_, hmid⟩
  cases hrecs : n.recs with
  | nil =>
    rw [hrecs] at hmid
    simp at hmid
  | cons r rs =>
    rw [hrecs] at hmid
    simp only [decide_eq_true_eq] at hmid
    exact ⟨r, rs, rfl, hmid⟩

theorem wfNode_succ_dest (fs : Filsys) (d lo hi : Nat) (n : ExtNode)
    (h : wfNode fs (d + 1) lo hi n = true) :
    nodeShapeOk n = true ∧ wfIdxRecs fs (wfNode fs d) hi lo n.recs = true := by
  simp only [wfNode, Bool.and_eq_true] at h
  exact h

theorem wfIdxRecs_cons_nil (fs : Filsys) (sub : Nat → Nat → ExtNode → Bool) (hi lo : Nat)
    (r : NodeRec) (h : wfIdxRecs fs sub hi lo [r] = true) :
    ∃ child, r.isIdx = true ∧ r.ei_block = lo ∧ idxChildBlk r < 4294967296 ∧
      fs.readBlk (idxChildBlk r) = Except.ok child ∧
      ext2fs_extent_header_verify child.hdr (fs.blocksize : Int) = 0 ∧
      sub lo hi child = true := by
  unfold wfIdxRecs at h
  cases hrb : fs.readBlk (idxChildBlk r) with
  | error e =>
    rw [hrb] at h
    simp at h
  | ok child =>
    rw [hrb] at h
    simp only [Bool.and_eq_true, decide_eq_true_eq] at h
    exact ⟨child, h.1.1.1, h.1.1.2, h.1.2, rfl, h.2.1.1, h.2.1.2⟩

theorem wfIdxRecs_cons_cons (fs : Filsys) (sub : Nat → Nat → ExtNode → Bool) (hi lo : Nat)
    (r r2 : NodeRec) (rs : List NodeRec)
    (h : wfIdxRecs fs sub hi lo (r :: r2 :: rs) = true) :
    ∃ child, r.isIdx = true ∧ r.ei_block = lo ∧ idxChildBlk r < 4294967296 ∧
      fs.readBlk (idxChildBlk r) = Except.ok child ∧
      ext2fs_extent_header_verify child.hdr (fs.blocksize : Int) = 0 ∧
      sub lo r2.ei_block child = true ∧
      wfIdxRecs fs sub hi r2.ei_block (r2 :: rs) = true := by
  unfold wfIdxRecs at h
  cases hrb : fs.readBlk (idxChildBlk r) with
  | error e =>
    rw [hrb] at h
    simp at h
  | ok child =>
    rw [hrb] at h
    simp only [Bool.and_eq_true, decide_eq_true_eq] at h
    exact ⟨child, h.1.1.1, h.1.1.2, h.1.2, rfl, h.2.1.1, h.2.1.2, h.2.2⟩

theorem nodeLeaves_succ (fs : Filsys) (d : Nat) (n : ExtNode) :
    nodeLeaves fs (d + 1) n =
      (n.recs.map (fun r =>
        match fs.readBlk (idxChildBlk r) with
        | Except.ok c => nodeLeaves fs d c
        | Except.error _ => [])).flatten := rfl

theorem nodeLeaves_wf (fs : Filsys) : ∀ (d lo hi : Nat) (n : ExtNode),
    wfNode fs d lo hi n = true →
    wfLeafRecs hi lo (nodeLeaves fs d n) = true ∧
    (∃ r rs, nodeLeaves fs d n = r :: rs ∧ leafLblk r = lo) ∧
    lo < hi := by
  intro d
  induction d with
  | zero =>
    intro lo hi n h
    rcases wfNode_zero_dest fs lo hi n h with ⟨hs, ⟨r, rs, hrecs, hlo⟩, hch⟩
    have hnl : nodeLeaves fs 0 n = n.recs := rfl
    refine ⟨by rw [hnl]; exact hch, ⟨r, rs, by rw [hnl]; exact hrecs, hlo⟩, ?_⟩
    rw [hrecs] at hch
    rcases wfLeafRecs_cons hi lo r rs hch with ⟨_, h2, h3, h4, _⟩
    have he : leafEnd r = leafLblk r + leafLen r := rfl
    omega
  | succ d ih =>
    intro lo hi n h
    rcases wfNode_succ_dest fs d lo hi n h with ⟨hs, hidx⟩
    rcases nodeShapeOk_dest n hs with ⟨hlen, hne⟩
    have aux : ∀ (rs : List NodeRec) (lo2 : Nat),
        wfIdxRecs fs (wfNode fs d) hi lo2 rs = true → rs ≠ [] →
        wfLeafRecs hi lo2 ((rs.map (fun r =>
          match fs.readBlk (idxChildBlk r) with
          | Except.ok c => nodeLeaves fs d c
          | Except.error _ => [])).flatten) = true ∧
        (∃ x xs, (rs.map (fun r =>
          match fs.readBlk (idxChildBlk r) with
          | Except.ok c => nodeLeaves fs d c
          | Except.error _ => [])).flatten = x :: xs ∧ leafLblk x = lo2) ∧
        lo2 < hi := by
      intro rs
      induction rs with
      | nil =>
        intro lo2 _ hne2
        exact absurd rfl hne2
      | cons r t iht =>
        intro lo2 hidx2 _
        cases t with
        | nil =>
          rcases wfIdxRecs_cons_nil fs (wfNode fs d) hi lo2 r hidx2 with
            ⟨child, hIdx, hBlk, _, hRead, hVer, hSub⟩
          rcases ih lo2 hi child hSub with ⟨hchC, ⟨x, xs, hCL, hxlo⟩, hlohiC⟩
          simp only [List.map_cons, List.map_nil, List.flatten_cons, List.flatten_nil,
            List.append_nil, hRead]
          exact ⟨hchC, ⟨x, xs, hCL, hxlo⟩, hlohiC⟩
        | cons r2 t2 =>
          rcases wfIdxRecs_cons_cons fs (wfNode fs d) hi lo2 r r2 t2 hidx2 with
            ⟨child, hIdx, hBlk, _, hRead, hVer, hSub, hRest⟩
          rcases ih lo2 r2.ei_block child hSub with ⟨hchC, ⟨x, xs, hCL, hxlo⟩, hlohiC⟩
          rcases iht r2.ei_block hRest (by simp) with ⟨hchT, ⟨y, ys, hTL, hylo⟩, hlohiT⟩
          simp only [List.map_cons, List.flatten_cons, hRead]
          refine ⟨?_, ?_, by omega⟩
          · exact wfLeafRecs_append hi r2.ei_block lo2 (nodeLeaves fs d child) _
              hchC hchT (by omega) (by omega)
          · refine ⟨x, xs ++ ((r2 :: t2).map (fun r =>
              match fs.readBlk (idxChildBlk r) with
              | Except.ok c => nodeLeaves fs d c
              | Except.error _ => [])).flatten, ?_, hxlo⟩
            rw [hCL]
            rfl
    have hne2 : n.recs ≠ [] := by
      cases hrecs : n.recs with
      | nil =>
        rw [hrecs] at hne
        simp at hne
      | cons a b => simp
    rcases aux n.recs lo hidx hne2 with ⟨hA, hB, hC⟩
    rw [nodeLeaves_succ]
    exact ⟨hA, hB, hC⟩

theorem select_passthrough_down (l m : Nat) (p : ExtentPath) :
    extentGetSelect EXT2_EXTENT_DOWN l m p = Except.ok (EXT2_EXTENT_DOWN, p) := by
  unfold extentGetSelect
  norm_num [EXT2_EXTENT_NEXT, EXT2_EXTENT_NEXT_LEAF, EXT2_EXTENT_PREV,
    EXT2_EXTENT_PREV_LEAF, EXT2_EXTENT_LAST_LEAF, EXT2_EXTENT_DOWN]

theorem get_of_switch (fs : Filsys) (H : ExtentHandle) (frames : List ExtentPath)
    (hp : H.path = some frames) (v : Nat)
    (hmask : v &&& EXT2_EXTENT_MOVE_MASK = v)
    (hsel : extentGetSelect v H.level H.max_depth (H.frame H.level) =
      Except.ok (v, H.frame H.level))
    (hnr1 : ¬(v = EXT2_EXTENT_NEXT_LEAF ∨ v = EXT2_EXTENT_PREV_LEAF))
    (hnr2 : v ≠ EXT2_EXTENT_LAST_LEAF)
    (res : Except Nat (Option Int)) (h2 : ExtentHandle)
    (hsw : extentGetSwitch fs v v H = (res, h2)) :
    ext2fs_extent_get fs H v =
      (match res with
       | Except.error e => (Except.error e, h2)
       | Except.ok none => (Except.error EXT2_ET_NO_CURRENT_NODE, h2)
       | Except.ok (some ix) => (Except.ok (decodeCurrentExtent h2 ix), h2)) := by
  have hone : extentGetOnce fs v H =
      (match res with
       | Except.error e => (Except.error e, h2)
       | Except.ok none => (Except.error EXT2_ET_NO_CURRENT_NODE, h2)
       | Except.ok (some ix) => (Except.ok (decodeCurrentExtent h2 ix), h2)) := by
    unfold extentGetOnce
    rw [hsel]
    dsimp only
    rw [setFrame_frame_self H H.level frames hp]
    cases res with
    | error e =>
      conv_lhs => rw [hsw]
    | ok oix =>
      cases oix <;> (conv_lhs => rw [hsw])
  unfold ext2fs_extent_get
  rw [hp]
  dsimp only
  rw [hmask]
  rw [show 2 * H.max_depth + 4 = (2 * H.max_depth + 3) + 1 from rfl]
  show (match extentGetOnce fs v H with
    | (Except.error e, h1) => (Except.error e, h1)
    | (Except.ok ext, h1) =>
      if (v = EXT2_EXTENT_NEXT_LEAF ∨ v = EXT2_EXTENT_PREV_LEAF) ∧
          h1.level ≠ h1.max_depth then extentGetLoop fs v (2 * H.max_depth + 3) h1
      else if v = EXT2_EXTENT_LAST_LEAF ∧
          (h1.level ≠ h1.max_depth ∨ (h1.frame h1.level).left ≠ 0) then
        extentGetLoop fs v (2 * H.max_depth + 3) h1
      else (Except.ok ext, h1)) = _
  rw [hone]
  cases res with
  | error e => rfl
  | ok oix =>
    cases oix with
    | none => rfl
    | some ix =>
      dsimp only
      rw [if_neg (fun hc => hnr1 hc.1), if_neg (fun hc => hnr2 hc.1)]

theorem switch_nextsib (fs : Filsys) (H : ExtentHandle) :
    extentGetSwitch fs EXT2_EXTENT_NEXT_SIB EXT2_EXTENT_NEXT_SIB H =
      extentNextSibCase H := rfl

theorem switch_prevsib (fs : Filsys) (H : ExtentHandle) :
    extentGetSwitch fs EXT2_EXTENT_PREV_SIB EXT2_EXTENT_PREV_SIB H =
      extentPrevSibCase H := rfl

theorem switch_down (fs : Filsys) (H : ExtentHandle) :
    extentGetSwitch fs EXT2_EXTENT_DOWN EXT2_EXTENT_DOWN H =
      extentDownCase fs EXT2_EXTENT_DOWN H := rfl

theorem switch_root (fs : Filsys) (H : ExtentHandle) :
    extentGetSwitch fs EXT2_EXTENT_ROOT EXT2_EXTENT_ROOT H =
      extentNextSibCase ({ H with level := 0 }.setFrame 0
        { H.frame 0 with left := (H.frame 0).entries, curr := none }) := rfl

theorem nextSibCase_ok (H : ExtentHandle) (k : Int)
    (hc : (H.frame H.level).curr = some k) (hl : 0 < (H.frame H.level).left) :
    extentNextSibCase H =
      (Except.ok (some (k + 1)),
       H.setFrame H.level { H.frame H.level with
         left := (H.frame H.level).left - 1, curr := some (k + 1), visit_num := 0 }) := by
  unfold extentNextSibCase
  rw [if_neg (by omega : ¬ (H.frame H.level).left ≤ 0), hc]

theorem nextSibCase_err (H : ExtentHandle) (hl : (H.frame H.level).left ≤ 0) :
    extentNextSibCase H = (Except.error EXT2_ET_EXTENT_NO_NEXT, H) := by
  unfold extentNextSibCase
  rw [if_pos hl]

theorem prevSibCase_ok (H : ExtentHandle) (k : Int)
    (hc : (H.frame H.level).curr = some k)
    (hl : ¬ (H.frame H.level).left + 1 ≥ (H.frame H.level).entries) :
    extentPrevSibCase H =
      (Except.ok (some (k - 1)),
       H.setFrame H.level { H.frame H.level with
         curr := some (k - 1), left := (H.frame H.level).left + 1,
         visit_num := if H.level < H.max_depth then 1
           else (H.frame H.level).visit_num }) := by
  unfold extentPrevSibCase
  dsimp only
  rw [hc]
  dsimp only
  rw [if_neg hl]

theorem setFrame_level_frame (H : ExtentHandle) (frames : List ExtentPath)
    (hp : H.path = some frames) (l : Nat) (hl : l < frames.length) (A : ExtentPath) :
    ({ H.setFrame l A with level := l }).frame l = A := by
  unfold ExtentHandle.frame ExtentHandle.setFrame
  rw [hp]
  show (frames.set l A).getD l defaultPath = A
  exact list_getD_set_self frames l A defaultPath hl

theorem downCase_ok (fs : Filsys) (H : ExtentHandle) (frames : List ExtentPath)
    (n child : ExtNode) (k : Int)
    (hp : H.path = some frames)
    (hlen1 : H.level + 1 < frames.length)
    (hbuf : (H.frame H.level).buf = some n)
    (hc : (H.frame H.level).curr = some k)
    (hlt : H.level < H.max_depth)
    (himg : ¬ (fs.flags &&& EXT2_FLAG_IMAGE_FILE ≠ 0 ∧ fs.image_io_differs = true))
    (hread : fs.readBlk (le32 ((n.recAt k).ei_leaf + (n.recAt k).ei_leaf_hi * 4294967296)) =
      Except.ok child)
    (hver : ext2fs_extent_header_verify child.hdr (fs.blocksize : Int) = 0) :
    extentDownCase fs EXT2_EXTENT_DOWN H =
      (Except.ok (some 0),
       { H with
         level := H.level + 1,
         path := some (frames.set (H.level + 1)
           { buf := some child,
             entries := (le16 child.hdr.eh_entries : Int),
             max_entries := (le16 child.hdr.eh_max : Int),
             left := (le16 child.hdr.eh_entries : Int) - 1,
             visit_num := 0,
             end_blk := if (H.frame H.level).left > 0 then (n.recAt (k + 1)).ei_block
               else (H.frame H.level).end_blk,
             curr := some 0 }) }) := by
  unfold extentDownCase
  dsimp only
  rw [hc]
  dsimp only
  rw [if_neg (by omega : ¬ H.level ≥ H.max_depth), hbuf]
  dsimp only [Option.getD]
  rw [if_neg himg, hread]
  dsimp only
  rw [if_neg (fun hh => hh hver)]
  rw [if_pos (rfl : EXT2_EXTENT_DOWN = EXT2_EXTENT_DOWN)]
  rw [setFrame_level_frame H frames hp (H.level + 1) hlen1
    { H.frame (H.level + 1) with buf := some child }]
  unfold ExtentHandle.setFrame
  rw [hp]
  dsimp only [Option.getD]
  rw [List.set_set]

theorem rootCase_ok (H : ExtentHandle) (frames : List ExtentPath)
    (hp : H.path = some frames) (h0 : 0 < frames.length)
    (hent : 0 < (H.frame 0).entries) :
    extentNextSibCase ({ H with level := 0 }.setFrame 0
      { H.frame 0 with left := (H.frame 0).entries, curr := none }) =
      (Except.ok (some 0),
       { H with
         level := 0,
         path := some (frames.set 0
           { H.frame 0 with
             left := (H.frame 0).entries - 1,
             curr := some 0,
             visit_num := 0 }) }) := by
  have hE : H.frame 0 = frames.getD 0 defaultPath := by
    unfold ExtentHandle.frame
    rw [hp]
    rfl
  unfold extentNextSibCase
  dsimp only [ExtentHandle.setFrame, ExtentHandle.frame]
  rw [hp]
  dsimp only [Option.getD]
  rw [list_getD_set_self frames 0 _ defaultPath h0]
  rw [if_neg (by rw [hE] at hent; omega :
    ¬ (frames.getD 0 defaultPath).entries ≤ 0)]
  dsimp only [Option.getD]
  rw [List.set_set]

theorem get_root_ok (fs : Filsys) (H : ExtentHandle) (frames : List ExtentPath)
    (hp : H.path = some frames) (h0 : 0 < frames.length)
    (hent : 0 < (H.frame 0).entries) :
    ext2fs_extent_get fs H EXT2_EXTENT_ROOT =
      (Except.ok (decodeCurrentExtent
        { H with
          level := 0,
          path := some (frames.set 0
            { H.frame 0 with
              left := (H.frame 0).entries - 1,
              curr := some 0,
              visit_num := 0 }) } 0),
       { H with
         level := 0,
         path := some (frames.set 0
           { H.frame 0 with
             left := (H.frame 0).entries - 1,
             curr := some 0,
             visit_num := 0 }) }) := by
  have hsw := (switch_root fs H).trans (rootCase_ok H frames hp h0 hent)
  exact get_of_switch fs H frames hp EXT2_EXTENT_ROOT (by decide)
    (select_passthrough _ (Or.inr (Or.inr rfl)) _ _ _) (by decide) (by decide) _ _ hsw

theorem get_nextsib_ok (fs : Filsys) (H : ExtentHandle) (frames : List ExtentPath)
    (hp : H.path = some frames) (k : Int)
    (hc : (H.frame H.level).curr = some k) (hl : 0 < (H.frame H.level).left) :
    ext2fs_extent_get fs H EXT2_EXTENT_NEXT_SIB =
      (Except.ok (decodeCurrentExtent (H.setFrame H.level { H.frame H.level with
          left := (H.frame H.level).left - 1
          curr := some (k + 1)
          visit_num := 0 }) (k + 1)),
       H.setFrame H.level { H.frame H.level with
         left := (H.frame H.level).left - 1
         curr := some (k + 1)
         visit_num := 0 }) := by
  have hsw := (switch_nextsib fs H).trans (nextSibCase_ok H k hc hl)
  exact get_of_switch fs H frames hp EXT2_EXTENT_NEXT_SIB (by decide)
    (select_passthrough _ (Or.inl rfl) _ _ _) (by decide) (by decide) _ _ hsw

theorem get_nextsib_err (fs : Filsys) (H : ExtentHandle) (frames : List ExtentPath)
    (hp : H.path = some frames) (hl : (H.frame H.level).left ≤ 0) :
    ext2fs_extent_get fs H EXT2_EXTENT_NEXT_SIB =
      (Except.error EXT2_ET_EXTENT_NO_NEXT, H) := by
  have hsw := (switch_nextsib fs H).trans (nextSibCase_err H hl)
  exact get_of_switch fs H frames hp EXT2_EXTENT_NEXT_SIB (by decide)
    (select_passthrough _ (Or.inl rfl) _ _ _) (by decide) (by decide) _ _ hsw

theorem get_prevsib_ok (fs : Filsys) (H : ExtentHandle) (frames : List ExtentPath)
    (hp : H.path = some frames) (k : Int)
    (hc : (H.frame H.level).curr = some k)
    (hl : ¬ (H.frame H.level).left + 1 ≥ (H.frame H.level).entries) :
    ext2fs_extent_get fs H EXT2_EXTENT_PREV_SIB =
      (Except.ok (decodeCurrentExtent (H.setFrame H.level { H.frame H.level with
          curr := some (k - 1)
          left := (H.frame H.level).left + 1
          visit_num := if H.level < H.max_depth then 1
            else (H.frame H.level).visit_num }) (k - 1)),
       H.setFrame H.level { H.frame H.level with
         curr := some (k - 1)
         left := (H.frame H.level).left + 1
         visit_num := if H.level < H.max_depth then 1
           else (H.frame H.level).visit_num }) := by
  have hsw := (switch_prevsib fs H).trans (prevSibCase_ok H k hc hl)
  exact get_of_switch fs H frames hp EXT2_EXTENT_PREV_SIB (by decide)
    (select_passthrough _ (Or.inr (Or.inl rfl)) _ _ _) (by decide) (by decide) _ _ hsw

theorem get_down_full_ok (fs : Filsys) (H : ExtentHandle) (frames : List ExtentPath)
    (n child : ExtNode) (k : Int)
    (hp : H.path = some frames)
    (hlen1 : H.level + 1 < frames.length)
    (hbuf : (H.frame H.level).buf = some n)
    (hc : (H.frame H.level).curr = some k)
    (hlt : H.level < H.max_depth)
    (himg : ¬ (fs.flags &&& EXT2_FLAG_IMAGE_FILE ≠ 0 ∧ fs.image_io_differs = true))
    (hread : fs.readBlk (le32 ((n.recAt k).ei_leaf + (n.recAt k).ei_leaf_hi * 4294967296)) =
      Except.ok child)
    (hver : ext2fs_extent_header_verify child.hdr (fs.blocksize : Int) = 0) :
    ext2fs_extent_get fs H EXT2_EXTENT_DOWN =
      (Except.ok (decodeCurrentExtent
        { H with
          level := H.level + 1,
          path := some (frames.set (H.level + 1)
            { buf := some child,
              entries := (le16 child.hdr.eh_entries : Int),
              max_entries := (le16 child.hdr.eh_max : Int),
              left := (le16 child.hdr.eh_entries : Int) - 1,
              visit_num := 0,
              end_blk := if (H.frame H.level).left > 0 then (n.recAt (k + 1)).ei_block
                else (H.frame H.level).end_blk,
              curr := some 0 }) } 0),
       { H with
         level := H.level + 1,
         path := some (frames.set (H.level + 1)
           { buf := some child,
             entries := (le16 child.hdr.eh_entries : Int),
             max_entries := (le16 child.hdr.eh_max : Int),
             left := (le16 child.hdr.eh_entries : Int) - 1,
             visit_num := 0,
             end_blk := if (H.frame H.level).left > 0 then (n.recAt (k + 1)).ei_block
               else (H.frame H.level).end_blk,
             curr := some 0 }) }) := by
  have hsw := (switch_down fs H).trans
    (downCase_ok fs H frames n child k hp hlen1 hbuf hc hlt himg hread hver)
  exact get_of_switch fs H frames hp EXT2_EXTENT_DOWN (by decide)
    (select_passthrough_down _ _ _) (by decide) (by decide) _ _ hsw

theorem gotoLoop_false_unfold (fs : Filsys) (ll blk f : Nat) (ext : Ext2fsExtent)
    (H : ExtentHandle) :
    extentGotoLoop fs ll blk (f + 1) false ext H =
      if (H.level : Int) - (ll : Int) = (H.max_depth : Int) then
        if blk ≥ ext.e_lblk ∧ blk < ext.e_lblk + ext.e_len then (0, H)
        else if blk < ext.e_lblk then
          (EXT2_ET_EXTENT_NOT_FOUND, (ext2fs_extent_get fs H EXT2_EXTENT_PREV_SIB).2)
        else
          match ext2fs_extent_get fs H EXT2_EXTENT_NEXT_SIB with
          | (Except.error e, h1) =>
            if e = EXT2_ET_EXTENT_NO_NEXT then (EXT2_ET_EXTENT_NOT_FOUND, h1) else (e, h1)
          | (Except.ok ext1, h1) => extentGotoLoop fs ll blk f false ext1 h1
      else
        match ext2fs_extent_get fs H EXT2_EXTENT_NEXT_SIB with
        | (Except.error e, h1) =>
          if e = EXT2_ET_EXTENT_NO_NEXT then extentGotoLoop fs ll blk f true ext h1
          else (e, h1)
        | (Except.ok ext1, h1) =>
          if blk = ext1.e_lblk then extentGotoLoop fs ll blk f true ext1 h1
          else if blk > ext1.e_lblk then extentGotoLoop fs ll blk f false ext1 h1
          else
            match ext2fs_extent_get fs h1 EXT2_EXTENT_PREV_SIB with
            | (Except.error e, h2) => (e, h2)
            | (Except.ok ext2, h2) => extentGotoLoop fs ll blk f true ext2 h2 := rfl

theorem gotoLoop_true_unfold (fs : Filsys) (ll blk f : Nat) (ext : Ext2fsExtent)
    (H : ExtentHandle) :
    extentGotoLoop fs ll blk (f + 1) true ext H =
      match ext2fs_extent_get fs H EXT2_EXTENT_DOWN with
      | (Except.error e, h1) => (e, h1)
      | (Except.ok ext1, h1) => extentGotoLoop fs ll blk f false ext1 h1 := rfl

theorem decodeLeafExtent_lblk (r : NodeRec) : (decodeLeafExtent r).e_lblk = leafLblk r := rfl

theorem decodeLeafExtent_len (r : NodeRec) : (decodeLeafExtent r).e_len = leafLen r := rfl

theorem decode_leaf_plain (H : ExtentHandle) (n : ExtNode) (i : Int)
    (hbuf : (H.frame H.level).buf = some n) (hlev : H.level = H.max_depth)
    (hv : (H.frame H.level).visit_num = 0) :
    decodeCurrentExtent H i = decodeLeafExtent (n.recAt i) := by
  rw [decode_leaf_eq H n i hbuf hlev]
  rw [if_neg (fun hh => hh hv)]

theorem decode_interior_lblk (H : ExtentHandle) (n : ExtNode) (ix : Int)
    (hbuf : (H.frame H.level).buf = some n) (hlev : H.level ≠ H.max_depth) :
    (decodeCurrentExtent H ix).e_lblk = (n.recAt ix).ei_block := by
  simp only [decodeCurrentExtent, hbuf, Option.getD_some, if_neg hlev]
  split_ifs <;> rfl

theorem recAt_natCast (n : ExtNode) (k : Nat) : n.recAt (k : Int) = n.recs.getD k default := by
  unfold ExtNode.recAt
  rw [if_pos (by omega : (0 : Int) ≤ (k : Int))]
  norm_num

theorem intCast_succ (k : Nat) : ((k : Int) + 1) = ((k + 1 : Nat) : Int) := by
  push_cast
  ring

theorem frame_after_setFrame (H : ExtentHandle) (frames : List ExtentPath)
    (hp : H.path = some frames) (hl : H.level < frames.length) (P : ExtentPath) :
    (H.setFrame H.level P).frame (H.setFrame H.level P).level = P := by
  have hlv : (H.setFrame H.level P).level = H.level := rfl
  rw [hlv, frame_setFrame_eq H frames hp H.level hl P]

theorem getD_succ_of_drop (N : List NodeRec) (k : Nat) (r1 : NodeRec) (rest : List NodeRec)
    (hd : N.drop (k + 1) = r1 :: rest) (hk1 : k + 1 < N.length) :
    N.getD (k + 1) default = r1 := by
  have h2 := list_drop_eq_cons N (k + 1) default hk1
  rw [hd] at h2
  injection h2 with ha hb
  exact ha.symm

theorem length_lt_of_drop_cons (N : List NodeRec) (k : Nat) (r1 : NodeRec)
    (rest : List NodeRec) (hd : N.drop (k + 1) = r1 :: rest) : k + 1 < N.length := by
  have h2 : (N.drop (k + 1)).length = N.length - (k + 1) := List.length_drop _ _
  rw [hd] at h2
  simp only [List.length_cons] at h2
  omega


theorem lastLE_cons (b : Nat) (r : NodeRec) (rs : List NodeRec) :
    lastLE b (r :: rs) =
      match lastLE b rs with
      | some x => some x
      | none => if leafLblk r ≤ b then some r else none := rfl

theorem leaf_walk (fs : Filsys) (blk hi : Nat) :
    ∀ (fuel : Nat) (H : ExtentHandle) (frames : List ExtentPath) (N : ExtNode)
      (k : Nat) (ext : Ext2fsExtent) (L : NodeRec),
    H.path = some frames →
    H.level < frames.length →
    H.level = H.max_depth →
    (H.frame H.level).buf = some N →
    (H.frame H.level).curr = some (k : Int) →
    (H.frame H.level).entries = (N.recs.length : Int) →
    (H.frame H.level).left = (N.recs.length : Int) - 1 - (k : Int) →
    (H.frame H.level).visit_num = 0 →
    k < N.recs.length →
    ext.e_lblk = leafLblk (N.recs.getD k default) →
    ext.e_len = leafLen (N.recs.getD k default) →
    wfLeafRecs hi (leafLblk (N.recs.getD k default)) (N.recs.drop k) = true →
    leafLblk (N.recs.getD k default) ≤ blk →
    lastLE blk (N.recs.drop k) = some L →
    N.recs.length - k ≤ fuel →
    ∃ (H1 : ExtentHandle) (frames1 : List ExtentPath) (m : Nat),
      extentGotoLoop fs 0 blk fuel false ext H =
        ((if blk < leafEnd L then 0 else EXT2_ET_EXTENT_NOT_FOUND), H1) ∧
      H1.path = some frames1 ∧
      H1.level = H1.max_depth ∧
      (H1.frame H1.level).buf = some N ∧
      (H1.frame H1.level).curr = some (m : Int) ∧
      (H1.frame H1.level).visit_num = 0 ∧
      N.recs.getD m default = L := by
  intro fuel
  induction fuel with
  | zero =>
    intro H frames N k ext L hp hlen hld hbuf hc hent hleft hv hk hx1 hx2 hch hkb hlast hfuel
    omega
  | succ f ih =>
    intro H frames N k ext L hp hlen hld hbuf hc hent hleft hv hk hx1 hx2 hch hkb hlast hfuel
    have hdrop : N.recs.drop k = N.recs.getD k default :: N.recs.drop (k + 1) :=
      list_drop_eq_cons _ k default hk
    rw [hdrop] at hch hlast
    rcases wfLeafRecs_cons _ _ _ _ hch with ⟨hisext, hlo, hlen1, hhi1, hrest⟩
    have he : leafEnd (N.recs.getD k default) =
        leafLblk (N.recs.getD k default) + leafLen (N.recs.getD k default) := rfl
    have hleaf : ((H.level : Int) - ((0 : Nat) : Int) = (H.max_depth : Int)) := by
      rw [hld]
      simp
    rw [gotoLoop_false_unfold, if_pos hleaf]
    by_cases hcov : blk ≥ ext.e_lblk ∧ blk < ext.e_lblk + ext.e_len
    · have hnone : lastLE blk (N.recs.drop (k + 1)) = none := by
        refine lastLE_none_of_gt blk _ (fun r hr => ?_)
        have hx := (wfLeafRecs_all_lo hi _ _ hrest r hr).1
        omega
      have hLk : N.recs.getD k default = L := by
        rw [lastLE_cons, hnone, if_pos hkb] at hlast
        injection hlast
      rw [if_pos hcov]
      refine ⟨H, frames, k, ?_, hp, hld, hbuf, hc, hv, hLk⟩
      rw [if_pos (by rw [← hLk]; omega : blk < leafEnd L)]
    · have hge : ¬ blk < ext.e_lblk := by omega
      have hbe : leafEnd (N.recs.getD k default) ≤ blk := by omega
      rw [if_neg hcov, if_neg hge]
      cases hdropB : N.recs.drop (k + 1) with
      | nil =>
        have hkl : N.recs.length ≤ k + 1 := by
          have h2 : (N.recs.drop (k + 1)).length = N.recs.length - (k + 1) :=
            List.length_drop _ _
          rw [hdropB] at h2
          simp at h2
          omega
        have hl0 : (H.frame H.level).left ≤ 0 := by
          rw [hleft]
          omega
        rw [get_nextsib_err fs H frames hp hl0]
        have hLk : N.recs.getD k default = L := by
          rw [hdropB, lastLE_cons] at hlast
          rw [show lastLE blk ([] : List NodeRec) = none from rfl] at hlast
          rw [if_pos hkb] at hlast
          injection hlast
        refine ⟨H, frames, k, ?_, hp, hld, hbuf, hc, hv, hLk⟩
        rw [if_neg (by rw [← hLk]; omega : ¬ blk < leafEnd L)]
        rfl
      | cons r1 rest2 =>
        have hk1 : k + 1 < N.recs.length := length_lt_of_drop_cons _ k r1 rest2 hdropB
        have hr1 : N.recs.getD (k + 1) default = r1 :=
          getD_succ_of_drop _ k r1 rest2 hdropB hk1
        have hlpos : 0 < (H.frame H.level).left := by
          rw [hleft]
          omega
        rw [get_nextsib_ok fs H frames hp (k : Int) hc hlpos]
        set P1 : ExtentPath := { H.frame H.level with
          left := (H.frame H.level).left - 1
          curr := some ((k : Int) + 1)
          visit_num := 0 } with hP1
        set H1 : ExtentHandle := H.setFrame H.level P1 with hH1
        dsimp only
        have hp1 : H1.path = some (frames.set H.level P1) :=
          path_setFrame H frames hp H.level P1
        have hlv1 : H1.level = H.level := rfl
        have hmd1 : H1.max_depth = H.max_depth := rfl
        have hfr1 : H1.frame H1.level = P1 := frame_after_setFrame H frames hp hlen P1
        have hlen1b : H1.level < (frames.set H.level P1).length := by
          rw [hlv1, List.length_set]
          exact hlen
        have hld1 : H1.level = H1.max_depth := by
          rw [hlv1, hmd1]
          exact hld
        have hbuf1 : (H1.frame H1.level).buf = some N := by
          rw [hfr1]
          exact hbuf
        have hc1 : (H1.frame H1.level).curr = some ((k + 1 : Nat) : Int) := by
          rw [hfr1]
          show some ((k : Int) + 1) = some ((k + 1 : Nat) : Int)
          rw [intCast_succ]
        have hent1 : (H1.frame H1.level).entries = (N.recs.length : Int) := by
          rw [hfr1]
          exact hent
        have hleft1 : (H1.frame H1.level).left =
            (N.recs.length : Int) - 1 - ((k + 1 : Nat) : Int) := by
          rw [hfr1]
          show (H.frame H.level).left - 1 = _
          rw [hleft]
          push_cast
          ring
        have hv1 : (H1.frame H1.level).visit_num = 0 := by
          rw [hfr1]
        have hdec1 : decodeCurrentExtent H1 ((k : Int) + 1) =
            decodeLeafExtent (N.recs.getD (k + 1) default) := by
          rw [decode_leaf_plain H1 N ((k : Int) + 1) hbuf1 hld1 hv1]
          rw [intCast_succ, recAt_natCast]
        rw [hdec1]
        have hch1 : wfLeafRecs hi (leafLblk (N.recs.getD (k + 1) default))
            (N.recs.drop (k + 1)) = true := by
          rw [hdropB, hr1]
          rw [hdropB] at hrest
          rcases wfLeafRecs_cons _ _ _ _ hrest with ⟨a1, a2, a3, a4, a5⟩
          exact wfLeafRecs_mk _ _ _ _ a1 (le_refl _) a3 a4 a5
        by_cases hLE : leafLblk (N.recs.getD (k + 1) default) ≤ blk
        · have hlast1 : lastLE blk (N.recs.drop (k + 1)) = some L := by
            cases hrec : lastLE blk (N.recs.drop (k + 1)) with
            | some x =>
              simp only [lastLE_cons, hrec] at hlast
              exact hlast
            | none =>
              exfalso
              rw [hdropB, lastLE_cons] at hrec
              cases hrec2 : lastLE blk rest2 with
              | some y =>
                rw [hrec2] at hrec
                exact absurd hrec (by simp)
              | none =>
                rw [hrec2] at hrec
                rw [hr1] at hLE
                rw [if_pos hLE] at hrec
                exact absurd hrec (by simp)
          exact ih H1 (frames.set H.level P1) N (k + 1) _ L hp1 hlen1b hld1 hbuf1 hc1
            hent1 hleft1 hv1 hk1 (decodeLeafExtent_lblk _) (decodeLeafExtent_len _)
            hch1 hLE hlast1 (by omega)
        · push_neg at hLE
          obtain ⟨f2, rfl⟩ : ∃ f2, f = f2 + 1 := ⟨f - 1, by omega⟩
          rw [gotoLoop_false_unfold]
          rw [if_pos (by rw [hld1]; simp :
            ((H1.level : Int) - ((0 : Nat) : Int) = (H1.max_depth : Int)))]
          rw [if_neg (fun hcc => absurd hcc.1 (by rw [decodeLeafExtent_lblk]; omega))]
          rw [if_pos (by rw [decodeLeafExtent_lblk]; omega :
            blk < (decodeLeafExtent (N.recs.getD (k + 1) default)).e_lblk)]
          have hc1b : (H1.frame H1.level).curr = some ((k : Int) + 1) := by
            rw [hfr1]
          have hps : ¬ (H1.frame H1.level).left + 1 ≥ (H1.frame H1.level).entries := by
            rw [hleft1, hent1]
            push_cast
            omega
          rw [get_prevsib_ok fs H1 (frames.set H.level P1) hp1 ((k : Int) + 1) hc1b hps]
          set P2 : ExtentPath := { H1.frame H1.level with
            curr := some ((k : Int) + 1 - 1)
            left := (H1.frame H1.level).left + 1
            visit_num := if H1.level < H1.max_depth then 1
              else (H1.frame H1.level).visit_num } with hP2
          set H2 : ExtentHandle := H1.setFrame H1.level P2 with hH2
          dsimp only
          have hp2 : H2.path = some ((frames.set H.level P1).set H1.level P2) :=
            path_setFrame H1 _ hp1 H1.level P2
          have hfr2 : H2.frame H2.level = P2 :=
            frame_after_setFrame H1 (frames.set H.level P1) hp1 hlen1b P2
          have hLk : N.recs.getD k default = L := by
            rw [hdropB] at hlast hrest
            rcases wfLeafRecs_cons _ _ _ _ hrest with ⟨b1, b2, b3, b4, b5⟩
            rw [lastLE_cons] at hlast
            rw [lastLE_none_of_gt blk (r1 :: rest2) (fun r hr => by
              rcases List.mem_cons.mp hr with rfl | hrt
              · rw [hr1] at hLE
                omega
              · have hz := (wfLeafRecs_all_lo hi _ _ b5 r hrt).1
                have hz2 := leafLblk_le_leafEnd r1
                rw [hr1] at hLE
                omega)] at hlast
            rw [if_pos hkb] at hlast
            injection hlast
          refine ⟨H2, (frames.set H.level P1).set H1.level P2, k, ?_, hp2, ?_, ?_, ?_, ?_, hLk⟩
          · rw [if_neg (by rw [← hLk]; omega : ¬ blk < leafEnd L)]
          · exact hld1
          · rw [hfr2]
            show (H1.frame H1.level).buf = some N
            exact hbuf1
          · rw [hfr2]
            show some ((k : Int) + 1 - 1) = some ((k : Nat) : Int)
            congr 1
            ring
          · rw [hfr2]
            show (if H1.level < H1.max_depth then 1
              else (H1.frame H1.level).visit_num) = 0
            rw [if_neg (by rw [hld1]; exact lt_irrefl _), hv1]

theorem shape_len_le (n : ExtNode) (hs : nodeShapeOk n = true) : n.recs.length ≤ 65535 := by
  rcases nodeShapeOk_dest n hs with ⟨h1, _⟩
  have := le16_lt n.hdr.eh_entries
  omega

theorem wfNode_shape (fs : Filsys) (e lo hi : Nat) (n : ExtNode)
    (h : wfNode fs e lo hi n = true) : nodeShapeOk n = true := by
  cases e with
  | zero => exact (wfNode_zero_dest fs lo hi n h).1
  | succ d => exact (wfNode_succ_dest fs d lo hi n h).1

theorem wfIdxRecs_head (fs : Filsys) (sub : Nat → Nat → ExtNode → Bool) (hi lo : Nat)
    (r : NodeRec) (rs : List NodeRec)
    (h : wfIdxRecs fs sub hi lo (r :: rs) = true) :
    ∃ child nb, r.isIdx = true ∧ r.ei_block = lo ∧ idxChildBlk r < 4294967296 ∧
      fs.readBlk (idxChildBlk r) = Except.ok child ∧
      ext2fs_extent_header_verify child.hdr (fs.blocksize : Int) = 0 ∧
      sub lo nb child = true ∧
      wfIdxRecs fs sub hi nb rs = true ∧
      (∀ r2 t, rs = r2 :: t → nb = r2.ei_block) ∧
      (rs = [] → nb = hi) := by
  cases rs with
  | nil =>
    rcases wfIdxRecs_cons_nil fs sub hi lo r h with ⟨child, h1, h2, hf, h3, h4, h5⟩
    exact ⟨child, hi, h1, h2, hf, h3, h4, h5, rfl, fun r2 t ht => by simp at ht, fun _ => rfl⟩
  | cons r2 t =>
    rcases wfIdxRecs_cons_cons fs sub hi lo r r2 t h with ⟨child, h1, h2, hf, h3, h4, h5, h6⟩
    exact ⟨child, r2.ei_block, h1, h2, hf, h3, h4, h5, h6,
      fun r3 t3 ht => by injection ht with ha hb; rw [ha], fun hh => by simp at hh⟩

theorem sufLeaves_wf (fs : Filsys) (e hi : Nat) : ∀ (rs : List NodeRec) (lo2 : Nat),
    wfIdxRecs fs (wfNode fs e) hi lo2 rs = true → rs ≠ [] →
    wfLeafRecs hi lo2 ((rs.map (fun r =>
      match fs.readBlk (idxChildBlk r) with
      | Except.ok c => nodeLeaves fs e c
      | Except.error _ => [])).flatten) = true ∧
    (∃ x xs, (rs.map (fun r =>
      match fs.readBlk (idxChildBlk r) with
      | Except.ok c => nodeLeaves fs e c
      | Except.error _ => [])).flatten = x :: xs ∧ leafLblk x = lo2) ∧
    lo2 < hi := by
  intro rs
  induction rs with
  | nil =>
    intro lo2 _ hne2
    exact absurd rfl hne2
  | cons r t iht =>
    intro lo2 hidx2 _
    cases t with
    | nil =>
      rcases wfIdxRecs_cons_nil fs (wfNode fs e) hi lo2 r hidx2 with
        ⟨child, hIdx, hBlk, _, hRead, hVer, hSub⟩
      rcases nodeLeaves_wf fs e lo2 hi child hSub with ⟨hchC, ⟨x, xs, hCL, hxlo⟩, hlohiC⟩
      simp only [List.map_cons, List.map_nil, List.flatten_cons, List.flatten_nil,
        List.append_nil, hRead]
      exact ⟨hchC, ⟨x, xs, hCL, hxlo⟩, hlohiC⟩
    | cons r2 t2 =>
      rcases wfIdxRecs_cons_cons fs (wfNode fs e) hi lo2 r r2 t2 hidx2 with
        ⟨child, hIdx, hBlk, _, hRead, hVer, hSub, hRest⟩
      rcases nodeLeaves_wf fs e lo2 r2.ei_block child hSub with
        ⟨hchC, ⟨x, xs, hCL, hxlo⟩, hlohiC⟩
      rcases iht r2.ei_block hRest (by simp) with ⟨hchT, ⟨y, ys, hTL, hylo⟩, hlohiT⟩
      simp only [List.map_cons, List.flatten_cons, hRead]
      refine ⟨?_, ?_, by omega⟩
      · exact wfLeafRecs_append hi r2.ei_block lo2 (nodeLeaves fs e child) _
          hchC hchT (by omega) (by omega)
      · refine ⟨x, xs ++ ((r2 :: t2).map (fun r =>
          match fs.readBlk (idxChildBlk r) with
          | Except.ok c => nodeLeaves fs e c
          | Except.error _ => [])).flatten, ?_, hxlo⟩
        rw [hCL]
        rfl

theorem lastLE_isSome_of_head (b : Nat) (B : List NodeRec) (x : NodeRec)
    (xs : List NodeRec) (hB : B = x :: xs) (hx : leafLblk x ≤ b) :
    ∃ y, lastLE b B = some y := by
  subst hB
  rw [lastLE_cons]
  cases h : lastLE b xs with
  | some a => exact ⟨a, rfl⟩
  | none => exact ⟨x, by rw [if_pos hx]⟩

theorem lastLE_localize (b : Nat) (A B C : List NodeRec) (hC : lastLE b C = none)
    (hB : ∃ y, lastLE b B = some y) :
    lastLE b (A ++ (B ++ C)) = lastLE b B := by
  rcases hB with ⟨y, hy⟩
  rw [lastLE_append, lastLE_append, hC, hy]

theorem lastLE_skip_left (b : Nat) (A B : List NodeRec)
    (hB : ∃ y, lastLE b B = some y) :
    lastLE b (A ++ B) = lastLE b B := by
  rcases hB with ⟨y, hy⟩
  rw [lastLE_append, hy]

theorem lastLE_keep_left (b : Nat) (A B : List NodeRec) (hB : lastLE b B = none) :
    lastLE b (A ++ B) = lastLE b A := by
  rw [lastLE_append, hB]

theorem recAt_zero (n : ExtNode) : n.recAt (0 : Int) = n.recs.getD 0 default := by
  unfold ExtNode.recAt
  rw [if_pos le_rfl]
  rfl

theorem descend_step (fs : Filsys) (blk : Nat)
    (himg : fs.flags &&& EXT2_FLAG_IMAGE_FILE = 0 ∨ fs.image_io_differs = false)
    (e : Nat)
    (hV : ∀ (hi fuel : Nat) (H : ExtentHandle) (frames : List ExtentPath) (N : ExtNode)
      (k : Nat) (ext : Ext2fsExtent) (L : NodeRec),
      H.max_depth = H.level + e →
      H.path = some frames →
      frames.length = H.max_depth + 1 →
      (H.frame H.level).buf = some N →
      (H.frame H.level).curr = some (k : Int) →
      (H.frame H.level).entries = (N.recs.length : Int) →
      (H.frame H.level).left = (N.recs.length : Int) - 1 - (k : Int) →
      (H.frame H.level).visit_num = 0 →
      k < N.recs.length →
      (e = 0 → ext.e_lblk = leafLblk (N.recs.getD k default) ∧
        ext.e_len = leafLen (N.recs.getD k default) ∧
        wfLeafRecs hi (leafLblk (N.recs.getD k default)) (N.recs.drop k) = true ∧
        leafLblk (N.recs.getD k default) ≤ blk ∧
        lastLE blk (N.recs.drop k) = some L) →
      (∀ e2, e = e2 + 1 →
        wfIdxRecs fs (wfNode fs e2) hi ((N.recs.getD k default).ei_block)
          (N.recs.drop k) = true ∧
        (N.recs.getD k default).ei_block ≤ blk ∧
        lastLE blk (((N.recs.drop k).map (fun r =>
          match fs.readBlk (idxChildBlk r) with
          | Except.ok c => nodeLeaves fs e2 c
          | Except.error _ => [])).flatten) = some L) →
      65536 * e + (N.recs.length - k) ≤ fuel →
      ∃ (H1 : ExtentHandle) (frames1 : List ExtentPath) (M : ExtNode) (m : Nat),
        extentGotoLoop fs 0 blk fuel false ext H =
          ((if blk < leafEnd L then 0 else EXT2_ET_EXTENT_NOT_FOUND), H1) ∧
        H1.path = some frames1 ∧
        H1.level = H1.max_depth ∧
        (H1.frame H1.level).buf = some M ∧
        (H1.frame H1.level).curr = some (m : Int) ∧
        (H1.frame H1.level).visit_num = 0 ∧
        M.recs.getD m default = L) :
    ∀ (nb fuel : Nat) (H : ExtentHandle) (frames : List ExtentPath) (N child : ExtNode)
      (k : Nat) (ext : Ext2fsExtent) (L : NodeRec),
      H.max_depth = H.level + e + 1 →
      H.path = some frames →
      frames.length = H.max_depth + 1 →
      (H.frame H.level).buf = some N →
      (H.frame H.level).curr = some (k : Int) →
      idxChildBlk (N.recs.getD k default) < 4294967296 →
      fs.readBlk (idxChildBlk (N.recs.getD k default)) = Except.ok child →
      ext2fs_extent_header_verify child.hdr (fs.blocksize : Int) = 0 →
      wfNode fs e ((N.recs.getD k default).ei_block) nb child = true →
      (N.recs.getD k default).ei_block ≤ blk →
      lastLE blk (nodeLeaves fs e child) = some L →
      65536 * e + 65536 ≤ fuel →
      ∃ (H1 : ExtentHandle) (frames1 : List ExtentPath) (M : ExtNode) (m : Nat),
        extentGotoLoop fs 0 blk fuel true ext H =
          ((if blk < leafEnd L then 0 else EXT2_ET_EXTENT_NOT_FOUND), H1) ∧
        H1.path = some frames1 ∧
        H1.level = H1.max_depth ∧
        (H1.frame H1.level).buf = some M ∧
        (H1.frame H1.level).curr = some (m : Int) ∧
        (H1.frame H1.level).visit_num = 0 ∧
        M.recs.getD m default = L := by
  intro nb fuel H frames N child k ext L he hp hflen hbuf hc hfit hread hver hwf hkm hlast
    hfuel
  obtain ⟨f, rfl⟩ : ∃ f, fuel = f + 1 := ⟨fuel - 1, by omega⟩
  rw [gotoLoop_true_unfold]
  have hlt : H.level < H.max_depth := by omega
  have hlen1 : H.level + 1 < frames.length := by omega
  have himg2 : ¬ (fs.flags &&& EXT2_FLAG_IMAGE_FILE ≠ 0 ∧ fs.image_io_differs = true) := by
    rintro ⟨ha, hb⟩
    rcases himg with hx | hx
    · exact ha hx
    · rw [hx] at hb
      exact absurd hb (by decide)
  have hreadB : fs.readBlk (le32 ((N.recAt (k : Int)).ei_leaf +
      (N.recAt (k : Int)).ei_leaf_hi * 4294967296)) = Except.ok child := by
    rw [recAt_natCast]
    show fs.readBlk (le32 (idxChildBlk (N.recs.getD k default))) = Except.ok child
    unfold le32
    rw [Nat.mod_eq_of_lt hfit]
    exact hread
  rw [get_down_full_ok fs H frames N child (k : Int) hp hlen1 hbuf hc hlt himg2 hreadB hver]
  dsimp only
  set Pd : ExtentPath := {
    buf := some child
    entries := (le16 child.hdr.eh_entries : Int)
    max_entries := (le16 child.hdr.eh_max : Int)
    left := (le16 child.hdr.eh_entries : Int) - 1
    visit_num := 0
    end_blk := if (H.frame H.level).left > 0 then ((N.recAt ((k : Int) + 1)).ei_block)
      else (H.frame H.level).end_blk
    curr := some 0 } with hPd
  set H2 : ExtentHandle := { H with
    level := H.level + 1
    path := some (frames.set (H.level + 1) Pd) } with hH2
  have hp2 : H2.path = some (frames.set (H.level + 1) Pd) := rfl
  have hl2 : H2.level = H.level + 1 := rfl
  have hmd2 : H2.max_depth = H.max_depth := rfl
  have hflen2 : (frames.set (H.level + 1) Pd).length = H2.max_depth + 1 := by
    rw [List.length_set, hmd2]
    exact hflen
  have hfr2 : H2.frame H2.level = Pd := by
    unfold ExtentHandle.frame
    rw [hp2, hl2]
    show (frames.set (H.level + 1) Pd).getD (H.level + 1) defaultPath = Pd
    exact list_getD_set_self frames (H.level + 1) Pd defaultPath hlen1
  have hshape := wfNode_shape fs e ((N.recs.getD k default).ei_block) nb child hwf
  rcases nodeShapeOk_dest child hshape with ⟨hch_len, hch_pos⟩
  have hlen_le := shape_len_le child hshape
  rcases nodeLeaves_wf fs e ((N.recs.getD k default).ei_block) nb child hwf with
    ⟨hchain, ⟨x0, xs0, hx0, hx0lo⟩, hlohi⟩
  refine hV nb f H2 (frames.set (H.level + 1) Pd) child 0 (decodeCurrentExtent H2 0) L
    (by rw [hl2, hmd2]; omega) hp2 hflen2
    (by rw [hfr2]) (by rw [hfr2]; rfl)
    (by rw [hfr2]; show ((le16 child.hdr.eh_entries : Nat) : Int) = _; rw [hch_len])
    (by rw [hfr2]
        show ((le16 child.hdr.eh_entries : Nat) : Int) - 1 = _
        rw [hch_len]
        push_cast
        ring)
    (by rw [hfr2]) hch_pos ?_ ?_ (by omega)
  · intro he0
    subst he0
    have hld2 : H2.level = H2.max_depth := by
      rw [hl2, hmd2]
      omega
    have hdec : decodeCurrentExtent H2 0 = decodeLeafExtent (child.recs.getD 0 default) := by
      rw [decode_leaf_plain H2 child 0 (by rw [hfr2]) hld2 (by rw [hfr2]), recAt_zero]
    have hchainb : wfLeafRecs nb ((N.recs.getD k default).ei_block) child.recs = true :=
      hchain
    have hcrb : child.recs = x0 :: xs0 := hx0
    have hlastb : lastLE blk child.recs = some L := hlast
    have hg0 : child.recs.getD 0 default = x0 := by
      rw [hcrb]
      rfl
    refine ⟨by rw [hdec, decodeLeafExtent_lblk], by rw [hdec, decodeLeafExtent_len],
      ?_, ?_, ?_⟩
    · rw [List.drop_zero, hg0, hx0lo]
      exact hchainb
    · rw [hg0, hx0lo]
      exact hkm
    · rw [List.drop_zero]
      exact hlastb
  · intro e2 he2
    subst he2
    rcases wfNode_succ_dest fs e2 _ nb child hwf with ⟨hs2, hidx2⟩
    have hne : child.recs ≠ [] := by
      cases hcr : child.recs with
      | nil =>
        rw [hcr] at hch_pos
        simp at hch_pos
      | cons a b => simp
    cases hcr : child.recs with
    | nil => exact absurd hcr hne
    | cons c0 ct =>
      rw [hcr] at hidx2
      rcases wfIdxRecs_head fs (wfNode fs e2) nb _ c0 ct hidx2 with
        ⟨cc, cnb, hcIdx, hcBlk, _, hcRead, hcVer, hcSub, hcRest, hcNbCons, hcNbNil⟩
      refine ⟨?_, ?_, ?_⟩
      · rw [List.drop_zero]
        rw [show ((c0 :: ct).getD 0 default) = c0 from rfl, hcBlk]
        exact hidx2
      · rw [show ((c0 :: ct).getD 0 default) = c0 from rfl, hcBlk]
        exact hkm
      · rw [List.drop_zero]
        rw [← hcr, ← nodeLeaves_succ]
        exact hlast

theorem goto_walk (fs : Filsys) (blk : Nat)
    (himg : fs.flags &&& EXT2_FLAG_IMAGE_FILE = 0 ∨ fs.image_io_differs = false) :
    ∀ (e : Nat) (hi fuel : Nat) (H : ExtentHandle) (frames : List ExtentPath) (N : ExtNode)
      (k : Nat) (ext : Ext2fsExtent) (L : NodeRec),
      H.max_depth = H.level + e →
      H.path = some frames →
      frames.length = H.max_depth + 1 →
      (H.frame H.level).buf = some N →
      (H.frame H.level).curr = some (k : Int) →
      (H.frame H.level).entries = (N.recs.length : Int) →
      (H.frame H.level).left = (N.recs.length : Int) - 1 - (k : Int) →
      (H.frame H.level).visit_num = 0 →
      k < N.recs.length →
      (e = 0 → ext.e_lblk = leafLblk (N.recs.getD k default) ∧
        ext.e_len = leafLen (N.recs.getD k default) ∧
        wfLeafRecs hi (leafLblk (N.recs.getD k default)) (N.recs.drop k) = true ∧
        leafLblk (N.recs.getD k default) ≤ blk ∧
        lastLE blk (N.recs.drop k) = some L) →
      (∀ e2, e = e2 + 1 →
        wfIdxRecs fs (wfNode fs e2) hi ((N.recs.getD k default).ei_block)
          (N.recs.drop k) = true ∧
        (N.recs.getD k default).ei_block ≤ blk ∧
        lastLE blk (((N.recs.drop k).map (fun r =>
          match fs.readBlk (idxChildBlk r) with
          | Except.ok c => nodeLeaves fs e2 c
          | Except.error _ => [])).flatten) = some L) →
      65536 * e + (N.recs.length - k) ≤ fuel →
      ∃ (H1 : ExtentHandle) (frames1 : List ExtentPath) (M : ExtNode) (m : Nat),
        extentGotoLoop fs 0 blk fuel false ext H =
          ((if blk < leafEnd L then 0 else EXT2_ET_EXTENT_NOT_FOUND), H1) ∧
        H1.path = some frames1 ∧
        H1.level = H1.max_depth ∧
        (H1.frame H1.level).buf = some M ∧
        (H1.frame H1.level).curr = some (m : Int) ∧
        (H1.frame H1.level).visit_num = 0 ∧
        M.recs.getD m default = L := by
  intro e
  induction e with
  | zero =>
    intro hi fuel H frames N k ext L he hp hflen hbuf hc hent hleft hv hk hcond0 hcondS hfuel
    rcases hcond0 rfl with ⟨hx1, hx2, hch, hkb, hlast⟩
    have hld : H.level = H.max_depth := by omega
    have hlen : H.level < frames.length := by omega
    obtain ⟨H1, frames1, m, heq, hpa, hlv, hbu, hcu, hvi, hgd⟩ :=
      leaf_walk fs blk hi fuel H frames N k ext L hp hlen hld hbuf hc hent hleft hv hk
        hx1 hx2 hch hkb hlast (by omega)
    exact ⟨H1, frames1, N, m, heq, hpa, hlv, hbu, hcu, hvi, hgd⟩
  | succ e ih =>
    have hD := descend_step fs blk himg e ih
    intro hi fuel
    induction fuel with
    | zero =>
      intro H frames N k ext L he hp hflen hbuf hc hent hleft hv hk hcond0 hcondS hfuel
      omega
    | succ f ihf =>
      intro H frames N k ext L he hp hflen hbuf hc hent hleft hv hk hcond0 hcondS hfuel
      rcases hcondS e rfl with ⟨hidx, hkm, hlast⟩
      have hnl : ¬ ((H.level : Int) - ((0 : Nat) : Int) = (H.max_depth : Int)) := by
        push_cast
        omega
      rw [gotoLoop_false_unfold, if_neg hnl]
      have hdrop : N.recs.drop k = N.recs.getD k default :: N.recs.drop (k + 1) :=
        list_drop_eq_cons _ k default hk
      rw [hdrop] at hidx hlast
      rcases wfIdxRecs_head fs (wfNode fs e) hi _ _ _ hidx with
        ⟨childk, cnb, hkIdx, hkBlk, hkFit, hkRead, hkVer, hkSub, hkRest, hkNbCons, hkNbNil⟩
      have hmapcons : (((N.recs.getD k default :: N.recs.drop (k + 1)).map (fun r =>
          match fs.readBlk (idxChildBlk r) with
          | Except.ok c => nodeLeaves fs e c
          | Except.error _ => [])).flatten) =
          nodeLeaves fs e childk ++ (((N.recs.drop (k + 1)).map (fun r =>
            match fs.readBlk (idxChildBlk r) with
            | Except.ok c => nodeLeaves fs e c
            | Except.error _ => [])).flatten) := by
        simp only [List.map_cons, List.flatten_cons, hkRead]
      rw [hmapcons] at hlast
      rcases nodeLeaves_wf fs e ((N.recs.getD k default).ei_block) cnb childk hkSub with
        ⟨hkchain, ⟨ck0, ckx, hck0, hck0lo⟩, hkord⟩
      cases hdropB : N.recs.drop (k + 1) with
      | nil =>
        have hkl : N.recs.length ≤ k + 1 := by
          have h2 : (N.recs.drop (k + 1)).length = N.recs.length - (k + 1) :=
            List.length_drop _ _
          rw [hdropB] at h2
          simp at h2
          omega
        have hl0 : (H.frame H.level).left ≤ 0 := by
          rw [hleft]
          omega
        rw [get_nextsib_err fs H frames hp hl0]
        dsimp only
        rw [if_pos rfl]
        rw [hdropB] at hlast
        simp only [List.map_nil, List.flatten_nil, List.append_nil] at hlast
        have hcnb : cnb = hi := hkNbNil hdropB
        rw [hcnb] at hkSub
        exact hD hi f H frames N childk k ext L (by omega) hp hflen hbuf hc hkFit hkRead
          hkVer hkSub hkm hlast (by omega)
      | cons r1 rest2 =>
        have hk1 : k + 1 < N.recs.length := length_lt_of_drop_cons _ k r1 rest2 hdropB
        have hr1 : N.recs.getD (k + 1) default = r1 :=
          getD_succ_of_drop _ k r1 rest2 hdropB hk1
        have hlpos : 0 < (H.frame H.level).left := by
          rw [hleft]
          omega
        rw [get_nextsib_ok fs H frames hp (k : Int) hc hlpos]
        set P1 : ExtentPath := { H.frame H.level with
          left := (H.frame H.level).left - 1
          curr := some ((k : Int) + 1)
          visit_num := 0 } with hP1
        set H1 : ExtentHandle := H.setFrame H.level P1 with hH1
        dsimp only
        have hp1 : H1.path = some (frames.set H.level P1) :=
          path_setFrame H frames hp H.level P1
        have hlv1 : H1.level = H.level := rfl
        have hmd1 : H1.max_depth = H.max_depth := rfl
        have hlen0 : H.level < frames.length := by omega
        have hfr1 : H1.frame H1.level = P1 := frame_after_setFrame H frames hp hlen0 P1
        have hflen1 : (frames.set H.level P1).length = H1.max_depth + 1 := by
          rw [List.length_set, hmd1]
          exact hflen
        have hbuf1 : (H1.frame H1.level).buf = some N := by
          rw [hfr1]
          exact hbuf
        have hc1 : (H1.frame H1.level).curr = some ((k + 1 : Nat) : Int) := by
          rw [hfr1]
          show some ((k : Int) + 1) = _
          rw [intCast_succ]
        have hc1b : (H1.frame H1.level).curr = some ((k : Int) + 1) := by
          rw [hfr1]
        have hent1 : (H1.frame H1.level).entries = (N.recs.length : Int) := by
          rw [hfr1]
          exact hent
        have hleft1 : (H1.frame H1.level).left =
            (N.recs.length : Int) - 1 - ((k + 1 : Nat) : Int) := by
          rw [hfr1]
          show (H.frame H.level).left - 1 = _
          rw [hleft]
          push_cast
          ring
        have hv1 : (H1.frame H1.level).visit_num = 0 := by
          rw [hfr1]
        have he1 : H1.max_depth = H1.level + (e + 1) := by
          rw [hlv1, hmd1]
          exact he
        have hne1 : H1.level ≠ H1.max_depth := by
          rw [hlv1, hmd1]
          omega
        have hlb1 : (decodeCurrentExtent H1 ((k : Int) + 1)).e_lblk = r1.ei_block := by
          rw [decode_interior_lblk H1 N ((k : Int) + 1) hbuf1 hne1, intCast_succ,
            recAt_natCast, hr1]
        rw [hlb1]
        rw [hdropB] at hkRest
        have hcnb : cnb = r1.ei_block := hkNbCons r1 rest2 hdropB
        subst hcnb
        rcases wfIdxRecs_head fs (wfNode fs e) hi _ _ _ hkRest with
          ⟨child1, nb1, h1Idx, h1Blk, h1Fit, h1Read, h1Ver, h1Sub, h1Rest, h1NbCons, h1NbNil⟩
        rcases nodeLeaves_wf fs e r1.ei_block nb1 child1 h1Sub with
          ⟨h1chain, ⟨c10, c1x, h1c0, h1c0lo⟩, h1ord⟩
        have hmap1 : (((N.recs.drop (k + 1)).map (fun r =>
            match fs.readBlk (idxChildBlk r) with
            | Except.ok c => nodeLeaves fs e c
            | Except.error _ => [])).flatten) =
            nodeLeaves fs e child1 ++ ((rest2.map (fun r =>
              match fs.readBlk (idxChildBlk r) with
              | Except.ok c => nodeLeaves fs e c
              | Except.error _ => [])).flatten) := by
          rw [hdropB]
          simp only [List.map_cons, List.flatten_cons, h1Read]
        by_cases heq1 : blk = r1.ei_block
        · rw [if_pos heq1]
          have hrestnone : lastLE blk ((rest2.map (fun r =>
              match fs.readBlk (idxChildBlk r) with
              | Except.ok c => nodeLeaves fs e c
              | Except.error _ => [])).flatten) = none := by
            cases rest2 with
            | nil => rfl
            | cons r2 t2 =>
              have hnb : nb1 = r2.ei_block := h1NbCons r2 t2 rfl
              subst hnb
              rcases sufLeaves_wf fs e hi (r2 :: t2) r2.ei_block h1Rest (by simp) with
                ⟨hchT, _, _⟩
              refine lastLE_none_of_gt blk _ (fun r hr => ?_)
              have hz := (wfLeafRecs_all_lo hi _ _ hchT r hr).1
              omega
          have hsome1 : ∃ y, lastLE blk (nodeLeaves fs e child1) = some y :=
            lastLE_isSome_of_head blk _ c10 c1x h1c0 (by rw [h1c0lo]; omega)
          have hlast1 : lastLE blk (nodeLeaves fs e child1) = some L := by
            rw [hmap1] at hlast
            rw [lastLE_localize blk (nodeLeaves fs e childk) _ _ hrestnone hsome1] at hlast
            exact hlast
          exact hD nb1 f H1 (frames.set H.level P1) N child1 (k + 1) _ L
            (by rw [hlv1, hmd1]; omega) hp1 hflen1 hbuf1 hc1
            (by rw [hr1]; exact h1Fit)
            (by rw [hr1]; exact h1Read) h1Ver (by rw [hr1]; exact h1Sub)
            (by rw [hr1]; omega) hlast1 (by omega)
        · rw [if_neg heq1]
          by_cases hgt1 : blk > r1.ei_block
          · rw [if_pos hgt1]
            have hsome1 : ∃ y, lastLE blk (((N.recs.drop (k + 1)).map (fun r =>
                match fs.readBlk (idxChildBlk r) with
                | Except.ok c => nodeLeaves fs e c
                | Except.error _ => [])).flatten) = some y := by
              refine lastLE_isSome_of_head blk _ c10 (c1x ++ ((rest2.map (fun r =>
                match fs.readBlk (idxChildBlk r) with
                | Except.ok c => nodeLeaves fs e c
                | Except.error _ => [])).flatten)) ?_ (by rw [h1c0lo]; omega)
              rw [hmap1, h1c0]
              rfl
            have hlast1 : lastLE blk (((N.recs.drop (k + 1)).map (fun r =>
                match fs.readBlk (idxChildBlk r) with
                | Except.ok c => nodeLeaves fs e c
                | Except.error _ => [])).flatten) = some L := by
              rw [lastLE_skip_left blk _ _ hsome1] at hlast
              exact hlast
            refine ihf H1 (frames.set H.level P1) N (k + 1) _ L he1 hp1 hflen1 hbuf1 hc1
              hent1 hleft1 hv1 hk1 (fun hz => absurd hz (by omega)) ?_ (by omega)
            intro e2 he2
            have he2e : e2 = e := by omega
            subst he2e
            refine ⟨?_, ?_, ?_⟩
            · rw [hr1, hdropB]
              exact hkRest
            · rw [hr1]
              omega
            · exact hlast1
          · rw [if_neg hgt1]
            have hps : ¬ (H1.frame H1.level).left + 1 ≥ (H1.frame H1.level).entries := by
              rw [hleft1, hent1]
              push_cast
              omega
            rw [get_prevsib_ok fs H1 (frames.set H.level P1) hp1 ((k : Int) + 1) hc1b hps]
            set P2 : ExtentPath := { H1.frame H1.level with
              curr := some ((k : Int) + 1 - 1)
              left := (H1.frame H1.level).left + 1
              visit_num := if H1.level < H1.max_depth then 1
                else (H1.frame H1.level).visit_num } with hP2
            set H2 : ExtentHandle := H1.setFrame H1.level P2 with hH2
            dsimp only
            have hp2 : H2.path = some ((frames.set H.level P1).set H1.level P2) :=
              path_setFrame H1 _ hp1 H1.level P2
            have hfr2 : H2.frame H2.level = P2 :=
              frame_after_setFrame H1 (frames.set H.level P1) hp1
                (by rw [hlv1, List.length_set]; omega) P2
            have hbuf2 : (H2.frame H2.level).buf = some N := by
              rw [hfr2]
              show (H1.frame H1.level).buf = some N
              exact hbuf1
            have hc2 : (H2.frame H2.level).curr = some ((k : Nat) : Int) := by
              rw [hfr2]
              show some ((k : Int) + 1 - 1) = _
              congr 1
              ring
            have hflen2 : ((frames.set H.level P1).set H1.level P2).length =
                H2.max_depth + 1 := by
              rw [List.length_set, List.length_set]
              exact hflen
            have hnone1 : lastLE blk (((N.recs.drop (k + 1)).map (fun r =>
                match fs.readBlk (idxChildBlk r) with
                | Except.ok c => nodeLeaves fs e c
                | Except.error _ => [])).flatten) = none := by
              rw [hmap1]
              refine lastLE_none_of_gt blk _ (fun r hr => ?_)
              rcases List.mem_append.mp hr with hr1m | hr2m
              · have hz := (wfLeafRecs_all_lo nb1 _ _ h1chain r hr1m).1
                omega
              · cases rest2 with
                | nil => simp at hr2m
                | cons r2 t2 =>
                  have hnb : nb1 = r2.ei_block := h1NbCons r2 t2 rfl
                  rcases sufLeaves_wf fs e hi (r2 :: t2) r2.ei_block
                    (by rw [← hnb]; exact h1Rest) (by simp) with ⟨hchT, _, _⟩
                  have hz := (wfLeafRecs_all_lo hi _ _ hchT r hr2m).1
                  omega
            have hlast2 : lastLE blk (nodeLeaves fs e childk) = some L := by
              rw [lastLE_keep_left blk _ _ hnone1] at hlast
              exact hlast
            exact hD r1.ei_block f H2 ((frames.set H.level P1).set H1.level P2) N childk k
              _ L (by show H.max_depth = H.level + e + 1; omega) hp2 hflen2 hbuf2 hc2
              hkFit hkRead hkVer hkSub hkm hlast2 (by omega)

theorem goto_correct (fs : Filsys) (h : ExtentHandle) (root : ExtNode)
    (lo hi blk : Nat) (L : NodeRec)
    (hg : wfGotoHandle fs h root = true)
    (hwf : wfNode fs h.max_depth lo hi root = true)
    (hlast : lastLE blk (nodeLeaves fs h.max_depth root) = some L) :
    (ext2fs_extent_goto fs h blk).1 =
      (if blk < leafEnd L then 0 else EXT2_ET_EXTENT_NOT_FOUND) ∧
    (ext2fs_extent_get fs (ext2fs_extent_goto fs h blk).2 EXT2_EXTENT_CURRENT).1 =
      Except.ok (decodeLeafExtent L) := by
  unfold wfGotoHandle at hg
  cases hpath : h.path with
  | none =>
    rw [hpath] at hg
    simp at hg
  | some frames =>
    rw [hpath] at hg
    simp only [Bool.and_eq_true, Bool.or_eq_true, decide_eq_true_eq,
      Bool.not_eq_true'] at hg
    obtain ⟨⟨⟨hflen, hbuf0⟩, hent0⟩, himg⟩ := hg
    have hshape := wfNode_shape fs h.max_depth lo hi root hwf
    rcases nodeShapeOk_dest root hshape with ⟨hroot_len, hroot_pos⟩
    have hlen_le := shape_len_le root hshape
    have hlo_blk : lo ≤ blk := by
      rcases nodeLeaves_wf fs h.max_depth lo hi root hwf with ⟨hchain, _, _⟩
      rcases lastLE_mem blk _ L hlast with ⟨hmem, hLb⟩
      have hz := (wfLeafRecs_all_lo hi lo _ hchain L hmem).1
      omega
    have h0len : 0 < frames.length := by omega
    have hent_pos : 0 < (h.frame 0).entries := by
      rw [hent0]
      have : le16 root.hdr.eh_entries = root.recs.length := hroot_len
      omega
    unfold ext2fs_extent_goto extent_goto
    rw [get_root_ok fs h frames hpath h0len hent_pos]
    set P0 : ExtentPath := { h.frame 0 with
      left := (h.frame 0).entries - 1
      curr := some 0
      visit_num := 0 } with hP0
    set HR : ExtentHandle := { h with
      level := 0
      path := some (frames.set 0 P0) } with hHR
    dsimp only
    have hpR : HR.path = some (frames.set 0 P0) := rfl
    have hlvR : HR.level = 0 := rfl
    have hmdR : HR.max_depth = h.max_depth := rfl
    have hfrR : HR.frame HR.level = P0 := by
      unfold ExtentHandle.frame
      rw [hpR, hlvR]
      show (frames.set 0 P0).getD 0 defaultPath = P0
      exact list_getD_set_self frames 0 P0 defaultPath h0len
    have hflenR : (frames.set 0 P0).length = HR.max_depth + 1 := by
      rw [List.length_set, hmdR]
      exact hflen
    have hbufR : (HR.frame HR.level).buf = some root := by
      rw [hfrR]
      exact hbuf0
    have hcR : (HR.frame HR.level).curr = some ((0 : Nat) : Int) := by
      rw [hfrR]
      rfl
    have hentR : (HR.frame HR.level).entries = (root.recs.length : Int) := by
      rw [hfrR]
      show (h.frame 0).entries = _
      rw [hent0, hroot_len]
    have hleftR : (HR.frame HR.level).left =
        (root.recs.length : Int) - 1 - ((0 : Nat) : Int) := by
      rw [hfrR]
      show (h.frame 0).entries - 1 = _
      rw [hent0, hroot_len]
      push_cast
      ring
    have hvR : (HR.frame HR.level).visit_num = 0 := by
      rw [hfrR]
    have heR : HR.max_depth = HR.level + h.max_depth := by
      rw [hlvR, hmdR]
      omega
    have hcond0 : h.max_depth = 0 →
        (decodeCurrentExtent HR 0).e_lblk = leafLblk (root.recs.getD 0 default) ∧
        (decodeCurrentExtent HR 0).e_len = leafLen (root.recs.getD 0 default) ∧
        wfLeafRecs hi (leafLblk (root.recs.getD 0 default)) (root.recs.drop 0) = true ∧
        leafLblk (root.recs.getD 0 default) ≤ blk ∧
        lastLE blk (root.recs.drop 0) = some L := by
      intro he0
      have hdec : decodeCurrentExtent HR 0 =
          decodeLeafExtent (root.recs.getD 0 default) := by
        rw [decode_leaf_plain HR root 0 hbufR (by rw [hlvR, hmdR, he0]) hvR, recAt_zero]
      rw [he0] at hwf
      rcases wfNode_zero_dest fs lo hi root hwf with ⟨_, ⟨r0, rs0, hr0, hr0lo⟩, hch⟩
      have hg0 : root.recs.getD 0 default = r0 := by
        rw [hr0]
        rfl
      have hleaves : nodeLeaves fs h.max_depth root = root.recs := by
        rw [he0]
        rfl
      refine ⟨by rw [hdec, decodeLeafExtent_lblk], by rw [hdec, decodeLeafExtent_len],
        ?_, ?_, ?_⟩
      · rw [List.drop_zero, hg0, hr0lo]
        exact hch
      · rw [hg0, hr0lo]
        exact hlo_blk
      · rw [List.drop_zero]
        rw [hleaves] at hlast
        exact hlast
    have hcondS : ∀ e2, h.max_depth = e2 + 1 →
        wfIdxRecs fs (wfNode fs e2) hi ((root.recs.getD 0 default).ei_block)
          (root.recs.drop 0) = true ∧
        (root.recs.getD 0 default).ei_block ≤ blk ∧
        lastLE blk (((root.recs.drop 0).map (fun r =>
          match fs.readBlk (idxChildBlk r) with
          | Except.ok c => nodeLeaves fs e2 c
          | Except.error _ => [])).flatten) = some L := by
      intro e2 he2
      rw [he2] at hwf
      rcases wfNode_succ_dest fs e2 lo hi root hwf with ⟨_, hidx⟩
      cases hcr : root.recs with
      | nil =>
        rw [hcr] at hroot_pos
        simp at hroot_pos
      | cons c0 ct =>
        rw [hcr] at hidx
        rcases wfIdxRecs_head fs (wfNode fs e2) hi lo c0 ct hidx with
          ⟨cc, cnb, hcIdx, hcBlk, _, hcRead, hcVer, hcSub, hcRest, hcNbCons, hcNbNil⟩
        refine ⟨?_, ?_, ?_⟩
        · rw [List.drop_zero]
          rw [show ((c0 :: ct).getD 0 default) = c0 from rfl, hcBlk]
          exact hidx
        · rw [show ((c0 :: ct).getD 0 default) = c0 from rfl, hcBlk]
          exact hlo_blk
        · rw [List.drop_zero]
          rw [he2, nodeLeaves_succ] at hlast
          rw [← hcr]
          exact hlast
    have hfuelR : 65536 * h.max_depth + (root.recs.length - 0) ≤ gotoFuel HR := by
      show _ ≤ 2 * ((HR.max_depth + 1) * 65538 + 4)
      rw [hmdR]
      omega
    obtain ⟨H1, frames1, M, m, heq, hpa, hlv, hbu, hcu, hvi, hgd⟩ :=
      goto_walk fs blk himg h.max_depth hi (gotoFuel HR) HR (frames.set 0 P0) root 0
        (decodeCurrentExtent HR 0) L heR hpR hflenR hbufR hcR hentR hleftR hvR
        hroot_pos hcond0 hcondS hfuelR
    rw [heq]
    refine ⟨rfl, ?_⟩
    rw [get_current_eq fs H1 frames1 hpa (m : Int) hcu]
    show Except.ok (decodeCurrentExtent H1 (m : Int)) = _
    rw [decode_leaf_plain H1 M (m : Int) hbu hlv hvi, recAt_natCast, hgd]

/-- C1 counterexample: the claim fails as stated over all well-formed trees,
because DOWN stores the 48-bit child address of lines 399..400 into the
32-bit blk_t local of line 253.  Concretely, a tree that is well formed in
every respect except that its single interior child sits at block
2^32 + 5 — the root and child headers verify, the one index record is keyed
at 0, the child reads back at its full 48-bit address and holds one valid
leaf covering logical blocks 0..8 — still fails goto(3) on the covered
block 3: the traversal truncates the child address to block 5, whose read
errors out with code 5, which goto propagates instead of returning 0. -/
theorem goto_truncates_child_block :
    wfGotoHandle fsHiC1 hHiC1 rootHiC1 = true ∧
    nodeShapeOk rootHiC1 = true ∧
    ext2fs_extent_header_verify rootHiC1.hdr 60 = 0 ∧
    (rootHiC1.recs.getD 0 default).isIdx = true ∧
    (rootHiC1.recs.getD 0 default).ei_block = 0 ∧
    idxChildBlk (rootHiC1.recs.getD 0 default) = 4294967301 ∧
    fsHiC1.readBlk (idxChildBlk (rootHiC1.recs.getD 0 default)) = Except.ok childHiC1 ∧
    ext2fs_extent_header_verify childHiC1.hdr (fsHiC1.blocksize : Int) = 0 ∧
    wfNode fsHiC1 0 0 8 childHiC1 = true ∧
    nodeLeaves fsHiC1 1 rootHiC1 = [leafHiC1] ∧
    leafLblk leafHiC1 ≤ 3 ∧ 3 < leafEnd leafHiC1 ∧
    (ext2fs_extent_goto fsHiC1 hHiC1 3).1 = 5 ∧
    (ext2fs_extent_goto fsHiC1 hHiC1 3).1 ≠ 0 := by
  decide

/-- C1, amended: on a well-formed extent tree reachable from the handle,
with every interior child block address below 2^32 (so that it survives the
blk_t truncation of lines 253 and 399..400 unchanged, a bound wfNode
imposes), for every logical block covered by a leaf extent L,
ext2fs_extent_goto returns success and a following get(CURRENT) returns
exactly the decoded L; for every block strictly inside the hole between two
consecutive leaves, it returns EXTENT_NOT_FOUND and leaves the cursor on
the earlier of the two, which a following get(CURRENT) returns. -/
theorem goto_seek_spec (fs : Filsys) (h : ExtentHandle) (root : ExtNode)
    (lo hi blk kk : Nat) (L Lp Ln : NodeRec)
    (hg : wfGotoHandle fs h root = true)
    (hwf : wfNode fs h.max_depth lo hi root = true) :
    (L ∈ nodeLeaves fs h.max_depth root → leafLblk L ≤ blk → blk < leafEnd L →
      (ext2fs_extent_goto fs h blk).1 = 0 ∧
      (ext2fs_extent_get fs (ext2fs_extent_goto fs h blk).2 EXT2_EXTENT_CURRENT).1 =
        Except.ok (decodeLeafExtent L)) ∧
    ((nodeLeaves fs h.max_depth root)[kk]? = some Lp →
      (nodeLeaves fs h.max_depth root)[kk + 1]? = some Ln →
      leafEnd Lp ≤ blk → blk < leafLblk Ln →
      (ext2fs_extent_goto fs h blk).1 = EXT2_ET_EXTENT_NOT_FOUND ∧
      (ext2fs_extent_get fs (ext2fs_extent_goto fs h blk).2 EXT2_EXTENT_CURRENT).1 =
        Except.ok (decodeLeafExtent Lp)) := by
  have hchain := (nodeLeaves_wf fs h.max_depth lo hi root hwf).1
  constructor
  · intro hmem h1 h2
    have hlast := lastLE_covered hi blk lo _ L hchain hmem h1 h2
    have hgc := goto_correct fs h root lo hi blk L hg hwf hlast
    rw [if_pos h2] at hgc
    exact hgc
  · intro hp hn h1 h2
    have hlast := lastLE_hole hi blk kk lo _ Lp Ln hchain hp hn h1 h2
    have hgc := goto_correct fs h root lo hi blk Lp hg hwf hlast
    rw [if_neg (by omega : ¬ blk < leafEnd Lp)] at hgc
    exact hgc

/-- Witness for C1 on the two-level tree of fsC1: block 17 is covered by the
leaf starting at 16, block 13 lies in the hole between the leaves ending at
12 and starting at 16. -/
theorem goto_seek_spec_witness :
    wfGotoHandle fsC1 hC1 rootC1 = true ∧
    wfNode fsC1 hC1.max_depth 0 32 rootC1 = true ∧
    (ext2fs_extent_goto fsC1 hC1 17).1 = 0 ∧
    (ext2fs_extent_get fsC1 (ext2fs_extent_goto fsC1 hC1 17).2 EXT2_EXTENT_CURRENT).1 =
      Except.ok (decodeLeafExtent leafB0) ∧
    (ext2fs_extent_goto fsC1 hC1 13).1 = EXT2_ET_EXTENT_NOT_FOUND ∧
    (ext2fs_extent_get fsC1 (ext2fs_extent_goto fsC1 hC1 13).2 EXT2_EXTENT_CURRENT).1 =
      Except.ok (decodeLeafExtent leafA1) :=
  have hmain17 := (goto_seek_spec fsC1 hC1 rootC1 0 32 17 0 leafB0 leafB0 leafB0
    (by decide) (by decide)).1 (by decide) (by decide) (by decide)
  have hmain13 := (goto_seek_spec fsC1 hC1 rootC1 0 32 13 1 leafB0 leafA1 leafB0
    (by decide) (by decide)).2 (by decide) (by decide) (by decide) (by decide)
  ⟨by decide, by decide, hmain17.1, hmain17.2, hmain13.1, hmain13.2⟩
